import Mathlib

/-!
# Verification of the specification-sheet editor's core transform pipeline

This file gives a shallow embedding, over `List Char` strings, of the core
pure transforms of the spec-sheet editor (`src/main.py`):

* HTML escaping (`_escape_html`) and the ß-normalisation (`_normalize_for_paste`);
* the HTML exporter (`_build_table_from_snapshot` and the de-file path of
  `ExportWorker.run` / `MainWindow.export_table_only`);
* the importer (`MainWindow._parse_specs_file`): the embedded-snapshot marker
  search and the regex-based fallback table parse;
* the scrape value cleaner (`_clean_scraped_value`);
* protected-token masking (`_mask_protected_tokens` / `_unmask_protected_tokens`);
* the offline label translator (`_translate_plain_text` and the
  `_translate_label` closure of `ExportWorker.run`).

Python `str` values are modelled as `List Char`.  Python regular expressions
from the source are embedded as explicit scanning functions; each such
definition's doc comment names the regex it embeds.  External engines
(Argos machine translation, fastText/langid language identification) are
modelled as oracle parameters.
-/

set_option maxRecDepth 100000
set_option maxHeartbeats 1000000

/-- Python `str` is modelled as a list of characters. -/
abbrev Str := List Char

/-- Coerce a Lean string literal to the `List Char` model. -/
def str (s : String) : Str := s.data

/-- The ASCII upper→lower case table. -/
def lowerPairs : List (Char × Char) :=
  [('A','a'), ('B','b'), ('C','c'), ('D','d'), ('E','e'), ('F','f'), ('G','g'),
   ('H','h'), ('I','i'), ('J','j'), ('K','k'), ('L','l'), ('M','m'), ('N','n'),
   ('O','o'), ('P','p'), ('Q','q'), ('R','r'), ('S','s'), ('T','t'), ('U','u'),
   ('V','v'), ('W','w'), ('X','x'), ('Y','y'), ('Z','z')]

/-- ASCII lower-casing of a single character, as used for the embedded
case-insensitive (`re.IGNORECASE`) regex matching.  The source's patterns are
ASCII, so ASCII folding is the relevant part of Python's case folding. -/
def lowerChar (c : Char) : Char :=
  match lowerPairs.find? (fun p => p.1 == c) with
  | some p => p.2
  | none => c

/-- Case-insensitive character comparison. -/
def eqCI (a b : Char) : Bool := lowerChar a == lowerChar b

/-- Python `str.isspace`-style whitespace for the characters that occur in
this code base (`\s` in the embedded regexes, `str.strip`). -/
def isWS (c : Char) : Bool :=
  c == ' ' || c == '\t' || c == '\n' || c == '\r' || c == '\x0b' || c == '\x0c'

/-- ASCII decimal digit (`\d` for the inputs of interest). -/
def isDigitC (c : Char) : Bool := '0' ≤ c && c ≤ '9'

/-- ASCII letter. -/
def isAsciiAlpha (c : Char) : Bool := ('A' ≤ c && c ≤ 'Z') || ('a' ≤ c && c ≤ 'z')

/-- Latin-1 letter block (À–ÿ as used by the source's letter check). -/
def isLatin1Letter (c : Char) : Bool := 'À' ≤ c && c ≤ 'ÿ'

/-- Regex word character `\w` for the character repertoire of this program:
ASCII alphanumerics, underscore, and the Latin-1 word characters of Python's
Unicode-aware `\w` (ª ² ³ µ ¹ º ¼ ½ ¾ and the Latin-1 letters; `×` U+00D7 and
`÷` U+00F7 are not word characters). -/
def isWordC (c : Char) : Bool :=
  isAsciiAlpha c || isDigitC c || c == '_' ||
  c == 'ª' || c == '²' || c == '³' || c == 'µ' || c == '¹' || c == 'º' ||
  c == '¼' || c == '½' || c == '¾' ||
  (isLatin1Letter c && c != '×' && c != '÷')

/-- Case-sensitive "is `p` a prefix of `s`" on the character model. -/
def ipfx : Str → Str → Bool
  | [], _ => true
  | _ :: _, [] => false
  | p :: ps, c :: cs => p == c && ipfx ps cs

/-- Case-insensitive prefix test (for `re.IGNORECASE` literals). -/
def ipfxCI : Str → Str → Bool
  | [], _ => true
  | _ :: _, [] => false
  | p :: ps, c :: cs => eqCI p c && ipfxCI ps cs

/-- First case-sensitive occurrence of `pat` in `s`:
`some (pre, post)` with `s = pre ++ pat ++ post` at the leftmost match. -/
def scanB (pat : Str) : Str → Option (Str × Str)
  | [] => if ipfx pat [] then some ([], []) else none
  | c :: cs =>
    if ipfx pat (c :: cs) then some ([], (c :: cs).drop pat.length)
    else (scanB pat cs).map (fun p => (c :: p.1, p.2))

/-- First case-insensitive occurrence of `pat` in `s`:
`some (pre, m, post)` with `s = pre ++ m ++ post`, `m` the matched original
characters (`m.length = pat.length`). -/
def scanCI (pat : Str) : Str → Option (Str × Str × Str)
  | [] => if ipfxCI pat [] then some ([], [], []) else none
  | c :: cs =>
    if ipfxCI pat (c :: cs) then
      some ([], (c :: cs).take pat.length, (c :: cs).drop pat.length)
    else (scanCI pat cs).map (fun p => (c :: p.1, p.2.1, p.2.2))

/-- Case-sensitive occurrence test. -/
def occB (pat s : Str) : Bool := (scanB pat s).isSome

/-- Case-insensitive occurrence test. -/
def occCI (pat s : Str) : Bool := (scanCI pat s).isSome

/-- Python `str.replace(pat, rep)`: left-to-right, non-overlapping,
replacements are not rescanned.  Fuel-driven; callers use `s.length` fuel. -/
def replaceAllF (pat rep : Str) : Nat → Str → Str
  | 0, s => s
  | _ + 1, [] => []
  | fuel + 1, c :: cs =>
    if ipfx pat (c :: cs) && !pat.isEmpty then
      rep ++ replaceAllF pat rep fuel ((c :: cs).drop pat.length)
    else
      c :: replaceAllF pat rep fuel cs

/-- Python `str.replace(pat, rep)` on the character model. -/
def replaceAll (pat rep s : Str) : Str := replaceAllF pat rep s.length s

/-- Drop leading whitespace (`\s*` / the left half of `str.strip`). -/
def dropWS (s : Str) : Str := s.dropWhile (fun c => isWS c)

/-- Python `str.strip()`. -/
def stripWS (s : Str) : Str := (dropWS ((dropWS s.reverse).reverse))

/-- `"\n".join(lines)` from the exporter. -/
def joinNL : List Str → Str
  | [] => []
  | [x] => x
  | x :: y :: xs => x ++ '\n' :: joinNL (y :: xs)

/-- Auxiliary normal form for `joinNL`: each element prefixed by a newline. -/
def flatNL (xs : List Str) : Str := xs.flatMap (fun l => '\n' :: l)

/-- Embeds `_escape_html` (src/main.py:329-331): replace `&`, `<`, `>`, `"`
in that order. -/
def escape_html (s : Str) : Str :=
  replaceAll (str "\"") (str "&quot;")
    (replaceAll (str ">") (str "&gt;")
      (replaceAll (str "<") (str "&lt;")
        (replaceAll (str "&") (str "&amp;") s)))

/-- Embeds `_normalize_for_paste` (src/main.py:333-335): `ß`→`ss`, `ẞ`→`SS`. -/
def normalize_for_paste (s : Str) : Str :=
  replaceAll (str "ẞ") (str "SS") (replaceAll (str "ß") (str "ss") s)

/-- Embeds Python's `html.unescape` restricted to the four named entities that
`_escape_html` produces; on the strings this program writes (where every `&`
begins one of these entities) this agrees with the full `html.unescape`. -/
def unescape_htmlF : Nat → Str → Str
  | 0, s => s
  | _ + 1, [] => []
  | fuel + 1, c :: rest =>
    if c = '&' then
      if ipfx (str "amp;") rest then '&' :: unescape_htmlF fuel (rest.drop 4)
      else if ipfx (str "lt;") rest then '<' :: unescape_htmlF fuel (rest.drop 3)
      else if ipfx (str "gt;") rest then '>' :: unescape_htmlF fuel (rest.drop 3)
      else if ipfx (str "quot;") rest then '"' :: unescape_htmlF fuel (rest.drop 5)
      else c :: unescape_htmlF fuel rest
    else c :: unescape_htmlF fuel rest

/-- See `unescape_htmlF`: the fuel (one unit per emitted character, and every
step emits one character while consuming at least one) starts at the input's
length, so it never runs out. -/
def unescape_html (s : Str) : Str := unescape_htmlF s.length s

/-- The raw `SPEC_TABLE_CSS` triple-quoted template from src/main.py:141-167,
after its `.strip()`. -/
def SPEC_TABLE_CSS_TEMPLATE : Str := str (
  "<style type=\"text/css\">\n" ++
  "table.specs\x7bwidth:100%;border-collapse:collapse;font-family:Arial, Helvetica, sans-serif;font-size:14px;\x7d\n" ++
  ".specs th,.specs td\x7bborder:1px solid #ddd;padding:8px;vertical-align:top;box-sizing:border-box;\x7d\n" ++
  ".specs th\x7bbackground:#f5f5f5;text-align:right;width:30%;\x7d\n" ++
  ".specs th.category, .specs thead th:last-child\x7btext-align:left;\x7d\n" ++
  ".specs tr:nth-child(even)\x7bbackground:#fafafa;\x7d\n" ++
  ".specs thead th\x7b\n" ++
  "    color: __HEADER_COLOR__;\n" ++
  "    font-size: __HEADER_FONT_PX__px;\n" ++
  "    padding-top: __HEADER_PAD_Y_PX__px;\n" ++
  "    padding-bottom: __HEADER_PAD_Y_PX__px;\n" ++
  "    background: __HEADER_BG__;\n" ++
  "\x7d\n" ++
  ".specs thead th:first-child\x7btext-align:__HEADER_ALIGN_LEFT__;\x7d\n" ++
  ".specs thead th:last-child\x7btext-align:__HEADER_ALIGN_RIGHT__;\x7d\n" ++
  "\n" ++
  "/* Make all rich content inherit the table font/size */\n" ++
  ".specs td,.specs td *\x7bfont-family:inherit !important;font-size:inherit !important;line-height:1.4;\x7d\n" ++
  "\n" ++
  "/* Lists stay inside the cell border and wrap nicely */\n" ++
  ".specs td ul,.specs td ol\x7bmargin:6px 0;padding-left:1.25em;list-style-position:outside;\x7d\n" ++
  ".specs td li\x7bmargin:0.15em 0;\x7d\n" ++
  ".specs td p\x7bmargin:0.3em 0;\x7d\n" ++
  ".specs td *\x7bmax-width:100%;word-break:break-word;overflow-wrap:anywhere;\x7d\n" ++
  "</style>")

/-- The fixed style block written at the top of every export: the template
with the placeholder substitutions of src/main.py:168-183 applied
(`HEADER_ROW_STYLE = "fill"`, accent `#006B8D`, sizes 16/10,
`EXPORT_HEADER_CENTER = False`), including the appended `tr.section` rule. -/
def SPEC_TABLE_CSS : Str :=
  let s1 := replaceAll (str "__HEADER_COLOR__") (str "#ffffff") SPEC_TABLE_CSS_TEMPLATE
  let s2 := replaceAll (str "__HEADER_FONT_PX__") (str "16") s1
  let s3 := replaceAll (str "__HEADER_PAD_Y_PX__") (str "10") s2
  let s4 := replaceAll (str "__HEADER_BG__") (str "#006B8D") s3
  let s5 := replaceAll (str "__HEADER_ALIGN_LEFT__") (str "right") s4
  let s6 := replaceAll (str "__HEADER_ALIGN_RIGHT__") (str "left") s5
  replaceAll (str "</style>")
    (str (".specs tr.section th.section\x7btext-align:center;font-weight:700;" ++
          "color:#ffffff;background:#006B8D;" ++
          "font-size:16px;" ++
          "padding-top:10px;" ++
          "padding-bottom:10px;\x7d\n</style>")) s6

/-- Default column headers (src/main.py:61-62). -/
def DEFAULT_HEADER_LEFT : Str := str "Kategorie"

/-- Default right column header (src/main.py:62). -/
def DEFAULT_HEADER_RIGHT : Str := str "Details"

/-- One snapshot row's emitted lines: the per-row branch of the loop in
`_build_table_from_snapshot` (src/main.py:744-763).  `tl`/`tv` are the
label/value translator callbacks; a `kv` row whose (translated, escaped) key
and translated value are both empty is skipped (`if not (k or v): continue`). -/
def row_lines (tl tv : Str → Str) : Str × Str × Str → List Str
  | (kind, a, b) =>
    if kind = str "section" then
      [str "\t\t<tr class=\"section\">",
       str "\t\t\t<th class=\"section\" colspan=\"2\">" ++ escape_html (tl a) ++ str "</th>",
       str "\t\t</tr>"]
    else if kind = str "cat" then
      [str "\t\t<tr class=\"cat\">",
       str "\t\t\t<th class=\"category\" colspan=\"2\">" ++ escape_html (tl a) ++ str "</th>",
       str "\t\t</tr>"]
    else
      let k := escape_html (tl a)
      let v := tv b
      if k = [] ∧ v = [] then []
      else
        [str "\t\t<tr>",
         str "\t\t\t<th>" ++ k ++ str "</th>",
         str "\t\t\t<td>" ++ v ++ str "</td>",
         str "\t\t</tr>"]

/-- The `<tbody>` rows accumulated by the loop of
`_build_table_from_snapshot` (src/main.py:744-763), in snapshot order. -/
def body_lines (tl tv : Str → Str) (snapshot : List (Str × Str × Str)) : List Str :=
  snapshot.flatMap (row_lines tl tv)

/-- Embeds `_build_table_from_snapshot` (src/main.py:732-767): the `lines`
list right before the final `"\n".join(lines)`. -/
def build_table_lines (snapshot : List (Str × Str × Str)) (left_h right_h : Str)
    (tl tv : Str → Str) : List Str :=
  [SPEC_TABLE_CSS,
   str "<table border=\"1\" class=\"specs\">",
   str "\t<thead>",
   str "\t\t<tr>",
   str "\t\t\t<th>" ++ escape_html (tl left_h) ++ str "</th>",
   str "\t\t\t<th>" ++ escape_html (tl right_h) ++ str "</th>",
   str "\t\t</tr>",
   str "\t</thead>",
   str "\t<tbody>"]
  ++ body_lines tl tv snapshot
  ++ [str "\t</tbody>", str "</table>"]

/-- Embeds `_build_table_from_snapshot` (src/main.py:732-767). -/
def build_table_from_snapshot (snapshot : List (Str × Str × Str)) (left_h right_h : Str)
    (tl tv : Str → Str) : Str :=
  joinNL (build_table_lines snapshot left_h right_h tl tv)

/-- The source-language (de) export file content: identity translators and
`_normalize_for_paste`, as written by `ExportWorker.run` (src/main.py:803-806,
811-812) and the de-only branch of `export_table_only` (src/main.py:2190-2193). -/
def export_de (snapshot : List (Str × Str × Str)) (left_h right_h : Str) : Str :=
  normalize_for_paste (build_table_from_snapshot snapshot left_h right_h id id)

/-- Backtracking search used to embed `re.search`/`re.finditer` patterns that
begin with a literal: try each case-insensitive occurrence of `pat` from left
to right (including overlapping restarts, as the regex engine does) and run
the continuation `k pre post` on the text around it; the first success wins. -/
def trySplitsCIAux (pat : Str) (k : Str → Str → Option α) : Nat → Str → Str → Option α
  | 0, _, _ => none
  | fuel + 1, acc, s =>
    match scanCI pat s with
    | none => none
    | some (pre, m, post) =>
      match k (acc ++ pre) post with
      | some r => some r
      | none =>
        match m ++ post with
        | [] => none
        | c :: rest => trySplitsCIAux pat k fuel (acc ++ pre ++ [c]) rest

/-- Backtracking leftmost-first search for a case-insensitive literal. -/
def trySplitsCI (pat : Str) (k : Str → Str → Option α) (s : Str) : Option α :=
  trySplitsCIAux pat k s.length [] s

/-- Case-sensitive variant of `trySplitsCIAux`. -/
def trySplitsBAux (pat : Str) (k : Str → Str → Option α) : Nat → Str → Str → Option α
  | 0, _, _ => none
  | fuel + 1, acc, s =>
    match scanB pat s with
    | none => none
    | some (pre, post) =>
      match k (acc ++ pre) post with
      | some r => some r
      | none =>
        match pat ++ post with
        | [] => none
        | _ :: _ =>
          match s.drop pre.length with
          | [] => none
          | c :: rest => trySplitsBAux pat k fuel (acc ++ pre ++ [c]) rest

/-- Backtracking leftmost-first search for a case-sensitive literal. -/
def trySplitsB (pat : Str) (k : Str → Str → Option α) (s : Str) : Option α :=
  trySplitsBAux pat k s.length [] s

/-- Embeds the header regex of the fallback import path
(src/main.py:2356-2359):
`<thead>.*?<tr>\s*<th>(.*?)</th>\s*<th>(.*?)</th>\s*</tr>.*?</thead>`
with `re.DOTALL | re.IGNORECASE`; nested `trySplitsCI` calls model the
engine's leftmost-match backtracking, `dropWS` the deterministic `\s*`
(the following literal starts with `<`, which is not whitespace). -/
def match_thead (content : Str) : Option (Str × Str) :=
  trySplitsCI (str "<thead>") (fun _ rest =>
    trySplitsCI (str "<tr>") (fun _ afterTr =>
      let s1 := dropWS afterTr
      if ipfxCI (str "<th>") s1 then
        trySplitsCI (str "</th>") (fun g1 rest2 =>
          let s2 := dropWS rest2
          if ipfxCI (str "<th>") s2 then
            trySplitsCI (str "</th>") (fun g2 rest4 =>
              let s3 := dropWS rest4
              if ipfxCI (str "</tr>") s3 then
                if occCI (str "</thead>") (s3.drop 5) then some (g1, g2) else none
              else none) (s2.drop 4)
          else none) (s1.drop 4)
      else none) rest) content

/-- Embeds `re.search(r'<tbody>(.*?)</tbody>', content, re.DOTALL | re.IGNORECASE)`
(src/main.py:2367): the text between the first `<tbody>` and the first
`</tbody>` after it. -/
def match_tbody (content : Str) : Option Str :=
  trySplitsCI (str "<tbody>") (fun _ rest =>
    (scanCI (str "</tbody>") rest).map (fun p => p.1)) content

/-- Embeds `re.finditer(r'<tr[^>]*>(.*?)</tr>', tbody, re.DOTALL | re.IGNORECASE)`
(src/main.py:2372): the successive non-overlapping full matches (`group(0)`),
i.e. the `<tr …>…</tr>` blocks in document order.  A candidate `<tr` with no
closing `>` or no following `</tr>` has no later match either (the missing
closer would be missing for every later start as well), so the scan ends. -/
def tr_blocks_aux : Nat → Str → List Str
  | 0, _ => []
  | fuel + 1, s =>
    match scanCI (str "<tr") s with
    | none => []
    | some (_, m0, rest) =>
      let attrs := rest.takeWhile (fun c => c ≠ '>')
      match rest.drop attrs.length with
      | '>' :: rest2 =>
        match scanCI (str "</tr>") rest2 with
        | none => []
        | some (inner, m1, rest3) =>
          (m0 ++ attrs ++ '>' :: inner ++ m1) :: tr_blocks_aux fuel rest3
      | _ => []

/-- The `<tr …>…</tr>` blocks of a tbody in document order. -/
def tr_blocks (tbody : Str) : List Str := tr_blocks_aux tbody.length tbody

/-- Word-with-boundaries occurrence `\bW\b` (case-insensitive) inside a
class-attribute value, for `W` beginning and ending with word characters
(here `section` / `cat` / `category`): some position where `W` matches
case-insensitively, the previous character (if any) is a non-word character,
and the following character (if any) is a non-word character. -/
def word_occurs_aux (w : Str) : Option Char → Str → Bool
  | prev, [] => false && (prev == none)
  | prev, c :: cs =>
    ((match prev with
      | none => true
      | some p => !isWordC p) &&
     ipfxCI w (c :: cs) &&
     (match (c :: cs).drop w.length with
      | [] => true
      | d :: _ => !isWordC d))
    || word_occurs_aux w (some c) cs

/-- `\bW\b` occurrence (case-insensitive) in `s`. -/
def word_occurs (w s : Str) : Bool := word_occurs_aux w none s

/-- Embeds `re.search(r'class="[^"]*\bW\b[^"]*"', tr_html, re.IGNORECASE)`
(src/main.py:2376 with `W = section`, 2386 with `W = cat`): some `class="`
whose attribute value (the characters before the next `"`, which must exist)
contains `W` with word boundaries. -/
def has_class_word (w : Str) (trHtml : Str) : Bool :=
  (trySplitsCI (str "class=\"") (fun _ rest =>
    let run := rest.takeWhile (fun c => c ≠ '"')
    if run.length < rest.length ∧ word_occurs w run then some () else none) trHtml).isSome

/-- Embeds the heading-title regex of the fallback import path
(src/main.py:2377-2380 with `cls = section`, 2387-2390 with `cls = category`):
`<th[^>]*class="[^"]*\bCLS\b[^"]*"[^>]*colspan="2"[^>]*>(.*?)</th>` with
`re.DOTALL | re.IGNORECASE`; returns the captured group. -/
def match_th_title (cls : Str) (trHtml : Str) : Option Str :=
  trySplitsCI (str "<th") (fun _ afterTh =>
    trySplitsCI (str "class=\"") (fun a afterClass =>
      if a.any (fun c => c = '>') then none
      else
        let run := afterClass.takeWhile (fun c => c ≠ '"')
        if run.length < afterClass.length ∧ word_occurs cls run then
          trySplitsCI (str "colspan=\"2\"") (fun b afterCol =>
            if b.any (fun c => c = '>') then none
            else
              let cpart := afterCol.takeWhile (fun c => c ≠ '>')
              match afterCol.drop cpart.length with
              | '>' :: rest2 =>
                (scanCI (str "</th>") rest2).map (fun p => p.1)
              | _ => none) (afterClass.drop (run.length + 1))
        else none) afterTh) trHtml

/-- Embeds the per-`<tr>` classification of the fallback import loop
(src/main.py:2374-2401): section rows, category rows, then key/value rows;
a row that is none of the three (e.g. a `kv` row without both a `<th>…</th>`
and a `<td>…</td>`) yields `none` and is dropped.  A section/category row
whose title regex fails still yields a row with an empty title, as in the
source (`title = … if mtitle else ""`). -/
def classify_tr (trHtml : Str) : Option (Str × Str) :=
  if has_class_word (str "section") trHtml then
    some (str "__SECTION__",
      match match_th_title (str "section") trHtml with
      | some g => unescape_html (stripWS g)
      | none => [])
  else if has_class_word (str "cat") trHtml then
    some (str "__CAT__",
      match match_th_title (str "category") trHtml with
      | some g => unescape_html (stripWS g)
      | none => [])
  else
    match trySplitsCI (str "<th>") (fun _ r => (scanCI (str "</th>") r).map (fun p => p.1)) trHtml,
          trySplitsCI (str "<td>") (fun _ r => (scanCI (str "</td>") r).map (fun p => p.1)) trHtml with
    | some k, some v => some (unescape_html (stripWS k), stripWS v)
    | _, _ => none

/-- Embeds the fallback branch of `MainWindow._parse_specs_file`
(src/main.py:2354-2403): extract the two header texts (defaulting when the
header regex fails), then classify the `<tr>` blocks of the first tbody in
document order.  Rows are `(key, value)` pairs with the `__SECTION__` /
`__CAT__` marker keys of the source. -/
def parse_specs_fallback (content : Str) : Str × Str × List (Str × Str) :=
  let hdrs := match match_thead content with
    | some (g1, g2) => (unescape_html (stripWS g1), unescape_html (stripWS g2))
    | none => (DEFAULT_HEADER_LEFT, DEFAULT_HEADER_RIGHT)
  let rows := match match_tbody content with
    | some tbody => (tr_blocks tbody).filterMap classify_tr
    | none => []
  (hdrs.1, hdrs.2, rows)

/-- Helper for the greedy group `(\{.*\})\s*-->` of the snapshot-marker regex:
finds the rightmost `}` that is followed by optional whitespace and `-->`,
returning the characters before it and the rest after it. -/
def marker_brace_aux : Str → Option (Str × Str)
  | [] => none
  | c :: cs =>
    match marker_brace_aux cs with
    | some (a, rest) => some (c :: a, rest)
    | none =>
      if c = '}' ∧ ipfx (str "-->") (dropWS cs) then some ([], cs) else none

/-- Embeds the embedded-snapshot marker search of `_parse_specs_file`
(src/main.py:2330):
`re.search(r'<!--\s*SPECS_EDITOR_v(\d+)\s*(\{.*\})\s*-->', content, re.DOTALL)`
(case-sensitive).  Returns the version digits and the raw JSON blob; the JSON
decoding of the snapshot branch is not modelled — the claims about current
exports only need whether a marker is present at all. -/
def find_snapshot_marker (content : Str) : Option (Str × Str) :=
  trySplitsB (str "<!--") (fun _ rest =>
    let r1 := dropWS rest
    if ipfx (str "SPECS_EDITOR_v") r1 then
      let r2 := r1.drop 14
      let digits := r2.takeWhile (fun c => isDigitC c)
      if digits.isEmpty then none
      else
        match dropWS (r2.drop digits.length) with
        | '{' :: r4 =>
          (marker_brace_aux r4).map (fun p => (digits, '{' :: p.1 ++ ['}']))
        | _ => none
    else none) content

/-- The widget-reconstruction and re-snapshot composition:
`load_from_file` (src/main.py:2438-2451) turns parsed `(key, value)` pairs
into `HeaderRow`/`CategoryRow`/`EntryRow` widgets keyed on the
`__SECTION__`/`__CAT__` marker keys, and `export_table_only`
(src/main.py:2207-2214) re-snapshots those widgets as `(kind, a, b)` triples.
`HeaderRow`/`CategoryRow` store `title_text or "Neuer Abschnitt"`
(src/main.py:1180, 1127) — an empty parsed title is replaced by the default —
and are re-read stripped (`header_plain`/`title_plain`,
src/main.py:1210-1211, 1161-1162).  An `EntryRow` key is stored verbatim in a
line edit and re-read stripped (`key_plain`, src/main.py:1094-1095); its
value travels through the Qt rich-text document — `setHtml` on load
(src/main.py:1046-1053), then `toHtml`, body extraction and
`_sanitize_value_html` on re-read (`val_html`, src/main.py:1097-1109).
The Qt document round-trip is external to the repository, so the composite
map from the value fragment handed to `EntryRow` to the `val_html()`
read-back is abstracted as the oracle `vrt`; theorems about the reload take
the behaviour they need of `vrt` as an explicit hypothesis. -/
def load_rows_to_snapshot (vrt : Str → Str) (rows : List (Str × Str)) :
    List (Str × Str × Str) :=
  rows.map (fun r =>
    if r.1 = str "__SECTION__" then
      (str "section",
        stripWS (if r.2 = [] then str "Neuer Abschnitt" else r.2), [])
    else if r.1 = str "__CAT__" then
      (str "cat",
        stripWS (if r.2 = [] then str "Neuer Abschnitt" else r.2), [])
    else (str "kv", stripWS r.1, vrt r.2))

/-- The `or`-defaulting applied to a header: `load_from_file` stores
`left_h or DEFAULT_HEADER_LEFT` into the header line edit
(src/main.py:2425-2426), and `export_table_only` re-reads
`hdr_left.text().strip() or DEFAULT_HEADER_LEFT` (src/main.py:2164-2165);
the `.strip()` of the re-read is composed explicitly at the use sites. -/
def header_or_default (h dflt : Str) : Str := if h = [] then dflt else h

/-- Python `str.splitlines` for the line-break characters that occur in
scraped text (`\n`, `\r\n`, `\r`, `\v`, `\f`); no trailing empty line. -/
def pySplitlinesGo (cur : Str) : Str → List Str
  | [] => if cur.isEmpty then [] else [cur.reverse]
  | '\r' :: '\n' :: rest => cur.reverse :: pySplitlinesGo [] rest
  | c :: rest =>
    if c = '\n' ∨ c = '\r' ∨ c = '\x0b' ∨ c = '\x0c' then
      cur.reverse :: pySplitlinesGo [] rest
    else pySplitlinesGo (c :: cur) rest

/-- Python `str.splitlines`. -/
def pySplitlines (s : Str) : List Str := pySplitlinesGo [] s

/-- Python `str.lower` for this program's character repertoire (ASCII plus
the German umlauts that occur in scraped labels). -/
def pyLower (c : Char) : Char :=
  if c = 'Ä' then 'ä' else if c = 'Ö' then 'ö' else if c = 'Ü' then 'ü' else lowerChar c

/-- Python `str.endswith` on the character model. -/
def esfx (pat s : Str) : Bool := ipfx pat.reverse s.reverse

/-- Python `str.rstrip()`. -/
def rstripWS (s : Str) : Str := (dropWS s.reverse).reverse

/-- `re.match(r"^\d+p,?$", ln)` from `_clean_scraped_value` (src/main.py:890). -/
def matches_fps (ln : Str) : Bool :=
  let ds := ln.takeWhile (fun c => isDigitC c)
  !ds.isEmpty && (ln.drop ds.length = str "p" || ln.drop ds.length = str "p,")

/-- `re.search(r"\b\d+$", prev)` from `_clean_scraped_value` (src/main.py:894):
`prev` ends in a digit run whose preceding character (if any) is a non-word
character (a boundary inside a digit run or after a word character fails). -/
def ends_num_word (prev : Str) : Bool :=
  let rev := prev.reverse
  let ds := rev.takeWhile (fun c => isDigitC c)
  !ds.isEmpty &&
    (match rev.drop ds.length with
     | [] => true
     | c :: _ => !isWordC c)

/-- One iteration of the merge loop of `_clean_scraped_value`
(src/main.py:861-902).  The accumulator holds the `merged` list in reverse
order, so the source's `merged[-1]` is the head. -/
def clean_merge_step (acc : List Str) (ln : Str) : List Str :=
  let low := ln.map pyLower
  if occB (str "weitere") low then acc
  else if low = str "vergleichen" then acc
  else if ln = str "(" ∨ ln = str ")" then acc
  else
    match acc with
    | [] => [ln]
    | prev :: rest =>
      if ipfx (str "(") ln then (prev ++ ' ' :: ln) :: rest
      else if (!ln.isEmpty && ln.all (fun c => isDigitC c)) && esfx (str ")") prev then
        (prev ++ ' ' :: ln) :: rest
      else if ipfx (str "Codec ") ln then (prev ++ ' ' :: '(' :: ln ++ [')']) :: rest
      else if esfx (str "x") (rstripWS prev) &&
              (match ln with | c :: _ => isDigitC c | [] => false) then
        (prev ++ ' ' :: ln) :: rest
      else if matches_fps ln then (prev ++ ' ' :: ln) :: rest
      else if (ln = str "p" ∨ ln = str "P") && ends_num_word prev then (prev ++ ln) :: rest
      else if esfx (str ",") prev then (prev ++ ' ' :: ln) :: rest
      else ln :: acc

/-- Python `str.split(";")`. -/
def split_semis : Str → List Str
  | [] => [[]]
  | ';' :: rest => [] :: split_semis rest
  | c :: rest =>
    match split_semis rest with
    | [] => [[c]]
    | l :: ls => (c :: l) :: ls

theorem length_dropWhile_le (p : Char → Bool) (cs : List Char) :
    (cs.dropWhile p).length ≤ cs.length := by
  induction cs with
  | nil => simp [List.dropWhile]
  | cons c cs ih =>
    simp only [List.dropWhile]
    split
    · exact Nat.le_trans ih (Nat.le_succ _)
    · simp

/-- `re.sub(r"\s+", " ", ln)` (src/main.py:912): collapse whitespace runs. -/
def collapse_wsF : Nat → Str → Str
  | 0, s => s
  | _ + 1, [] => []
  | fuel + 1, c :: cs =>
    if isWS c then ' ' :: collapse_wsF fuel (cs.dropWhile (fun d => isWS d))
    else c :: collapse_wsF fuel cs

/-- See `collapse_wsF`: every step consumes at least one character, so
starting the fuel at the input's length it never runs out. -/
def collapse_ws (s : Str) : Str := collapse_wsF s.length s

/-- Embeds `_clean_scraped_value` (src/main.py:855-913): normalise, split into
stripped non-empty lines, run the merge heuristics, split the merged lines at
semicolons, collapse whitespace, and rejoin with newlines. -/
def clean_scraped_value (raw : Str) : Str :=
  let lines0 := (pySplitlines (normalize_for_paste raw)).map stripWS
  let lines := lines0.filter (fun l => !l.isEmpty)
  let merged := (lines.foldl clean_merge_step []).reverse
  let finals := merged.flatMap
    (fun ln => ((split_semis ln).map stripWS).filter (fun p => !p.isEmpty))
  joinNL (finals.map collapse_ws)

/-- Decimal digit character. -/
def digitChar (n : Nat) : Char := Char.ofNat (48 + n)

/-- Python's decimal rendering of a natural number (`f"{n}"`), with fuel:
every recursion step divides by ten, so fuel `n` is always enough. -/
def natReprF : Nat → Nat → Str
  | 0, n => [digitChar n]
  | fuel + 1, n =>
    if n < 10 then [digitChar n]
    else natReprF fuel (n / 10) ++ [digitChar (n % 10)]

/-- Python's decimal rendering of a natural number (`f"{n}"`). -/
def natRepr (n : Nat) : Str := natReprF n n

/-- The placeholder `f"<<T{i}>>"` of `_mask_protected_tokens` (src/main.py:130). -/
def placeholder (i : Nat) : Str := '<' :: '<' :: 'T' :: natRepr i ++ ['>', '>']

/-- Word-character test on an optional character (ends of string count as
non-word for `\b`). -/
def wordO : Option Char → Bool
  | none => false
  | some c => isWordC c

/-- Regex word boundary `\b` between two (optional) characters. -/
def boundaryB (l r : Option Char) : Bool := wordO l != wordO r

/-- ASCII alphanumeric: the class `[A-Z0-9]` under `re.IGNORECASE`. -/
def isAsciiAlnum (c : Char) : Bool := isAsciiAlpha c || isDigitC c

/-- The character class `[A-Z0-9\-_/\.]` (under `re.IGNORECASE`) of the
acronym/model-code pattern. -/
def isP1Class (c : Char) : Bool :=
  isAsciiAlnum c || c = '-' || c = '_' || c = '/' || c = '.'

/-- Backtracking for the trailing `\b` of the acronym pattern: the largest cut
of the greedy class run at which a word boundary holds.  `runRev` is the
reversed candidate run, `next` the character following the cut. -/
def p1_backtrack (next : Option Char) : Str → Option Nat
  | [] => none
  | c :: rest =>
    if boundaryB (some c) next then some (c :: rest).length
    else p1_backtrack (some c) rest

/-- Protected pattern 1 (src/main.py:107): `\b[A-Z0-9][A-Z0-9\-_/\.]{2,}\b`
under `re.IGNORECASE` — greedy class run from an alphanumeric start,
shortened until the trailing boundary holds, length at least 3. -/
def p1_match (prev : Option Char) (s : Str) : Option Nat :=
  if wordO prev then none
  else
    match s with
    | [] => none
    | c :: _ =>
      if isAsciiAlnum c then
        let run := s.takeWhile (fun d => isP1Class d)
        match p1_backtrack ((s.drop run.length).head?) run.reverse with
        | some n => if 3 ≤ n then some n else none
        | none => none
      else none

/-- The trailing `\b` after a digit: the next character must be non-word. -/
def bAfterDigit : Str → Bool
  | [] => true
  | c :: _ => !isWordC c

/-- Protected pattern 2 (src/main.py:108): `\bISO\s?\d+(?:[\-–]\d+)?\b`
(case-insensitive).  The optional range part is taken greedily and given back
when its trailing boundary fails (the `-` then satisfies the boundary). -/
def p2_match (prev : Option Char) (s : Str) : Option Nat :=
  if wordO prev then none
  else if ipfxCI (str "ISO") s then
    let after := s.drop 3
    let spc := match after with
      | c :: _ => if isWS c then 1 else 0
      | [] => 0
    let rest := after.drop spc
    let ds := rest.takeWhile (fun c => isDigitC c)
    if ds.isEmpty then none
    else
      let rest2 := rest.drop ds.length
      let base := 3 + spc + ds.length
      let withOpt : Option Nat :=
        match rest2 with
        | c :: cs =>
          if c = '-' ∨ c = '–' then
            let ds2 := cs.takeWhile (fun d => isDigitC d)
            if !ds2.isEmpty && bAfterDigit (cs.drop ds2.length) then
              some (base + 1 + ds2.length)
            else none
          else none
        | [] => none
      match withOpt with
      | some n => some n
      | none => if bAfterDigit rest2 then some base else none
  else none

/-- Alternation of literal words, each with its trailing `\b`, tried in the
source order (the regex engine takes the first alternative whose boundary
holds).  The boundary uses the actual matched characters of `s`. -/
def altBoundary : List Str → Str → Option Nat
  | [], _ => none
  | u :: us, s =>
    if ipfxCI u s &&
       boundaryB ((s.take u.length).getLast?) ((s.drop u.length).head?) then
      some u.length
    else altBoundary us s

/-- Number prefix `\d+(?:[.,]\d+)?` (greedy; the fraction is taken only when a
digit follows the separator — otherwise no later element can consume the
separator).  Returns the consumed length. -/
def numFrac (s : Str) : Option Nat :=
  let ds := s.takeWhile (fun c => isDigitC c)
  if ds.isEmpty then none
  else
    let rest := s.drop ds.length
    match rest with
    | c :: cs =>
      if c = '.' ∨ c = ',' then
        let ds2 := cs.takeWhile (fun d => isDigitC d)
        if ds2.isEmpty then some ds.length else some (ds.length + 1 + ds2.length)
      else some ds.length
    | [] => some ds.length

/-- `\s?` before a unit/number: consumed when present (the following element
never matches whitespace, so the regex backtracking is deterministic). -/
def optWS : Str → Nat
  | c :: _ => if isWS c then 1 else 0
  | [] => 0

/-- The unit alternation of protected pattern 3 (src/main.py:109), in source
order. -/
def units3 : List Str :=
  [str "mm", str "cm", str "m", str "µm", str "nm", str "°", str "s", str "EV",
   str "W", str "Wh", str "mAh", str "GHz", str "MHz", str "K", str "Bit",
   str "bits", str "B/s", str "BpS", str "fps"]

/-- Protected pattern 3 (src/main.py:109):
`\b\d+(?:[.,]\d+)?\s?(?:mm|cm|m|µm|nm|°|s|EV|W|Wh|mAh|GHz|MHz|K|Bit|bits|B/s|BpS|fps)\b`. -/
def p3_match (prev : Option Char) (s : Str) : Option Nat :=
  if wordO prev then none
  else
    match numFrac s with
    | none => none
    | some n1 =>
      let spc := optWS (s.drop n1)
      match altBoundary units3 (s.drop (n1 + spc)) with
      | some un => some (n1 + spc + un)
      | none => none

/-- Protected pattern 4 (src/main.py:110):
`\b\d+(?:[.,]\d+)?\s?[x×]\s?\d+(?:[.,]\d+)?\b` — a resolution.  When the
trailing boundary fails after a greedy fraction, the fraction is given back
(the separator then satisfies the boundary). -/
def p4_match (prev : Option Char) (s : Str) : Option Nat :=
  if wordO prev then none
  else
    match numFrac s with
    | none => none
    | some n1 =>
      let spc1 := optWS (s.drop n1)
      match s.drop (n1 + spc1) with
      | c :: cs =>
        if c = 'x' ∨ c = 'X' ∨ c = '×' then
          let spc2 := optWS cs
          let tail := cs.drop spc2
          let ds := tail.takeWhile (fun d => isDigitC d)
          if ds.isEmpty then none
          else
            let base := n1 + spc1 + 1 + spc2 + ds.length
            let rest := tail.drop ds.length
            let withFrac : Option Nat :=
              match rest with
              | d :: dsr =>
                if d = '.' ∨ d = ',' then
                  let ds2 := dsr.takeWhile (fun e => isDigitC e)
                  if !ds2.isEmpty && bAfterDigit (dsr.drop ds2.length) then
                    some (base + 1 + ds2.length)
                  else none
                else none
              | [] => none
            match withFrac with
            | some n => some n
            | none => if bAfterDigit rest then some base else none
        else none
      | [] => none

/-- The unit alternation of protected pattern 5 (src/main.py:111). -/
def units5 : List Str :=
  [str "MBit/s", str "Mbit/s", str "Mb/s", str "Mbps", str "Gb/s", str "Gbps"]

/-- Protected pattern 5 (src/main.py:111):
`\b\d+(?:[.,]\d+)?\s?(?:MBit/s|Mbit/s|Mb/s|Mbps|Gb/s|Gbps)\b`. -/
def p5_match (prev : Option Char) (s : Str) : Option Nat :=
  if wordO prev then none
  else
    match numFrac s with
    | none => none
    | some n1 =>
      let spc := optWS (s.drop n1)
      match altBoundary units5 (s.drop (n1 + spc)) with
      | some un => some (n1 + spc + un)
      | none => none

/-- Protected pattern 6 (src/main.py:112): image format names. -/
def words6 : List Str :=
  [str "RAW", str "JPG", str "JPEG", str "HEIF", str "PNG", str "TIFF",
   str "DCF", str "EXIF"]

/-- Protected pattern 7 (src/main.py:113): connectivity names. -/
def words7 : List Str :=
  [str "Wi-Fi", str "WLAN", str "Bluetooth", str "NFC", str "USB", str "HDMI",
   str "LAN"]

/-- Protected pattern 8 (src/main.py:114):
`\b(?:UHS\s?I|UHS\s?II|CFexpress|SDHC|SDXC|SD)\b`; the `UHS\s?I` /
`UHS\s?II` alternatives are handled with their internal optional space. -/
def p8_match (prev : Option Char) (s : Str) : Option Nat :=
  if wordO prev then none
  else
    let uhs : Str → Option Nat := fun suffix =>
      if ipfxCI (str "UHS") s then
        let after := s.drop 3
        let withSp : Option Nat :=
          match after with
          | c :: cs =>
            if isWS c && ipfxCI suffix cs &&
               boundaryB ((cs.take suffix.length).getLast?)
                 ((cs.drop suffix.length).head?) then
              some (3 + 1 + suffix.length)
            else none
          | [] => none
        match withSp with
        | some n => some n
        | none =>
          if ipfxCI suffix after &&
             boundaryB ((after.take suffix.length).getLast?)
               ((after.drop suffix.length).head?) then
            some (3 + suffix.length)
          else none
      else none
    match uhs (str "I") with
    | some n => some n
    | none =>
      match uhs (str "II") with
      | some n => some n
      | none => altBoundary [str "CFexpress", str "SDHC", str "SDXC", str "SD"] s

/-- Protected pattern 9 (src/main.py:115): codec names. -/
def words9 : List Str :=
  [str "XAVC", str "H.264", str "H.265", str "HEVC", str "AVC"]

/-- Protected pattern 10 (src/main.py:116): TV norms. -/
def words10 : List Str := [str "NTSC", str "PAL"]

/-- Embeds `_PROTECTED_RE` matching at one position (src/main.py:106-122):
the ten alternatives in source order, under `re.IGNORECASE`, each beginning
with a `\b` (equivalently: nothing matches after a word character).  Returns
the length of the match at the start of `s`, where `prev` is the character
preceding `s` in the scanned text. -/
def protected_match (prev : Option Char) (s : Str) : Option Nat :=
  if wordO prev then none
  else
    match p1_match prev s with
    | some n => some n
    | none =>
      match p2_match prev s with
      | some n => some n
      | none =>
        match p3_match prev s with
        | some n => some n
        | none =>
          match p4_match prev s with
          | some n => some n
          | none =>
            match p5_match prev s with
            | some n => some n
            | none =>
              match altBoundary words6 s with
              | some n => some n
              | none =>
                match altBoundary words7 s with
                | some n => some n
                | none =>
                  match p8_match prev s with
                  | some n => some n
                  | none =>
                    match altBoundary words9 s with
                    | some n => some n
                    | none => altBoundary words10 s

/-- A segment of a masked text: literal characters or a protected token. -/
inductive Seg where
  | lit : Str → Seg
  | tok : Str → Seg
deriving DecidableEq

/-- The `re.sub` scan of `_mask_protected_tokens` (src/main.py:131): walk the
text left to right, emitting a token segment at each leftmost match of
`_PROTECTED_RE` and a one-character literal segment otherwise; the previous
character is tracked for the patterns' leading `\b`. -/
def mask_scan : Nat → Option Char → Str → List Seg
  | 0, _, s => if s.isEmpty then [] else [Seg.lit s]
  | _ + 1, _, [] => []
  | fuel + 1, prev, c :: cs =>
    match protected_match prev (c :: cs) with
    | some n =>
      if n = 0 then Seg.lit [c] :: mask_scan fuel (some c) cs
      else
        let m := (c :: cs).take n
        Seg.tok m :: mask_scan fuel m.getLast? ((c :: cs).drop n)
    | none => Seg.lit [c] :: mask_scan fuel (some c) cs

/-- Render the masked text: literals verbatim, the `i`-th token as `<<Ti>>`. -/
def segs_render (i : Nat) : List Seg → Str
  | [] => []
  | Seg.lit l :: rest => l ++ segs_render i rest
  | Seg.tok _ :: rest => placeholder i ++ segs_render (i + 1) rest

/-- The collected tokens, in match order. -/
def segs_tokens : List Seg → List Str
  | [] => []
  | Seg.lit _ :: rest => segs_tokens rest
  | Seg.tok t :: rest => t :: segs_tokens rest

/-- The original text of a segment list. -/
def segs_orig : List Seg → Str
  | [] => []
  | Seg.lit l :: rest => l ++ segs_orig rest
  | Seg.tok t :: rest => t ++ segs_orig rest

/-- Embeds `_mask_protected_tokens` (src/main.py:124-131): replace each
leftmost `_PROTECTED_RE` match with a numbered placeholder and collect the
matched tokens. -/
def mask_protected_tokens (text : Str) : Str × List Str :=
  if text.isEmpty then (text, [])
  else
    let segs := mask_scan text.length none text
    (segs_render 0 segs, segs_tokens segs)

/-- The replacement loop of `_unmask_protected_tokens` (src/main.py:136-139). -/
def unmask_loop (i : Nat) : List Str → Str → Str
  | [], out => out
  | tok :: toks, out => unmask_loop (i + 1) toks (replaceAll (placeholder i) tok out)

/-- Embeds `_unmask_protected_tokens` (src/main.py:133-139): successively
`str.replace` each `<<Ti>>` placeholder by its token. -/
def unmask_protected_tokens (text : Str) (tokens : List Str) : Str :=
  if tokens.isEmpty then text else unmask_loop 0 tokens text
/-- The built-in static label dictionary `_FR_TRANSLATIONS` (src/main.py:364-461),
as an ordered association list (dict-literal insertion order; the keys are
pairwise distinct, so first-match lookup is Python's exact dict lookup). -/
def FR_TRANSLATIONS : List (Str × Str) := [
  (str "Kategorie", str "Catégorie"),
  (str "Details", str "Détails"),
  (str "ja", str "oui"),
  (str "nein", str "non"),
  (str "kein", str "aucun"),
  (str "keine", str "aucune"),
  (str "Modell", str "Modèle"),
  (str "Markteinführung", str "Lancement sur le marché"),
  (str "Nachfolgermodell", str "Modèle successeur"),
  (str "Kameraklasse(n)", str "Classe(s) d’appareil"),
  (str "Elektronik", str "Électronique"),
  (str "Sensor", str "Capteur"),
  (str "Pixelpitch", str "Pas de pixel"),
  (str "Fotoauflösung", str "Résolution photo"),
  (str "Bildformate", str "Formats d’image"),
  (str "Farbtiefe", str "Profondeur de couleur"),
  (str "Metadaten", str "Métadonnées"),
  (str "Videoauflösung", str "Résolution vidéo"),
  (str "HDR-Video", str "Vidéo HDR"),
  (str "Videoformat", str "Format vidéo"),
  (str "All-Intra-Aufzeichnung", str "Enregistrement All-Intra"),
  (str "Audioformat (Video)", str "Format audio (vidéo)"),
  (str "Objektiv", str "Objectif"),
  (str "Objektivanschluss", str "Monture d’objectif"),
  (str "Fokussierung", str "Mise au point"),
  (str "Autofokusart", str "Type d’autofocus"),
  (str "AF-Erkennungsfunktion", str "Fonction de détection AF"),
  (str "Schärfenkontrolle", str "Contrôle de la netteté"),
  (str "Sucher und Monitor", str "Viseur et écran"),
  (str "Monitor", str "Écran"),
  (str "Videosucher", str "Viseur électronique"),
  (str "Belichtung", str "Exposition"),
  (str "Belichtungsmessung", str "Mesure de l’exposition"),
  (str "Belichtungszeiten", str "Vitesses d’obturation"),
  (str "Belichtungssteuerung", str "Commande d’exposition"),
  (str "Belichtungsreihenfunktion", str "Fonction de bracketing d’exposition"),
  (str "Belichtungskorrektur", str "Correction d’exposition"),
  (str "Lichtempfindlichkeit", str "Sensibilité"),
  (str "Fernzugriff", str "Accès à distance"),
  (str "Weissabgleich", str "Balance des blancs"),
  (str "Farbraum", str "Espace colorimétrique"),
  (str "Serienaufnahmen", str "Prises de vue en rafale"),
  (str "Selbstauslöser", str "Retardateur"),
  (str "Timer", str "Minuterie"),
  (str "Aufnahmefunktionen", str "Fonctions de prise de vue"),
  (str "Blitzgerät", str "Flash"),
  (str "Blitz", str "Flash"),
  (str "Blitzreichweite", str "Portée du flash"),
  (str "Blitzfunktionen", str "Fonctions flash"),
  (str "Ausstattung", str "Équipement"),
  (str "Bildstabilisator", str "Stabilisateur d’image"),
  (str "Speicher", str "Mémoire"),
  (str "Zweiter Speicherkartensteckplatz", str "Deuxième emplacement pour carte mémoire"),
  (str "Zweiter Speicherkartenslot", str "Deuxième emplacement pour carte mémoire"),
  (str "zweiter Speicherkartenslot", str "Deuxième emplacement pour carte mémoire"),
  (str "GPS-Funktion", str "Fonction GPS"),
  (str "Mikrofon", str "Microphone"),
  (str "Netzteil", str "Bloc d’alimentation"),
  (str "Netztteil", str "Bloc d’alimentation"),
  (str "Stromversorgung", str "Alimentation"),
  (str "Wiedergabefunktionen", str "Fonctions de lecture"),
  (str "Wiedergabe-Funktionen", str "Fonctions de lecture"),
  (str "Bildeinstellungen", str "Paramètres d’image"),
  (str "Bildparameter", str "Paramètres d’image"),
  (str "Spezialfunktionen", str "Fonctions spéciales"),
  (str "Sonder-Funktionen", str "Fonctions spéciales"),
  (str "USB-Typ", str "Type USB"),
  (str "Drahtlos", str "Sans fil"),
  (str "Datenschnittstelle", str "Interface de données"),
  (str "Daten-Schnittstelle", str "Interface de données"),
  (str "AV-Anschlüsse", str "Connectiques AV"),
  (str "HDMI-Output", str "HDMI propre"),
  (str "HDMI-Output-Auflösungen", str "Résolutions HDMI propre"),
  (str "HDMI-Output-Farbraum", str "Espace colorimétrique HDMI propre"),
  (str "HDMI-Output-Bemerkungen", str "Remarques HDMI propre"),
  (str "Clean HDMI", str "Clean HDMI"),
  (str "Clean HDMI Auflösungen", str "Résolutions HDMI propre"),
  (str "Clean HDMI Farbraum", str "Espace colorimétrique HDMI propre"),
  (str "Clean HDMI Anmerkungen", str "Remarques HDMI propre"),
  (str "Webcam-Funktion", str "Fonction webcam"),
  (str "Direktdruckunterstützung", str "Procédés d’impression directe pris en charge"),
  (str "Unterstützte Direkt-Druck-Verfahren", str "Procédés d’impression directe pris en charge"),
  (str "Stativgewinde", str "Filetage pour trépied"),
  (str "Gehäuse", str "Boîtier"),
  (str "Besonderheiten und Sonstiges", str "Particularités et divers"),
  (str "Abmessungen und Gewicht", str "Dimensions et poids"),
  (str "Grösse und Gewicht", str "Dimensions et poids"),
  (str "Abmessungen B x H x T", str "Dimensions L x H x P"),
  (str "Gewicht", str "Poids"),
  (str "Sonstiges", str "Divers"),
  (str "Mitgeliefertes Zubehör", str "Accessoires fournis"),
  (str "mitgeliefertes Zubehör", str "Accessoires fournis"),
  (str "Timecode", str "Timecode")
]

/-- The built-in post-edit table `FR_POST_EDITS` (src/main.py:101-104), in
dict order. -/
def FR_POST_EDITS : List (Str × Str) :=
  [(str "petite image", str "plein format"),
   (str "crop facteur", str "facteur de recadrage")]

/-- The stop-word alternation of `GERMAN_HINT_RE` (src/main.py:97-100). -/
def GERMAN_HINT_WORDS : List Str :=
  [str "und", str "oder", str "mit", str "für", str "ohne", str "nicht",
   str "kein", str "keine", str "einen", str "eine", str "der", str "die",
   str "das", str "von", str "bis", str "nach", str "über", str "unter",
   str "bei", str "auf", str "aus", str "mehr", str "weniger", str "zwischen",
   str "funktion", str "sucher", str "optisch", str "extern",
   str "betriebsbereit", str "farbkanal", str "synchronzeit", str "kleinbild",
   str "gesicht"]

/-- Embeds `GERMAN_HINT_RE.search` (src/main.py:97-100):
`(?:\b(stopword|…)\b|[äöüÄÖÜß])` with `re.IGNORECASE` — a stop word with word
boundaries, or a German umlaut/ß character. -/
def german_hint (s : Str) : Bool :=
  GERMAN_HINT_WORDS.any (fun w => word_occurs w s) ||
  s.any (fun c => c = 'ä' ∨ c = 'ö' ∨ c = 'ü' ∨ c = 'Ä' ∨ c = 'Ö' ∨ c = 'Ü' ∨ c = 'ß')

/-- Oracle model of the optional external engines used by the translator:
`detect text` is the verdict of the statistical language identification
(`_detect_language`, src/main.py:576-609, combined with the
`lang in ("de","deu") and prob >= LANG_DETECT_MIN_PROB` gate of
`_is_german_text`); `engine` is the Argos machine-translation engine —
`none` when `_ensure_argos_translator()` (src/main.py:481-551) returns
`False`, and `some f` when it succeeds, where `f masked = some out` models a
returned translation (direct or pivot chain) and `f masked = none` a raised
exception inside the `try` block. -/
structure TrEnv where
  detect : Str → Bool
  engine : Option (Str → Option Str)

/-- Embeds `_is_german_text` (src/main.py:611-623) over the engine oracle. -/
def is_german_text (env : TrEnv) (text : Str) : Bool :=
  if text.isEmpty then false
  else
    let stripped := stripWS text
    if stripped.isEmpty then false
    else german_hint stripped || env.detect stripped

/-- Embeds `_should_translate_text` (src/main.py:625-639): skip empty or
whitespace-only text, text of only digits/whitespace/non-word characters
(`re.fullmatch(r"[\d\s\W]+", …)`), and text without a letter
(`re.search(r"[A-Za-zÀ-ÿÄÖÜäöüß]", …)`); otherwise `block_german` forces
translation, else German-ness decides. -/
def should_translate_text (env : TrEnv) (text : Str) (block_german : Bool) : Bool :=
  if text.isEmpty then false
  else
    let stripped := stripWS text
    if stripped.isEmpty then false
    else if stripped.all (fun c => isDigitC c || isWS c || !isWordC c) then false
    else if !(stripped.any (fun c => isAsciiAlpha c || isLatin1Letter c)) then false
    else if block_german then true
    else is_german_text env stripped

/-- Case-insensitive `str.replace` with fuel, for
`re.sub(r"(?i)" + re.escape(src), dst, out)`: a literal pattern under
`re.IGNORECASE` replaces non-overlapping occurrences left to right. -/
def replaceAllCIF (pat rep : Str) : Nat → Str → Str
  | 0, s => s
  | _ + 1, [] => []
  | fuel + 1, c :: cs =>
    if ipfxCI pat (c :: cs) && !pat.isEmpty then
      rep ++ replaceAllCIF pat rep fuel ((c :: cs).drop pat.length)
    else
      c :: replaceAllCIF pat rep fuel cs

/-- Case-insensitive literal `re.sub` replacement. -/
def replaceAllCI (pat rep s : Str) : Str := replaceAllCIF pat rep s.length s

/-- Embeds `_apply_post_edits` (src/main.py:641-649). -/
def apply_post_edits (text : Str) (post_edits : List (Str × Str)) : Str :=
  if text.isEmpty || post_edits.isEmpty then text
  else post_edits.foldl
    (fun out p => if p.1.isEmpty then out else replaceAllCI p.1 p.2 out) text

/-- Python `text in mapping` / `mapping[text]` for the label dictionary. -/
def lookup_mapping (mapping : List (Str × Str)) (text : Str) : Option Str :=
  (mapping.find? (fun p => p.1 == text)).map (fun p => p.2)

/-- Embeds `_translate_plain_text` (src/main.py:651-692) over the engine
oracle `env`.  Returns `(translated_text, did_translate, was_german)`.
The source's unreachable `else: return text, False, True` arm (ready engine
but neither translator nor chain) is subsumed by `engine = none`. -/
def translate_plain_text (env : TrEnv) (text : Str)
    (mapping post_edits : List (Str × Str)) (block_german : Bool) :
    Str × Bool × Bool :=
  match lookup_mapping mapping text with
  | some m => (apply_post_edits m post_edits, true, false)
  | none =>
    let was_german := should_translate_text env text block_german
    if !was_german then
      let edited := apply_post_edits text post_edits
      if edited ≠ text then (edited, true, false) else (text, false, false)
    else
      match env.engine with
      | none =>
        let edited := apply_post_edits text post_edits
        if edited ≠ text then (edited, true, true) else (text, false, true)
      | some f =>
        let mt := mask_protected_tokens text
        match f mt.1 with
        | none =>
          let edited := apply_post_edits text post_edits
          if edited ≠ text then (edited, true, true) else (text, false, true)
        | some translated =>
          if translated.isEmpty then
            let edited := apply_post_edits text post_edits
            if edited ≠ text then (edited, true, true) else (text, false, true)
          else
            let t2 := apply_post_edits (unmask_protected_tokens translated mt.2) post_edits
            if stripWS t2 ≠ stripWS text then (t2, true, true)
            else
              let edited := apply_post_edits text post_edits
              if edited ≠ text then (edited, true, true) else (text, false, true)

/-- Embeds the `_translate_label` closure of `ExportWorker.run`
(src/main.py:794-798): translate a label and, when it was German but not
translated and not yet recorded, append it to the missing-translations list. -/
def translate_label_step (env : TrEnv) (mapping post_edits : List (Str × Str))
    (missing : List Str) (text : Str) : Str × List Str :=
  let r := translate_plain_text env text mapping post_edits false
  if r.2.2 && !r.2.1 && !(missing.contains text) then (r.1, missing ++ [text])
  else (r.1, missing)

/-! ## Basic lemmas about the string model -/

theorem lowerChar_fixed {x : Char} (hx : isAsciiAlpha x = false) : lowerChar x = x := by
  unfold lowerChar
  cases hf : lowerPairs.find? (fun p => p.1 == x) with
  | none => rfl
  | some p =>
    exfalso
    have hm := List.mem_of_find?_eq_some hf
    have hp := List.find?_some hf
    have h1 : p.1 = x := by simpa using hp
    have hall : ∀ q ∈ lowerPairs, isAsciiAlpha q.1 = true := by decide
    have h2 := hall p hm
    rw [h1, hx] at h2
    exact Bool.noConfusion h2

theorem lowerChar_eq_nonalpha {c x : Char} (hx : isAsciiAlpha x = false) :
    lowerChar c = x ↔ c = x := by
  constructor
  · intro h
    unfold lowerChar at h
    cases hf : lowerPairs.find? (fun p => p.1 == c) with
    | none => rw [hf] at h; exact h
    | some p =>
      rw [hf] at h
      simp only at h
      exfalso
      have hm := List.mem_of_find?_eq_some hf
      have hall : ∀ q ∈ lowerPairs, isAsciiAlpha q.2 = true := by decide
      have h2 := hall p hm
      rw [h, hx] at h2
      exact Bool.noConfusion h2
  · intro h; subst h; exact lowerChar_fixed hx

theorem eqCI_nonalpha_right {c x : Char} (hx : isAsciiAlpha x = false) :
    eqCI c x = true ↔ c = x := by
  unfold eqCI
  rw [lowerChar_fixed hx, beq_iff_eq]
  exact lowerChar_eq_nonalpha hx

theorem eqCI_nonalpha_left {c x : Char} (hx : isAsciiAlpha x = false) :
    eqCI x c = true ↔ c = x := by
  unfold eqCI
  rw [lowerChar_fixed hx, beq_iff_eq, eq_comm]
  exact lowerChar_eq_nonalpha hx

theorem eqCI_refl (c : Char) : eqCI c c = true := by simp [eqCI]

theorem ipfx_iff {p s : Str} : ipfx p s = true ↔ ∃ t, s = p ++ t := by
  induction p generalizing s with
  | nil => simp [ipfx]
  | cons q ps ih =>
    cases s with
    | nil =>
      simp only [ipfx]
      constructor
      · intro h; exact Bool.noConfusion h
      · rintro ⟨t, ht⟩; exact absurd ht (by simp)
    | cons c cs =>
      simp only [ipfx, Bool.and_eq_true, beq_iff_eq, ih]
      constructor
      · rintro ⟨rfl, t, rfl⟩; exact ⟨t, rfl⟩
      · rintro ⟨t, ht⟩
        injection ht with h1 h2
        exact ⟨h1.symm, t, h2⟩

theorem ipfx_append (p t : Str) : ipfx p (p ++ t) = true :=
  ipfx_iff.mpr ⟨t, rfl⟩

theorem ipfxCI_length {p s : Str} (h : ipfxCI p s = true) : p.length ≤ s.length := by
  induction p generalizing s with
  | nil => simp
  | cons q ps ih =>
    cases s with
    | nil => exact Bool.noConfusion h
    | cons c cs =>
      simp only [ipfxCI, Bool.and_eq_true] at h
      simpa [Nat.succ_le_succ_iff] using ih h.2

theorem ipfxCI_getD {p s : Str} (h : ipfxCI p s = true) :
    ∀ j, j < p.length → ∀ d, eqCI (p.getD j d) (s.getD j d) = true := by
  induction p generalizing s with
  | nil => intro j hj; simp at hj
  | cons q ps ih =>
    cases s with
    | nil => exact Bool.noConfusion h
    | cons c cs =>
      simp only [ipfxCI, Bool.and_eq_true] at h
      intro j hj d
      cases j with
      | zero => simpa using h.1
      | succ j =>
        simp only [List.getD_cons_succ]
        exact ih h.2 j (by simpa [Nat.succ_lt_succ_iff] using hj) d

theorem ipfx_getD {p s : Str} (h : ipfx p s = true) :
    ∀ j, j < p.length → ∀ d, p.getD j d = s.getD j d := by
  induction p generalizing s with
  | nil => intro j hj; simp at hj
  | cons q ps ih =>
    cases s with
    | nil => exact Bool.noConfusion h
    | cons c cs =>
      simp only [ipfx, Bool.and_eq_true, beq_iff_eq] at h
      intro j hj d
      cases j with
      | zero => simpa using h.1
      | succ j =>
        simp only [List.getD_cons_succ]
        exact ih h.2 j (by simpa [Nat.succ_lt_succ_iff] using hj) d

theorem ipfxCI_self (p : Str) : ipfxCI p p = true := by
  induction p with
  | nil => rfl
  | cons c cs ih => simp [ipfxCI, eqCI_refl, ih]

theorem ipfxCI_append_self (p t : Str) : ipfxCI p (p ++ t) = true := by
  induction p with
  | nil => rfl
  | cons c cs ih => simp [ipfxCI, eqCI_refl, ih]

theorem option_isSome_map {α β : Type} (f : α → β) (o : Option α) :
    (o.map f).isSome = o.isSome := by cases o <;> rfl

theorem getD_mem {l : List Char} {j : Nat} (h : j < l.length) (d : Char) :
    l.getD j d ∈ l := by
  rw [List.getD_eq_getElem?_getD, List.getElem?_eq_getElem h]
  simp [List.getElem_mem h]

theorem occCI_iff {pat s : Str} :
    occCI pat s = true ↔ ∃ i, ipfxCI pat (s.drop i) = true := by
  unfold occCI
  induction s with
  | nil =>
    constructor
    · intro h
      refine ⟨0, ?_⟩
      simp only [scanCI] at h
      by_cases hp : ipfxCI pat [] = true
      · simpa using hp
      · simp [hp] at h
    · rintro ⟨i, hi⟩
      simp only [List.drop_nil] at hi
      simp [scanCI, hi]
  | cons c cs ih =>
    simp only [scanCI]
    split
    · rename_i hp
      simp only [Option.isSome_some, true_iff]
      exact ⟨0, by simpa using hp⟩
    · rename_i hp
      rw [option_isSome_map, ih]
      constructor
      · rintro ⟨i, hi⟩; exact ⟨i + 1, by simpa using hi⟩
      · rintro ⟨i, hi⟩
        cases i with
        | zero => simp only [List.drop_zero] at hi; exact absurd hi (by simpa using hp)
        | succ i => exact ⟨i, by simpa using hi⟩

theorem occB_iff {pat s : Str} :
    occB pat s = true ↔ ∃ i, ipfx pat (s.drop i) = true := by
  unfold occB
  induction s with
  | nil =>
    constructor
    · intro h
      refine ⟨0, ?_⟩
      simp only [scanB] at h
      by_cases hp : ipfx pat [] = true
      · simpa using hp
      · simp [hp] at h
    · rintro ⟨i, hi⟩
      simp only [List.drop_nil] at hi
      simp [scanB, hi]
  | cons c cs ih =>
    simp only [scanB]
    split
    · rename_i hp
      simp only [Option.isSome_some, true_iff]
      exact ⟨0, by simpa using hp⟩
    · rename_i hp
      rw [option_isSome_map, ih]
      constructor
      · rintro ⟨i, hi⟩; exact ⟨i + 1, by simpa using hi⟩
      · rintro ⟨i, hi⟩
        cases i with
        | zero => simp only [List.drop_zero] at hi; exact absurd hi (by simpa using hp)
        | succ i => exact ⟨i, by simpa using hi⟩

theorem not_occCI_of_char {pat s : Str} {x : Char} (hx : isAsciiAlpha x = false)
    (hpj : ∃ j, j < pat.length ∧ pat.getD j ' ' = x) (hs : x ∉ s) :
    occCI pat s = false := by
  by_contra hocc
  rw [Bool.not_eq_false, occCI_iff] at hocc
  obtain ⟨i, hi⟩ := hocc
  obtain ⟨j, hj, hpx⟩ := hpj
  have hch := ipfxCI_getD hi j hj ' '
  rw [hpx, eqCI_nonalpha_left hx] at hch
  have hlen : pat.length ≤ (s.drop i).length := ipfxCI_length hi
  have hjs : j < (s.drop i).length := lt_of_lt_of_le hj hlen
  apply hs
  rw [← hch]
  exact List.mem_of_mem_drop (getD_mem hjs ' ')

theorem not_occB_of_char {pat s : Str} {x : Char}
    (hpj : ∃ j, j < pat.length ∧ pat.getD j ' ' = x) (hs : x ∉ s) :
    occB pat s = false := by
  by_contra hocc
  rw [Bool.not_eq_false, occB_iff] at hocc
  obtain ⟨i, hi⟩ := hocc
  obtain ⟨j, hj, hpx⟩ := hpj
  have hch := ipfx_getD hi j hj ' '
  have hlen : pat.length ≤ (s.drop i).length := by
    rw [ipfx_iff] at hi
    obtain ⟨t, ht⟩ := hi
    simp [ht]
  have hjs : j < (s.drop i).length := lt_of_lt_of_le hj hlen
  apply hs
  rw [← hpx, hch]
  exact List.mem_of_mem_drop (getD_mem hjs ' ')

theorem ipfxCI_append_split {p a b : Str} (h : ipfxCI p (a ++ b) = true) :
    (p.length ≤ a.length ∧ ipfxCI p a = true) ∨
    (a.length < p.length ∧ ipfxCI (p.take a.length) a = true ∧
      ipfxCI (p.drop a.length) b = true) := by
  induction a generalizing p with
  | nil =>
    cases p with
    | nil => exact Or.inl ⟨Nat.le_refl _, rfl⟩
    | cons q ps => exact Or.inr ⟨Nat.succ_pos _, rfl, by simpa using h⟩
  | cons c a' ih =>
    cases p with
    | nil => exact Or.inl ⟨Nat.zero_le _, rfl⟩
    | cons q ps =>
      simp only [List.cons_append, ipfxCI, Bool.and_eq_true] at h
      rcases ih h.2 with ⟨hl, hp⟩ | ⟨hl, ht, hd⟩
      · exact Or.inl ⟨Nat.succ_le_succ hl, by simp [ipfxCI, h.1, hp]⟩
      · refine Or.inr ⟨Nat.succ_lt_succ hl, ?_, ?_⟩
        · simp [List.take_cons, ipfxCI, h.1, ht]
        · simpa using hd

/-- `q` matches (case-insensitively) the suffix of `a` of its own length. -/
def SfxCI (q a : Str) : Prop :=
  q.length ≤ a.length ∧ ipfxCI q (a.drop (a.length - q.length)) = true

theorem occCI_append_cases {pat a b : Str} (h : occCI pat (a ++ b) = true) :
    occCI pat a = true ∨ occCI pat b = true ∨
    ∃ k, 0 < k ∧ k < pat.length ∧ SfxCI (pat.take k) a ∧
      ipfxCI (pat.drop k) b = true := by
  rw [occCI_iff] at h
  obtain ⟨i, hi⟩ := h
  rw [List.drop_append_eq_append_drop] at hi
  by_cases hia : i < a.length
  · have hz : i - a.length = 0 := by omega
    rw [hz, List.drop_zero] at hi
    rcases ipfxCI_append_split hi with ⟨_, hp⟩ | ⟨hl, ht, hd⟩
    · exact Or.inl (occCI_iff.mpr ⟨i, hp⟩)
    · simp only [List.length_drop] at hl ht hd
      refine Or.inr (Or.inr ⟨a.length - i, ?_, ?_, ⟨?_, ?_⟩, ?_⟩)
      · omega
      · exact hl
      · simp only [List.length_take, List.length_drop]; omega
      · have hk : (pat.take (a.length - i)).length = a.length - i := by
          simp only [List.length_take]; omega
        rw [hk]
        have hi2 : a.length - (a.length - i) = i := by omega
        rw [hi2]
        exact ht
      · exact hd
  · have hz : a.drop i = [] := by
      apply List.drop_eq_nil_of_le; omega
    rw [hz, List.nil_append] at hi
    exact Or.inr (Or.inl (occCI_iff.mpr ⟨i - a.length, hi⟩))

/-- No case-insensitive occurrence of `pat` starts strictly inside `a` in the
string `a ++ rest`. -/
def FirstAtCI (pat a rest : Str) : Prop :=
  ∀ i, i < a.length → ipfxCI pat ((a ++ rest).drop i) = false

/-- Case-sensitive variant of `FirstAtCI`. -/
def FirstAtB (pat a rest : Str) : Prop :=
  ∀ i, i < a.length → ipfx pat ((a ++ rest).drop i) = false

theorem firstAtCI_intro {pat a rest : Str}
    (ha : occCI pat a = false)
    (hj : ∀ k, 0 < k → k < pat.length → SfxCI (pat.take k) a →
      ipfxCI (pat.drop k) rest = false) :
    FirstAtCI pat a rest := by
  intro i hia
  by_contra hcon
  rw [Bool.not_eq_false] at hcon
  rw [List.drop_append_eq_append_drop] at hcon
  have hz : i - a.length = 0 := by omega
  rw [hz, List.drop_zero] at hcon
  rcases ipfxCI_append_split hcon with ⟨_, hp⟩ | ⟨hl, ht, hd⟩
  · rw [occCI_iff.mpr ⟨i, hp⟩] at ha; exact Bool.noConfusion ha
  · simp only [List.length_drop] at hl ht hd
    have hk := hj (a.length - i) (by omega) hl
    have hsfx : SfxCI (pat.take (a.length - i)) a := by
      refine ⟨?_, ?_⟩
      · simp only [List.length_take]; omega
      · have hk2 : (pat.take (a.length - i)).length = a.length - i := by
          simp only [List.length_take]; omega
        rw [hk2]
        have hi2 : a.length - (a.length - i) = i := by omega
        rw [hi2]
        exact ht
    rw [hk hsfx] at hd
    exact Bool.noConfusion hd

theorem firstAtCI_of_head_not_mem {x : Char} {pt a rest : Str}
    (hx : isAsciiAlpha x = false) (hmem : x ∉ a) :
    FirstAtCI (x :: pt) a rest := by
  intro i hia
  by_contra hcon
  rw [Bool.not_eq_false] at hcon
  have h0 := ipfxCI_getD hcon 0 (Nat.succ_pos _) ' '
  simp only [List.getD_cons_zero] at h0
  rw [eqCI_nonalpha_left hx] at h0
  apply hmem
  rw [← h0]
  have hlen : i < (a ++ rest).length := by simp; omega
  have hdl : 0 < ((a ++ rest).drop i).length := by simp; omega
  have hmem2 := List.mem_of_mem_drop (getD_mem hdl ' ')
  have hget : ((a ++ rest).drop i).getD 0 ' ' = (a ++ rest).getD i ' ' := by
    simp [List.getD_eq_getElem?_getD, List.getElem?_drop]
  rw [hget]
  have : (a ++ rest).getD i ' ' = a.getD i ' ' := by
    simp [List.getD_eq_getElem?_getD, List.getElem?_append_left hia]
  rw [this]
  exact getD_mem hia ' '

theorem scanCI_first {pat a rest : Str} (hm : ipfxCI pat rest = true)
    (hf : FirstAtCI pat a rest) :
    scanCI pat (a ++ rest) = some (a, rest.take pat.length, rest.drop pat.length) := by
  induction a with
  | nil =>
    cases rest with
    | nil =>
      have hp : pat = [] := by
        have h1 := ipfxCI_length hm
        exact List.length_eq_zero.mp (by simpa using h1)
      subst hp
      simp [scanCI, ipfxCI]
    | cons c cs =>
      simp only [List.nil_append, scanCI, hm, if_pos]
  | cons c a' ih =>
    have h0 : ipfxCI pat (c :: (a' ++ rest)) = false := by
      have := hf 0 (Nat.succ_pos _)
      simpa using this
    simp only [List.cons_append, scanCI, h0]
    rw [if_neg (by simp [h0])]
    have hf' : FirstAtCI pat a' rest := by
      intro i hi
      have := hf (i + 1) (by simpa [Nat.succ_lt_succ_iff] using hi)
      simpa using this
    simp only [List.append_eq]
    rw [ih hf']
    rfl

theorem scanCI_none {pat s : Str} (h : occCI pat s = false) : scanCI pat s = none := by
  unfold occCI at h
  cases hs : scanCI pat s with
  | none => rfl
  | some p => rw [hs] at h; exact Bool.noConfusion h

theorem scanCI_sound {pat s : Str} {pre m post : Str}
    (h : scanCI pat s = some (pre, m, post)) :
    s = pre ++ m ++ post ∧ m.length = pat.length ∧ ipfxCI pat (m ++ post) = true := by
  induction s generalizing pre m post with
  | nil =>
    simp only [scanCI] at h
    split at h
    · rename_i hp
      have hl : pat.length = 0 := by have := ipfxCI_length hp; simpa using this
      injection h with h1
      injection h1 with h2 h3
      injection h3 with h4 h5
      subst h2; subst h4; subst h5
      refine ⟨rfl, by simp [hl], by simpa using hp⟩
    · exact Option.noConfusion h
  | cons c cs ih =>
    simp only [scanCI] at h
    split at h
    · rename_i hp
      injection h with h1
      injection h1 with h2 h3
      injection h3 with h4 h5
      subst h2; subst h4; subst h5
      have hlen : pat.length ≤ (c :: cs).length := ipfxCI_length hp
      refine ⟨by simp [List.take_append_drop], ?_, ?_⟩
      · rw [List.length_take]
        exact Nat.min_eq_left hlen
      · rw [List.take_append_drop]
        exact hp
    · rename_i hp
      cases hsc : scanCI pat cs with
      | none => rw [hsc] at h; exact Option.noConfusion h
      | some q =>
        rw [hsc] at h
        obtain ⟨q1, q2, q3⟩ := q
        injection h with h1
        injection h1 with h2 h3
        obtain ⟨hq1, hq2, hq3⟩ := ih hsc
        subst h2
        injection h3 with h4 h5
        subst h4; subst h5
        exact ⟨by simp [hq1], hq2, hq3⟩

theorem scanB_first {pat a rest : Str} (hm : ipfx pat rest = true)
    (hf : FirstAtB pat a rest) :
    scanB pat (a ++ rest) = some (a, rest.drop pat.length) := by
  induction a with
  | nil =>
    cases rest with
    | nil =>
      have hp : pat = [] := by
        rw [ipfx_iff] at hm
        obtain ⟨t, ht⟩ := hm
        cases pat with
        | nil => rfl
        | cons q qs => exact absurd ht.symm (by simp)
      subst hp
      simp [scanB, ipfx]
    | cons c cs =>
      simp only [List.nil_append, scanB, hm, if_pos]
  | cons c a' ih =>
    have h0 : ipfx pat (c :: (a' ++ rest)) = false := by
      have := hf 0 (Nat.succ_pos _)
      simpa using this
    simp only [List.cons_append, scanB, h0]
    rw [if_neg (by simp [h0])]
    have hf' : FirstAtB pat a' rest := by
      intro i hi
      have := hf (i + 1) (by simpa [Nat.succ_lt_succ_iff] using hi)
      simpa using this
    simp only [List.append_eq]
    rw [ih hf']
    rfl

theorem scanB_none {pat s : Str} (h : occB pat s = false) : scanB pat s = none := by
  unfold occB at h
  cases hs : scanB pat s with
  | none => rfl
  | some p => rw [hs] at h; exact Bool.noConfusion h

theorem scanB_sound {pat s : Str} {pre post : Str}
    (h : scanB pat s = some (pre, post)) :
    s = pre ++ pat ++ post := by
  induction s generalizing pre post with
  | nil =>
    simp only [scanB] at h
    split at h
    · rename_i hp
      rw [ipfx_iff] at hp
      obtain ⟨t, ht⟩ := hp
      have hpat : pat = [] := by
        cases pat with
        | nil => rfl
        | cons q qs => exact absurd ht.symm (by simp)
      injection h with h1
      injection h1 with h2 h3
      subst h2; subst h3; subst hpat
      rfl
    · exact Option.noConfusion h
  | cons c cs ih =>
    simp only [scanB] at h
    split at h
    · rename_i hp
      rw [ipfx_iff] at hp
      obtain ⟨t, ht⟩ := hp
      injection h with h1
      injection h1 with h2 h3
      subst h2
      rw [ht] at h3 ⊢
      rw [← h3]
      simp [List.drop_append_eq_append_drop]
    · rename_i hp
      cases hsc : scanB pat cs with
      | none => rw [hsc] at h; exact Option.noConfusion h
      | some q =>
        rw [hsc] at h
        obtain ⟨q1, q2⟩ := q
        injection h with h1
        injection h1 with h2 h3
        have hq := ih hsc
        subst h2; subst h3
        simp [hq]

theorem trySplitsCIAux_success {α : Type} {pat : Str} {k : Str → Str → Option α}
    {a rest acc : Str} {r : α} {fuel : Nat} (hfuel : 0 < fuel)
    (hm : ipfxCI pat rest = true) (hf : FirstAtCI pat a rest)
    (hk : k (acc ++ a) (rest.drop pat.length) = some r) :
    trySplitsCIAux pat k fuel acc (a ++ rest) = some r := by
  cases fuel with
  | zero => omega
  | succ f =>
    simp only [trySplitsCIAux]
    rw [scanCI_first hm hf]
    simp only [hk]

theorem trySplitsCI_success {α : Type} {pat : Str} {k : Str → Str → Option α}
    {a rest : Str} {r : α} (hp : pat ≠ [])
    (hm : ipfxCI pat rest = true) (hf : FirstAtCI pat a rest)
    (hk : k a (rest.drop pat.length) = some r) :
    trySplitsCI pat k (a ++ rest) = some r := by
  unfold trySplitsCI
  have hfuel : 0 < (a ++ rest).length := by
    have h1 := ipfxCI_length hm
    have h2 : 0 < pat.length := List.length_pos.mpr hp
    simp
    omega
  exact trySplitsCIAux_success hfuel hm hf (by simpa using hk)

theorem trySplitsCIAux_none {α : Type} {pat : Str} {k : Str → Str → Option α}
    {fuel : Nat} {acc s : Str} (h : occCI pat s = false) :
    trySplitsCIAux pat k fuel acc s = none := by
  cases fuel with
  | zero => rfl
  | succ f =>
    simp only [trySplitsCIAux]
    rw [scanCI_none h]

theorem trySplitsCI_none {α : Type} {pat : Str} {k : Str → Str → Option α}
    {s : Str} (h : occCI pat s = false) :
    trySplitsCI pat k s = none :=
  trySplitsCIAux_none h

theorem trySplitsB_success {α : Type} {pat : Str} {k : Str → Str → Option α}
    {a rest : Str} {r : α} (hp : pat ≠ [])
    (hm : ipfx pat rest = true) (hf : FirstAtB pat a rest)
    (hk : k a (rest.drop pat.length) = some r) :
    trySplitsB pat k (a ++ rest) = some r := by
  unfold trySplitsB
  have hfuel : 0 < (a ++ rest).length := by
    rw [ipfx_iff] at hm
    obtain ⟨t, ht⟩ := hm
    have h2 : 0 < pat.length := List.length_pos.mpr hp
    simp [ht]
    omega
  cases hc : (a ++ rest).length with
  | zero => omega
  | succ f =>
    simp only [trySplitsBAux]
    rw [scanB_first hm hf]
    simp only [List.nil_append, hk]

theorem trySplitsBAux_none {α : Type} {pat : Str} {k : Str → Str → Option α}
    {fuel : Nat} {acc s : Str} (h : occB pat s = false) :
    trySplitsBAux pat k fuel acc s = none := by
  cases fuel with
  | zero => rfl
  | succ f =>
    simp only [trySplitsBAux]
    rw [scanB_none h]

theorem trySplitsB_none {α : Type} {pat : Str} {k : Str → Str → Option α}
    {s : Str} (h : occB pat s = false) :
    trySplitsB pat k s = none :=
  trySplitsBAux_none h

/-- Every candidate occurrence of `pat` in `w` makes the continuation fail. -/
def AllFailCI {α : Type} (pat : Str) (k : Str → Str → Option α) (w : Str) : Prop :=
  ∀ pre rest, w = pre ++ rest → ipfxCI pat rest = true →
    k pre (rest.drop pat.length) = none

theorem trySplitsCIAux_allfail {α : Type} {pat : Str} {k : Str → Str → Option α}
    {fuel : Nat} {acc s : Str} (h : AllFailCI pat k (acc ++ s)) :
    trySplitsCIAux pat k fuel acc s = none := by
  induction fuel generalizing acc s with
  | zero => rfl
  | succ f ih =>
    simp only [trySplitsCIAux]
    cases hsc : scanCI pat s with
    | none => rfl
    | some q =>
      obtain ⟨pre, m, post⟩ := q
      obtain ⟨hdec, hml, hpm⟩ := scanCI_sound hsc
      have hdrop : (m ++ post).drop pat.length = post := by
        rw [← hml, List.drop_left]
      have hk : k (acc ++ pre) post = none := by
        have := h (acc ++ pre) (m ++ post)
          (by rw [hdec]; simp [List.append_assoc]) hpm
        rwa [hdrop] at this
      dsimp only
      rw [hk]
      cases hmp : m ++ post with
      | nil => rfl
      | cons c rest2 =>
        apply ih
        intro pre' rest' hw hp'
        apply h pre' rest' ?_ hp'
        rw [← hw, hdec]
        simp only [List.append_assoc, List.singleton_append]
        rw [hmp]

theorem trySplitsCI_allfail {α : Type} {pat : Str} {k : Str → Str → Option α}
    {s : Str} (h : AllFailCI pat k s) : trySplitsCI pat k s = none :=
  trySplitsCIAux_allfail (by simpa using h)

theorem occCI_append_false {pat a b : Str}
    (ha : occCI pat a = false) (hb : occCI pat b = false)
    (hj : ∀ k, 0 < k → k < pat.length → SfxCI (pat.take k) a →
      ipfxCI (pat.drop k) b = false) :
    occCI pat (a ++ b) = false := by
  by_contra hc
  rw [Bool.not_eq_false] at hc
  rcases occCI_append_cases hc with h1 | h2 | ⟨kk, hk1, hk2, hk3, hk4⟩
  · rw [h1] at ha; exact Bool.noConfusion ha
  · rw [h2] at hb; exact Bool.noConfusion hb
  · rw [hj kk hk1 hk2 hk3] at hk4; exact Bool.noConfusion hk4

theorem getD_drop_zero {l : List Char} {i : Nat} (h : i < l.length) (d : Char) :
    (l.drop i).getD 0 d = l.getD i d := by
  simp [List.getD_eq_getElem?_getD, List.getElem?_drop]

theorem getD_append_left {a b : List Char} {i : Nat} (h : i < a.length) (d : Char) :
    (a ++ b).getD i d = a.getD i d := by
  simp [List.getD_eq_getElem?_getD, List.getElem?_append_left h]

theorem getD_last_append {y w : List Char} (hw : w ≠ []) (d : Char) :
    (y ++ w).getD ((y ++ w).length - 1) d = w.getD (w.length - 1) d := by
  have hl : 0 < w.length := List.length_pos.mpr hw
  simp only [List.getD_eq_getElem?_getD, List.length_append]
  rw [List.getElem?_append_right (by omega)]
  have hidx : y.length + w.length - 1 - y.length = w.length - 1 := by omega
  rw [hidx]

theorem junction_false_of_head {pat b : Str} {y : Char} (hy : isAsciiAlpha y = false)
    (hb : b ≠ []) (hbh : b.getD 0 ' ' = y)
    (hpat : ∀ k, 0 < k → k < pat.length → pat.getD k ' ' ≠ y) :
    ∀ k, 0 < k → k < pat.length → ipfxCI (pat.drop k) b = false := by
  intro k hk1 hk2
  by_contra hc
  rw [Bool.not_eq_false] at hc
  have h0 := ipfxCI_getD hc 0 (by simp; omega) ' '
  rw [getD_drop_zero hk2, hbh, eqCI_nonalpha_right hy] at h0
  exact hpat k hk1 hk2 h0

theorem sfxCI_take_false_of_last {pat a : Str} {z : Char} (hz : isAsciiAlpha z = false)
    (ha : a ≠ []) (hlast : a.getD (a.length - 1) ' ' = z)
    (hpat : ∀ k, 0 < k → k < pat.length → pat.getD (k - 1) ' ' ≠ z) :
    ∀ k, 0 < k → k < pat.length → ¬ SfxCI (pat.take k) a := by
  intro k hk1 hk2 hsfx
  obtain ⟨hlen, hipfx⟩ := hsfx
  have hkt : (pat.take k).length = k := by simp [List.length_take]; omega
  rw [hkt] at hlen hipfx
  have hj := ipfxCI_getD hipfx (k - 1) (by rw [hkt]; omega) ' '
  have hq : (pat.take k).getD (k - 1) ' ' = pat.getD (k - 1) ' ' := by
    simp [List.getD_eq_getElem?_getD, List.getElem?_take_of_lt (show k - 1 < k by omega)]
  have hs : (a.drop (a.length - k)).getD (k - 1) ' ' = a.getD (a.length - 1) ' ' := by
    simp only [List.getD_eq_getElem?_getD, List.getElem?_drop]
    congr 2
    omega
  rw [hq, hs, hlast, eqCI_nonalpha_right hz] at hj
  exact hpat k hk1 hk2 hj

theorem not_ipfx_head {pat s : Str} (h : occB pat s = false) :
    ipfx pat s = false := by
  by_contra hc
  rw [Bool.not_eq_false] at hc
  rw [occB_iff.mpr ⟨0, by simpa using hc⟩] at h
  exact Bool.noConfusion h

theorem occB_cons_false {pat : Str} {c : Char} {cs : Str}
    (h : occB pat (c :: cs) = false) : occB pat cs = false := by
  by_contra hc
  rw [Bool.not_eq_false, occB_iff] at hc
  obtain ⟨i, hi⟩ := hc
  rw [occB_iff.mpr ⟨i + 1, by simpa using hi⟩] at h
  exact Bool.noConfusion h

theorem occCI_cons_false {pat : Str} {c : Char} {cs : Str}
    (h : occCI pat (c :: cs) = false) : occCI pat cs = false := by
  by_contra hc
  rw [Bool.not_eq_false, occCI_iff] at hc
  obtain ⟨i, hi⟩ := hc
  rw [occCI_iff.mpr ⟨i + 1, by simpa using hi⟩] at h
  exact Bool.noConfusion h

theorem replaceAllF_no_occ {pat rep : Str} :
    ∀ {fuel : Nat} {s : Str}, s.length ≤ fuel → occB pat s = false →
      replaceAllF pat rep fuel s = s := by
  intro fuel
  induction fuel with
  | zero => intro s _ _; rfl
  | succ f ih =>
    intro s hlen hocc
    cases s with
    | nil => rfl
    | cons c cs =>
      have hh : ipfx pat (c :: cs) = false := not_ipfx_head hocc
      simp only [replaceAllF, hh, Bool.false_and, Bool.false_eq_true, if_false]
      rw [ih (by simpa using hlen) (occB_cons_false hocc)]

theorem replaceAll_no_occ {pat rep s : Str} (h : occB pat s = false) :
    replaceAll pat rep s = s :=
  replaceAllF_no_occ (Nat.le_refl _) h

theorem replaceAllF_decomp {pat rep a b : Str} (hp : pat ≠ [])
    (hb : occB pat b = false) :
    ∀ {fuel : Nat}, (a ++ pat ++ b).length ≤ fuel → FirstAtB pat a (pat ++ b) →
      replaceAllF pat rep fuel (a ++ pat ++ b) = a ++ rep ++ b := by
  induction a with
  | nil =>
    intro fuel hlen hf
    cases pat with
    | nil => exact absurd rfl hp
    | cons q qs =>
      cases fuel with
      | zero => simp at hlen
      | succ f =>
        have hip : ipfx (q :: qs) (q :: (qs ++ b)) = true := by
          have := ipfx_append (q :: qs) b
          simpa using this
        simp only [List.nil_append, List.cons_append, replaceAllF]
        rw [if_pos (by simp [hip, List.isEmpty])]
        have hfb : b.length ≤ f := by simp at hlen; omega
        have hdrop : List.drop (List.length (q :: qs)) (q :: (qs ++ b)) = b := by
          simpa using List.drop_left (q :: qs) b
        simp only [List.append_eq]
        rw [hdrop, replaceAllF_no_occ hfb hb]
  | cons c a' ih =>
    intro fuel hlen hf
    cases fuel with
    | zero => simp at hlen
    | succ f =>
      have h0 : ipfx pat (c :: (a' ++ pat ++ b)) = false := by
        have := hf 0 (Nat.succ_pos _)
        simpa using this
      simp only [List.cons_append, replaceAllF, h0, Bool.false_and,
        Bool.false_eq_true, if_false]
      have hf' : FirstAtB pat a' (pat ++ b) := by
        intro i hi
        have := hf (i + 1) (by simpa [Nat.succ_lt_succ_iff] using hi)
        simpa using this
      have hrec := ih (show ((a' ++ pat ++ b)).length ≤ f by simp at hlen ⊢; omega) hf'
      simp only [List.append_eq, List.append_assoc] at hrec ⊢
      have h0' : ipfx pat (c :: (a' ++ (pat ++ b))) = false := by
        simpa [List.append_assoc] using h0
      rw [if_neg (by simp [h0']), hrec]

theorem replaceAllF_single {c : Char} {rep : Str} :
    ∀ {fuel : Nat} {s : Str}, s.length ≤ fuel →
      replaceAllF [c] rep fuel s = s.flatMap (fun d => if d = c then rep else [d]) := by
  intro fuel
  induction fuel with
  | zero =>
    intro s hlen
    have : s = [] := List.length_eq_zero.mp (by omega)
    subst this
    rfl
  | succ f ih =>
    intro s hlen
    cases s with
    | nil => rfl
    | cons d ds =>
      by_cases hd : d = c
      · subst hd
        have hip : ipfx [d] (d :: ds) = true := by simp [ipfx]
        simp only [replaceAllF, hip, List.isEmpty, Bool.and_true, Bool.true_and, if_pos,
          Bool.not_false, List.length_cons, List.drop_succ_cons, List.drop_zero]
        rw [ih (by simpa using hlen)]
        simp
      · have hip : ipfx [c] (d :: ds) = false := by simp [ipfx]; exact fun h => absurd h.symm hd
        simp only [replaceAllF, hip, Bool.false_and, Bool.false_eq_true, if_false]
        rw [ih (by simpa using hlen)]
        simp [hd]

theorem replaceAll_single {c : Char} {rep : Str} (s : Str) :
    replaceAll [c] rep s = s.flatMap (fun d => if d = c then rep else [d]) :=
  replaceAllF_single (Nat.le_refl _)

/-- The per-character expansion performed by `_escape_html`. -/
def escChar (c : Char) : Str :=
  if c = '&' then str "&amp;" else if c = '<' then str "&lt;"
  else if c = '>' then str "&gt;" else if c = '"' then str "&quot;" else [c]

theorem escape_html_eq (s : Str) : escape_html s = s.flatMap escChar := by
  unfold escape_html
  have h1 : str "\"" = ['"'] := rfl
  have h2 : str ">" = ['>'] := rfl
  have h3 : str "<" = ['<'] := rfl
  have h4 : str "&" = ['&'] := rfl
  rw [h1, h2, h3, h4, replaceAll_single, replaceAll_single, replaceAll_single,
    replaceAll_single]
  induction s with
  | nil => rfl
  | cons c cs ih =>
    simp only [List.flatMap_cons, List.flatMap_append] at *
    rw [ih]
    congr 1
    by_cases hamp : c = '&'
    · subst hamp; rfl
    · by_cases hlt : c = '<'
      · subst hlt; rfl
      · by_cases hgt : c = '>'
        · subst hgt; rfl
        · by_cases hq : c = '"'
          · subst hq; rfl
          · simp [escChar, hamp, hlt, hgt, hq]

theorem escChar_no_angle {c x : Char} (hx : x = '<' ∨ x = '>' ∨ x = '"')
    (hcx : c ≠ x) : x ∉ escChar c := by
  intro hmem
  unfold escChar at hmem
  split_ifs at hmem <;>
    rcases hx with rfl | rfl | rfl <;>
      simp [str] at hmem <;>
        exact hcx hmem.symm

theorem escape_not_mem {s : Str} {x : Char} (hx : x = '<' ∨ x = '>' ∨ x = '"') :
    x ∉ escape_html s := by
  rw [escape_html_eq]
  intro hmem
  rw [List.mem_flatMap] at hmem
  obtain ⟨c, _, hc⟩ := hmem
  by_cases hcx : c = x
  · subst hcx
    rcases hx with rfl | rfl | rfl <;> simp [escChar, str] at hc
  · exact escChar_no_angle hx hcx hc

theorem escape_eq_nil_iff {s : Str} : escape_html s = [] ↔ s = [] := by
  rw [escape_html_eq]
  cases s with
  | nil => simp
  | cons c cs =>
    simp only [List.flatMap_cons]
    constructor
    · intro h
      have hne : escChar c ≠ [] := by
        unfold escChar
        split_ifs <;> simp [str]
      rcases List.append_eq_nil.mp h with ⟨h1, _⟩
      exact absurd h1 hne
    · intro h; exact absurd h (by simp)

theorem ipfx_cons_ne {p c : Char} {ps cs : Str} (h : p ≠ c) :
    ipfx (p :: ps) (c :: cs) = false := by
  simp [ipfx, h]

theorem ipfx_cons_self {c : Char} {ps cs : Str} :
    ipfx (c :: ps) (c :: cs) = ipfx ps cs := by
  simp [ipfx]

theorem escChar_ne_nil (c : Char) : escChar c ≠ [] := by
  unfold escChar
  split_ifs <;> simp [str]

theorem unescape_escape_aux : ∀ (fuel : Nat) (s : Str),
    (s.flatMap escChar).length ≤ fuel →
    unescape_htmlF fuel (s.flatMap escChar) = s := by
  intro fuel
  induction fuel with
  | zero =>
    intro s h
    cases s with
    | nil => rfl
    | cons c cs =>
      exfalso
      rw [List.flatMap_cons] at h
      rw [Nat.le_zero, List.length_eq_zero] at h
      exact escChar_ne_nil c (List.append_eq_nil.mp h).1
  | succ fuel ih =>
    intro s h
    cases s with
    | nil => rfl
    | cons c cs =>
      simp only [List.flatMap_cons] at h ⊢
      by_cases hamp : c = '&'
      · subst hamp
        have hcs : (cs.flatMap escChar).length ≤ fuel := by
          rw [show escChar '&' = '&' :: 'a' :: 'm' :: 'p' :: [';'] from rfl] at h
          simp only [List.cons_append, List.nil_append, List.length_cons] at h
          omega
        show unescape_htmlF (fuel + 1)
          ('&' :: ('a' :: 'm' :: 'p' :: ';' :: cs.flatMap escChar)) = _
        simp only [unescape_htmlF]
        rw [if_pos trivial]
        have hip : ipfx (str "amp;")
            ('a' :: 'm' :: 'p' :: ';' :: cs.flatMap escChar) = true := by
          have := ipfx_append (str "amp;") (cs.flatMap escChar)
          simpa [str] using this
        rw [if_pos hip]
        simp only [List.drop_succ_cons, List.drop_zero]
        rw [ih cs hcs]
      · by_cases hlt : c = '<'
        · subst hlt
          have hcs : (cs.flatMap escChar).length ≤ fuel := by
            rw [show escChar '<' = '&' :: 'l' :: 't' :: [';'] from rfl] at h
            simp only [List.cons_append, List.nil_append, List.length_cons] at h
            omega
          show unescape_htmlF (fuel + 1)
            ('&' :: ('l' :: 't' :: ';' :: cs.flatMap escChar)) = _
          simp only [unescape_htmlF]
          rw [if_pos trivial]
          rw [if_neg (by rw [show (str "amp;") = 'a' :: 'm' :: 'p' :: [';'] from rfl,
            ipfx_cons_ne (by decide)]; simp)]
          have hip : ipfx (str "lt;")
              ('l' :: 't' :: ';' :: cs.flatMap escChar) = true := by
            have := ipfx_append (str "lt;") (cs.flatMap escChar)
            simpa [str] using this
          rw [if_pos hip]
          simp only [List.drop_succ_cons, List.drop_zero]
          rw [ih cs hcs]
        · by_cases hgt : c = '>'
          · subst hgt
            have hcs : (cs.flatMap escChar).length ≤ fuel := by
              rw [show escChar '>' = '&' :: 'g' :: 't' :: [';'] from rfl] at h
              simp only [List.cons_append, List.nil_append, List.length_cons] at h
              omega
            show unescape_htmlF (fuel + 1)
              ('&' :: ('g' :: 't' :: ';' :: cs.flatMap escChar)) = _
            simp only [unescape_htmlF]
            rw [if_pos trivial]
            rw [if_neg (by rw [show (str "amp;") = 'a' :: 'm' :: 'p' :: [';'] from rfl,
              ipfx_cons_ne (by decide)]; simp)]
            rw [if_neg (by rw [show (str "lt;") = 'l' :: 't' :: [';'] from rfl,
              ipfx_cons_ne (by decide)]; simp)]
            have hip : ipfx (str "gt;")
                ('g' :: 't' :: ';' :: cs.flatMap escChar) = true := by
              have := ipfx_append (str "gt;") (cs.flatMap escChar)
              simpa [str] using this
            rw [if_pos hip]
            simp only [List.drop_succ_cons, List.drop_zero]
            rw [ih cs hcs]
          · by_cases hq : c = '"'
            · subst hq
              have hcs : (cs.flatMap escChar).length ≤ fuel := by
                rw [show escChar '"' = '&' :: 'q' :: 'u' :: 'o' :: 't' :: [';'] from rfl] at h
                simp only [List.cons_append, List.nil_append, List.length_cons] at h
                omega
              show unescape_htmlF (fuel + 1)
                ('&' :: ('q' :: 'u' :: 'o' :: 't' :: ';' :: cs.flatMap escChar)) = _
              simp only [unescape_htmlF]
              rw [if_pos trivial]
              rw [if_neg (by rw [show (str "amp;") = 'a' :: 'm' :: 'p' :: [';'] from rfl,
                ipfx_cons_ne (by decide)]; simp)]
              rw [if_neg (by rw [show (str "lt;") = 'l' :: 't' :: [';'] from rfl,
                ipfx_cons_ne (by decide)]; simp)]
              rw [if_neg (by rw [show (str "gt;") = 'g' :: 't' :: [';'] from rfl,
                ipfx_cons_ne (by decide)]; simp)]
              have hip : ipfx (str "quot;")
                  ('q' :: 'u' :: 'o' :: 't' :: ';' :: cs.flatMap escChar) = true := by
                have := ipfx_append (str "quot;") (cs.flatMap escChar)
                simpa [str] using this
              rw [if_pos hip]
              simp only [List.drop_succ_cons, List.drop_zero]
              rw [ih cs hcs]
            · have hesc : escChar c = [c] := by simp [escChar, hamp, hlt, hgt, hq]
              rw [hesc] at h ⊢
              have hcs : (cs.flatMap escChar).length ≤ fuel := by
                simp only [List.cons_append, List.nil_append, List.length_cons] at h
                omega
              show unescape_htmlF (fuel + 1) (c :: cs.flatMap escChar) = _
              simp only [unescape_htmlF]
              rw [if_neg hamp]
              rw [ih cs hcs]

theorem unescape_escape (s : Str) : unescape_html (escape_html s) = s := by
  rw [escape_html_eq]
  show unescape_htmlF (s.flatMap escChar).length (s.flatMap escChar) = s
  exact unescape_escape_aux _ s le_rfl

theorem dropWS_eq_self {s : Str} (h : ∀ c, s.head? = some c → isWS c = false) :
    dropWS s = s := by
  cases s with
  | nil => rfl
  | cons c cs =>
    have hc : isWS c = false := h c rfl
    simp [dropWS, List.dropWhile_cons, hc]

theorem dropWhile_eq_self_of_length {p : Char → Bool} {l : List Char}
    (h : (l.dropWhile p).length = l.length) : l.dropWhile p = l := by
  cases l with
  | nil => rfl
  | cons c cs =>
    by_cases hp : p c = true
    · exfalso
      rw [List.dropWhile_cons, if_pos hp] at h
      have := length_dropWhile_le p cs
      simp at h
      omega
    · rw [List.dropWhile_cons, if_neg (by simp [hp])]

theorem head_not_ws_of_dropWS {s : Str} (h : dropWS s = s) :
    ∀ c, s.head? = some c → isWS c = false := by
  intro c hc
  cases s with
  | nil => exact Option.noConfusion hc
  | cons d ds =>
    cases hc
    by_cases hw : isWS c = true
    · exfalso
      unfold dropWS at h
      rw [List.dropWhile_cons, if_pos hw] at h
      have h1 := congrArg List.length h
      have h2 := length_dropWhile_le (fun x => isWS x) ds
      simp at h1
      omega
    · simpa using hw

theorem stripWS_eq_self {s : Str}
    (hh : ∀ c, s.head? = some c → isWS c = false)
    (hl : ∀ c, s.getLast? = some c → isWS c = false) :
    stripWS s = s := by
  unfold stripWS
  have h1 : dropWS s.reverse = s.reverse := by
    apply dropWS_eq_self
    intro c hc
    rw [List.head?_reverse] at hc
    exact hl c hc
  rw [h1, List.reverse_reverse]
  exact dropWS_eq_self hh

theorem stripWS_self_parts {s : Str} (h : stripWS s = s) :
    dropWS s = s ∧ dropWS s.reverse = s.reverse := by
  unfold stripWS at h
  have hlen1 : (dropWS ((dropWS s.reverse).reverse)).length ≤
      (dropWS s.reverse).length := by
    have := length_dropWhile_le (fun c => isWS c) ((dropWS s.reverse).reverse)
    simpa [dropWS] using this
  have hlen2 : (dropWS s.reverse).length ≤ s.length := by
    have := length_dropWhile_le (fun c => isWS c) s.reverse
    simpa [dropWS] using this
  have hlen0 : (dropWS ((dropWS s.reverse).reverse)).length = s.length := by
    rw [h]
  have he : (dropWS s.reverse).length = s.reverse.length := by simp; omega
  have h2 : dropWS s.reverse = s.reverse := dropWhile_eq_self_of_length he
  rw [h2, List.reverse_reverse] at h
  exact ⟨h, h2⟩

theorem head_not_ws_of_stripWS {s : Str} (h : stripWS s = s) :
    ∀ c, s.head? = some c → isWS c = false :=
  head_not_ws_of_dropWS (stripWS_self_parts h).1

theorem last_not_ws_of_stripWS {s : Str} (h : stripWS s = s) :
    ∀ c, s.getLast? = some c → isWS c = false := by
  intro c hc
  have h2 := (stripWS_self_parts h).2
  apply head_not_ws_of_dropWS h2
  rw [List.head?_reverse]
  exact hc

theorem joinNL_cons (x : Str) (xs : List Str) : joinNL (x :: xs) = x ++ flatNL xs := by
  induction xs generalizing x with
  | nil => simp [joinNL, flatNL]
  | cons y ys ih =>
    show joinNL (x :: y :: ys) = _
    rw [joinNL, ih y]
    simp [flatNL]

theorem flatNL_append (a b : List Str) : flatNL (a ++ b) = flatNL a ++ flatNL b := by
  simp [flatNL]

theorem normalize_id {s : Str} (h1 : 'ß' ∉ s) (h2 : 'ẞ' ∉ s) :
    normalize_for_paste s = s := by
  unfold normalize_for_paste
  rw [show str "ß" = ['ß'] from rfl, show str "ẞ" = ['ẞ'] from rfl]
  have hi : replaceAll ['ß'] (str "ss") s = s :=
    replaceAll_no_occ (not_occB_of_char ⟨0, by simp, rfl⟩ h1)
  rw [hi]
  exact replaceAll_no_occ (not_occB_of_char ⟨0, by simp, rfl⟩ h2)

/-- Position-by-position occurrence test, kernel-evaluation-friendly. -/
def occCIs (pat : Str) : Str → Bool
  | [] => ipfxCI pat []
  | c :: cs => ipfxCI pat (c :: cs) || occCIs pat cs

/-- Case-sensitive variant of `occCIs`. -/
def occBs (pat : Str) : Str → Bool
  | [] => ipfx pat []
  | c :: cs => ipfx pat (c :: cs) || occBs pat cs

theorem occCIs_iff {pat s : Str} :
    occCIs pat s = true ↔ ∃ i, ipfxCI pat (s.drop i) = true := by
  induction s with
  | nil =>
    simp only [occCIs]
    constructor
    · intro h; exact ⟨0, by simpa using h⟩
    · rintro ⟨i, hi⟩; simpa using hi
  | cons c cs ih =>
    simp only [occCIs, Bool.or_eq_true, ih]
    constructor
    · rintro (h | ⟨i, hi⟩)
      · exact ⟨0, by simpa using h⟩
      · exact ⟨i + 1, by simpa using hi⟩
    · rintro ⟨i, hi⟩
      cases i with
      | zero => exact Or.inl (by simpa using hi)
      | succ i => exact Or.inr ⟨i, by simpa using hi⟩

theorem occCI_eq_occCIs (pat s : Str) : occCI pat s = occCIs pat s := by
  by_cases h : occCIs pat s = true
  · rw [h, occCI_iff.mpr (occCIs_iff.mp h)]
  · rw [Bool.not_eq_true] at h
    rw [h]
    by_contra hc
    rw [← Bool.not_eq_true, Bool.not_eq_true] at hc
    rw [Bool.not_eq_false] at hc
    rw [occCIs_iff.mpr (occCI_iff.mp hc)] at h
    exact Bool.noConfusion h

theorem occBs_iff {pat s : Str} :
    occBs pat s = true ↔ ∃ i, ipfx pat (s.drop i) = true := by
  induction s with
  | nil =>
    simp only [occBs]
    constructor
    · intro h; exact ⟨0, by simpa using h⟩
    · rintro ⟨i, hi⟩; simpa using hi
  | cons c cs ih =>
    simp only [occBs, Bool.or_eq_true, ih]
    constructor
    · rintro (h | ⟨i, hi⟩)
      · exact ⟨0, by simpa using h⟩
      · exact ⟨i + 1, by simpa using hi⟩
    · rintro ⟨i, hi⟩
      cases i with
      | zero => exact Or.inl (by simpa using hi)
      | succ i => exact Or.inr ⟨i, by simpa using hi⟩

theorem occB_eq_occBs (pat s : Str) : occB pat s = occBs pat s := by
  by_cases h : occBs pat s = true
  · rw [h, occB_iff.mpr (occBs_iff.mp h)]
  · rw [Bool.not_eq_true] at h
    rw [h]
    by_contra hc
    rw [← Bool.not_eq_true, Bool.not_eq_true] at hc
    rw [Bool.not_eq_false] at hc
    rw [occBs_iff.mpr (occB_iff.mp hc)] at h
    exact Bool.noConfusion h

/-! ## Claim theorems -/

/-- C4: an `Entry` (kv) row whose key and value are both empty contributes no
`<tr>` lines to the exported output and the whole export equals the export of
the snapshot without it, regardless of its position; a kv row with a non-empty
key or a non-empty value is emitted at its position in snapshot order. -/
theorem C4_entry_skip_iff_both_empty (S1 S2 : List (Str × Str × Str))
    (a b lh rh : Str) :
    body_lines id id (S1 ++ (str "kv", a, b) :: S2)
      = body_lines id id S1 ++ row_lines id id (str "kv", a, b)
          ++ body_lines id id S2
    ∧ (row_lines id id (str "kv", a, b) = [] ↔ a = [] ∧ b = [])
    ∧ (a = [] ∧ b = [] →
        build_table_from_snapshot (S1 ++ (str "kv", a, b) :: S2) lh rh id id
          = build_table_from_snapshot (S1 ++ S2) lh rh id id) := by
  have hrow : row_lines id id (str "kv", a, b)
      = if escape_html a = [] ∧ b = [] then ([] : List Str)
        else
          [str "\t\t<tr>",
           str "\t\t\t<th>" ++ escape_html a ++ str "</th>",
           str "\t\t\t<td>" ++ b ++ str "</td>",
           str "\t\t</tr>"] := by
    simp only [row_lines, id_eq]
    rw [if_neg (by decide), if_neg (by decide)]
  have hbody : body_lines id id (S1 ++ (str "kv", a, b) :: S2)
      = body_lines id id S1 ++ row_lines id id (str "kv", a, b)
          ++ body_lines id id S2 := by
    simp [body_lines, List.append_assoc]
  refine ⟨hbody, ?_, ?_⟩
  · rw [hrow]
    by_cases h : escape_html a = [] ∧ b = []
    · rw [if_pos h]
      simp only [true_iff, iff_true]
      exact ⟨escape_eq_nil_iff.mp h.1, h.2⟩
    · rw [if_neg h]
      constructor
      · intro hc; exact absurd hc (by simp)
      · intro hab; exact absurd ⟨escape_eq_nil_iff.mpr hab.1, hab.2⟩ h
  · intro hab
    have hnil : row_lines id id (str "kv", a, b) = [] := by
      rw [hrow, if_pos ⟨escape_eq_nil_iff.mpr hab.1, hab.2⟩]
    unfold build_table_from_snapshot build_table_lines
    rw [show body_lines id id (S1 ++ (str "kv", a, b) :: S2)
        = body_lines id id (S1 ++ S2) by
      rw [hbody, hnil]
      simp [body_lines]]

/-- C5 counterexample: with the identity label translator and a value
translator sending the non-empty value "x" to the empty string (a real
translator may do this), the kv row `("", "x")` is skipped in the translated
export but emitted in the source-language export, so the two invocations do
not skip the same set of rows. -/
theorem C5_counterexample :
    body_lines id (fun v => if v = str "x" then [] else v)
        [(str "kv", [], str "x")] = []
    ∧ body_lines id id [(str "kv", [], str "x")] ≠ [] :=
  ⟨by decide, by decide⟩

/-- C5 (amended): when the label and value translators preserve emptiness
(they map a string to the empty string only if it was empty, as the identity
does), the translated exporter invocation enumerates rows in the same
snapshot order — each row's lines sit between its neighbours' lines — and
skips exactly the rows the identity (source-language) invocation skips. -/
theorem C5_translated_same_rows (tl tv : Str → Str)
    (hl : ∀ x, tl x = [] ↔ x = []) (hv : ∀ x, tv x = [] ↔ x = [])
    (S1 S2 : List (Str × Str × Str)) (r : Str × Str × Str) :
    body_lines tl tv (S1 ++ r :: S2)
      = body_lines tl tv S1 ++ row_lines tl tv r ++ body_lines tl tv S2
    ∧ (row_lines tl tv r = [] ↔ row_lines id id r = []) := by
  constructor
  · simp [body_lines, List.append_assoc]
  · obtain ⟨kind, a, b⟩ := r
    show (if kind = str "section" then _ else _) = [] ↔
      (if kind = str "section" then _ else _) = []
    by_cases h1 : kind = str "section"
    · rw [if_pos h1, if_pos h1]
      constructor <;> (intro hc; exact absurd hc (by simp))
    · rw [if_neg h1, if_neg h1]
      by_cases h2 : kind = str "cat"
      · rw [if_pos h2, if_pos h2]
        constructor <;> (intro hc; exact absurd hc (by simp))
      · rw [if_neg h2, if_neg h2]
        by_cases h3 : a = [] ∧ b = []
        · rw [if_pos ⟨escape_eq_nil_iff.mpr ((hl a).mpr h3.1), (hv b).mpr h3.2⟩,
              if_pos ⟨escape_eq_nil_iff.mpr h3.1, h3.2⟩]
        · rw [if_neg (fun hc => h3 ⟨(hl a).mp (escape_eq_nil_iff.mp hc.1),
                (hv b).mp hc.2⟩),
              if_neg (fun hc => h3 ⟨escape_eq_nil_iff.mp hc.1, hc.2⟩)]
          constructor <;> (intro hc; exact absurd hc (by simp))

/-- C5 witness: the amended theorem at the identity translators and a
one-row snapshot. -/
theorem C5_translated_same_rows_witness :
    body_lines (fun x => x) (fun x => x)
        ([] ++ (str "kv", str "K", str "V") :: [])
      = body_lines (fun x => x) (fun x => x) []
          ++ row_lines (fun x => x) (fun x => x) (str "kv", str "K", str "V")
          ++ body_lines (fun x => x) (fun x => x) []
    ∧ (row_lines (fun x => x) (fun x => x) (str "kv", str "K", str "V") = []
        ↔ row_lines id id (str "kv", str "K", str "V") = []) :=
  C5_translated_same_rows (fun x => x) (fun x => x)
    (fun _ => Iff.rfl) (fun _ => Iff.rfl) [] [] (str "kv", str "K", str "V")

/-- A fallback-path test document: no `<thead>`, a section row, a category
row, a malformed row (a `<th>` with no `<td>` and no class) and a kv row. -/
def C6_DOC : Str := str ("<table border=\"1\" class=\"specs\">\n\t<tbody>\n" ++
  "\t\t<tr class=\"section\">\n\t\t\t<th class=\"section\" colspan=\"2\">Allgemein</th>\n\t\t</tr>\n" ++
  "\t\t<tr class=\"cat\">\n\t\t\t<th class=\"category\" colspan=\"2\">Objektiv</th>\n\t\t</tr>\n" ++
  "\t\t<tr><th>Oops</th></tr>\n" ++
  "\t\t<tr>\n\t\t\t<th>Aufl&amp;sung</th>\n\t\t\t<td>24 MP</td>\n\t\t</tr>\n" ++
  "\t</tbody>\n</table>")

/-- The malformed `<tr>` block of `C6_DOC`. -/
def C6_BAD : Str := str "<tr><th>Oops</th></tr>"

/-- C6: in the fallback (no-snapshot) import path the `<tr>` blocks are
classified in document order into section, category and key/value rows; the
malformed block of `C6_DOC` is dropped while the remaining rows load in
their original order (and in general a dropped block never disturbs the
rows around it), and a document whose header regex fails gets the default
header strings. -/
theorem C6_fallback_classification :
    parse_specs_fallback C6_DOC
      = (DEFAULT_HEADER_LEFT, DEFAULT_HEADER_RIGHT,
         [(str "__SECTION__", str "Allgemein"),
          (str "__CAT__", str "Objektiv"),
          (str "Aufl&sung", str "24 MP")])
    ∧ (match_tbody C6_DOC).map tr_blocks
      = some [str "<tr class=\"section\">\n\t\t\t<th class=\"section\" colspan=\"2\">Allgemein</th>\n\t\t</tr>",
              str "<tr class=\"cat\">\n\t\t\t<th class=\"category\" colspan=\"2\">Objektiv</th>\n\t\t</tr>",
              C6_BAD,
              str "<tr>\n\t\t\t<th>Aufl&amp;sung</th>\n\t\t\t<td>24 MP</td>\n\t\t</tr>"]
    ∧ classify_tr C6_BAD = none
    ∧ (∀ B1 B2 : List Str, (B1 ++ C6_BAD :: B2).filterMap classify_tr
        = B1.filterMap classify_tr ++ B2.filterMap classify_tr)
    ∧ (∀ content, match_thead content = none →
        (parse_specs_fallback content).1 = DEFAULT_HEADER_LEFT
        ∧ (parse_specs_fallback content).2.1 = DEFAULT_HEADER_RIGHT) := by
  refine ⟨by decide, by decide, by decide, ?_, ?_⟩
  · intro B1 B2
    rw [List.filterMap_append, List.filterMap_cons,
        show classify_tr C6_BAD = none from by decide]
  · intro content h
    constructor <;> simp [parse_specs_fallback, h]

/-- C7 counterexample: on the successive raw lines
`["8.640 x", "5.760", "(", "Pixel", ")"]` the cleaner produces the two lines
"8.640 x 5.760" and "Pixel" (the lone "(" and ")" lines are dropped), not
the single claimed line "8.640 x 5.760 (Pixel)". -/
theorem C7_counterexample :
    clean_scraped_value (str "8.640 x\n5.760\n(\nPixel\n)")
      = str "8.640 x 5.760\nPixel"
    ∧ str "8.640 x 5.760\nPixel" ≠ str "8.640 x 5.760 (Pixel)" :=
  ⟨by decide, by decide⟩

/-- C7 (amended): when the parenthesised fragment arrives as the single
continuation line "(Pixel)", the raw lines `["8.640 x", "5.760", "(Pixel)"]`
do merge into the single cleaned line "8.640 x 5.760 (Pixel)": the numeric
continuation is appended and the line starting with "(" is appended. -/
theorem C7_merge_example :
    clean_scraped_value (str "8.640 x\n5.760\n(Pixel)")
      = str "8.640 x 5.760 (Pixel)" := by decide

/-- C10: whenever `_translate_plain_text` returns with the did-translate
flag false, the returned text is exactly the input text, for every engine
oracle, input text, dictionary mapping, post-edit table and block flag. -/
theorem C10_untranslated_passthrough (env : TrEnv) (text : Str)
    (mapping post_edits : List (Str × Str)) (bg : Bool)
    (h : (translate_plain_text env text mapping post_edits bg).2.1 = false) :
    (translate_plain_text env text mapping post_edits bg).1 = text := by
  revert h
  simp only [translate_plain_text]
  cases lookup_mapping mapping text with
  | some m => intro h; exact absurd h (by simp)
  | none =>
    repeat' split
    all_goals intro h
    all_goals first | rfl | (exact absurd h (by simp))

/-- C10 witness: a label the translator leaves alone (no engine, not
German-detected, no applicable dictionary entry or post-edit) comes back
verbatim. -/
theorem C10_untranslated_passthrough_witness :
    (translate_plain_text ⟨fun _ => false, none⟩ (str "Hello") [] [] false).1
      = str "Hello" :=
  C10_untranslated_passthrough ⟨fun _ => false, none⟩ (str "Hello") [] [] false
    (by decide)

/-- C8: with no machine-translation engine, the label "Blitzgerät" — an
exact key of the merged dictionary — returns its dictionary mapping (with
post-edits applied, here a no-op) and is marked translated, while
"Irgendein Wort" — absent from the dictionary but German-detected by the
language-identification oracle — returns verbatim with the did-translate
flag false, and the export worker's label step appends it to the
missing-translations list. -/
theorem C8_no_engine_degradation (env : TrEnv) (missing : List Str)
    (heng : env.engine = none)
    (hdet : env.detect (str "Irgendein Wort") = true)
    (hcon : missing.contains (str "Irgendein Wort") = false) :
    translate_plain_text env (str "Blitzgerät") FR_TRANSLATIONS FR_POST_EDITS
        false
      = (str "Flash", true, false)
    ∧ translate_plain_text env (str "Irgendein Wort") FR_TRANSLATIONS
        FR_POST_EDITS false
      = (str "Irgendein Wort", false, true)
    ∧ translate_label_step env FR_TRANSLATIONS FR_POST_EDITS missing
        (str "Irgendein Wort")
      = (str "Irgendein Wort", missing ++ [str "Irgendein Wort"]) := by
  have h1 : lookup_mapping FR_TRANSLATIONS (str "Blitzgerät")
      = some (str "Flash") := by decide
  have h2 : apply_post_edits (str "Flash") FR_POST_EDITS = str "Flash" := by
    decide
  have hb : translate_plain_text env (str "Blitzgerät") FR_TRANSLATIONS
      FR_POST_EDITS false = (str "Flash", true, false) := by
    simp only [translate_plain_text, h1, h2]
  have h3 : lookup_mapping FR_TRANSLATIONS (str "Irgendein Wort") = none := by
    decide
  have hstrip : stripWS (str "Irgendein Wort") = str "Irgendein Wort" := by
    decide
  have hhint : german_hint (str "Irgendein Wort") = false := by decide
  have h4 : should_translate_text env (str "Irgendein Wort") false = true := by
    simp only [should_translate_text, is_german_text, hstrip, hhint, hdet]
    decide
  have hedit : apply_post_edits (str "Irgendein Wort") FR_POST_EDITS
      = str "Irgendein Wort" := by decide
  have hw : translate_plain_text env (str "Irgendein Wort") FR_TRANSLATIONS
      FR_POST_EDITS false = (str "Irgendein Wort", false, true) := by
    simp only [translate_plain_text, h3, h4, heng, hedit, Bool.not_true]
    simp
  refine ⟨hb, hw, ?_⟩
  simp only [translate_label_step, hw, hcon]
  rfl

/-- C8 witness: the degradation behaviour at a concrete oracle that has no
engine and detects exactly "Irgendein Wort" as German, with an empty
missing-translations list. -/
theorem C8_no_engine_degradation_witness :
    translate_plain_text ⟨fun s => s == str "Irgendein Wort", none⟩
        (str "Blitzgerät") FR_TRANSLATIONS FR_POST_EDITS false
      = (str "Flash", true, false)
    ∧ translate_plain_text ⟨fun s => s == str "Irgendein Wort", none⟩
        (str "Irgendein Wort") FR_TRANSLATIONS FR_POST_EDITS false
      = (str "Irgendein Wort", false, true)
    ∧ translate_label_step ⟨fun s => s == str "Irgendein Wort", none⟩
        FR_TRANSLATIONS FR_POST_EDITS [] (str "Irgendein Wort")
      = (str "Irgendein Wort", [] ++ [str "Irgendein Wort"]) :=
  C8_no_engine_degradation ⟨fun s => s == str "Irgendein Wort", none⟩ []
    rfl (by decide) rfl

/-- C9 counterexample: on the text "<<T0>> abc" the masker turns the
ordinary word "abc" into the token `<<T0>>` — colliding with the literal
"<<T0>>" already present — and unmasking replaces both occurrences, giving
"abc abc" instead of the original text: unmask after mask is not the
identity on every text. -/
theorem C9_counterexample :
    unmask_protected_tokens (mask_protected_tokens (str "<<T0>> abc")).1
        (mask_protected_tokens (str "<<T0>> abc")).2
      = str "abc abc"
    ∧ str "abc abc" ≠ str "<<T0>> abc" :=
  ⟨by decide, by decide⟩

theorem replaceAll_decomp {pat rep a b : Str} (hp : pat ≠ [])
    (hb : occB pat b = false) (hf : FirstAtB pat a (pat ++ b)) :
    replaceAll pat rep (a ++ pat ++ b) = a ++ rep ++ b :=
  replaceAllF_decomp hp hb le_rfl hf

theorem occB_nil_of_ne {pat : Str} (hp : pat ≠ []) : occB pat [] = false := by
  cases pat with
  | nil => exact absurd rfl hp
  | cons q qs => simp [occB, scanB, ipfx]

theorem drop_ne_nil_of_lt {l : List Char} {n : Nat} (h : n < l.length) :
    l.drop n ≠ [] := by
  intro hc
  have := List.length_drop n l
  rw [hc] at this
  simp at this
  omega

theorem occB_cons_intro {pat : Str} {c : Char} {cs : Str}
    (h1 : ipfx pat (c :: cs) = false) (h2 : occB pat cs = false) :
    occB pat (c :: cs) = false := by
  by_contra hc
  rw [Bool.not_eq_false, occB_iff] at hc
  obtain ⟨i, hi⟩ := hc
  cases i with
  | zero => rw [List.drop_zero] at hi; rw [h1] at hi; exact Bool.noConfusion hi
  | succ i =>
    rw [List.drop_succ_cons] at hi
    rw [occB_iff.mpr ⟨i, hi⟩] at h2
    exact Bool.noConfusion h2

theorem occB_append_false_parts {pat a b : Str}
    (ha : ∀ q, q < a.length → ipfx pat (a.drop q ++ b) = false)
    (hb : occB pat b = false) : occB pat (a ++ b) = false := by
  by_contra hc
  rw [Bool.not_eq_false] at hc
  obtain ⟨i, hi⟩ := occB_iff.mp hc
  rw [List.drop_append_eq_append_drop] at hi
  by_cases hia : i < a.length
  · rw [show i - a.length = 0 by omega, List.drop_zero] at hi
    rw [ha i hia] at hi
    exact Bool.noConfusion hi
  · rw [List.drop_eq_nil_of_le (by omega), List.nil_append] at hi
    rw [show occB pat b = true from occB_iff.mpr ⟨i - a.length, hi⟩] at hb
    exact Bool.noConfusion hb

theorem firstAtB_head_lt {ps P rest : Str} (hP : '<' ∉ P) :
    FirstAtB ('<' :: ps) P rest := by
  intro q hq
  rw [List.drop_append_eq_append_drop,
      show q - P.length = 0 by omega, List.drop_zero]
  cases hd : P.drop q with
  | nil => exact absurd hd (drop_ne_nil_of_lt hq)
  | cons d t =>
    have hdP : d ∈ P := List.drop_subset q P (hd ▸ List.mem_cons_self d t)
    rw [List.cons_append]
    exact ipfx_cons_ne (fun hc => hP (hc ▸ hdP))

theorem digitChar_isDigit {n : Nat} (h : n < 10) :
    isDigitC (digitChar n) = true := by
  have hd : ∀ m < 10, isDigitC (digitChar m) = true := by decide
  exact hd n h

theorem digitChar_toNat {n : Nat} (h : n < 10) :
    (digitChar n).toNat = 48 + n := by
  have hd : ∀ m < 10, (digitChar m).toNat = 48 + m := by decide
  exact hd n h

theorem natReprF_digits : ∀ (fuel n : Nat), n ≤ fuel + 9 →
    ∀ c ∈ natReprF fuel n, isDigitC c = true := by
  intro fuel
  induction fuel with
  | zero =>
    intro n hn c hc
    simp only [natReprF, List.mem_singleton] at hc
    exact hc ▸ digitChar_isDigit (by omega)
  | succ fuel ih =>
    intro n hn c hc
    by_cases h10 : n < 10
    · simp only [natReprF, if_pos h10, List.mem_singleton] at hc
      exact hc ▸ digitChar_isDigit h10
    · simp only [natReprF, if_neg h10, List.mem_append,
        List.mem_singleton] at hc
      rcases hc with hc | hc
      · exact ih (n / 10) (by omega) c hc
      · exact hc ▸ digitChar_isDigit (by omega)

theorem natRepr_digits {n : Nat} : ∀ c ∈ natRepr n, isDigitC c = true :=
  natReprF_digits n n (by omega)

/-- Decimal value of a digit string: the left inverse of `natRepr`. -/
def reprVal (s : Str) : Nat := s.foldl (fun acc c => acc * 10 + (c.toNat - 48)) 0

theorem reprVal_natReprF : ∀ (fuel n acc : Nat), n ≤ fuel + 9 →
    List.foldl (fun acc c => acc * 10 + (c.toNat - 48)) acc (natReprF fuel n)
      = acc * 10 ^ (natReprF fuel n).length + n := by
  intro fuel
  induction fuel with
  | zero =>
    intro n acc hn
    simp only [natReprF, List.foldl_cons, List.foldl_nil, List.length_singleton]
    rw [digitChar_toNat (by omega)]
    ring_nf
    omega
  | succ fuel ih =>
    intro n acc hn
    by_cases h10 : n < 10
    · simp only [natReprF, if_pos h10, List.foldl_cons, List.foldl_nil,
        List.length_singleton]
      rw [digitChar_toNat h10]
      ring_nf
      omega
    · simp only [natReprF, if_neg h10, List.foldl_append, List.foldl_cons,
        List.foldl_nil, List.length_append, List.length_singleton]
      rw [ih (n / 10) acc (by omega), digitChar_toNat (by omega)]
      rw [pow_succ]
      have hmod : n % 10 < 10 := by omega
      have hdm : 10 * (n / 10) + n % 10 = n := by omega
      ring_nf
      omega

theorem natRepr_inj {i j : Nat} (h : natRepr i = natRepr j) : i = j := by
  have hi := reprVal_natReprF i i 0 (by omega)
  have hj := reprVal_natReprF j j 0 (by omega)
  unfold natRepr at h
  rw [h] at hi
  rw [hi] at hj
  omega

theorem digit_pfx : ∀ (a b u v : Str),
    (∀ c ∈ a, isDigitC c = true) → (∀ c ∈ b, isDigitC c = true) →
    ipfx (a ++ '>' :: u) (b ++ '>' :: v) = true → a = b := by
  intro a
  induction a with
  | nil =>
    intro b u v _ hb h
    cases b with
    | nil => rfl
    | cons e b' =>
      exfalso
      rw [List.nil_append, List.cons_append] at h
      simp only [ipfx, Bool.and_eq_true, beq_iff_eq] at h
      have : isDigitC '>' = true := h.1 ▸ hb e (List.mem_cons_self e b')
      exact Bool.noConfusion this
  | cons d a' ih =>
    intro b u v ha hb h
    cases b with
    | nil =>
      exfalso
      rw [List.cons_append, List.nil_append] at h
      simp only [ipfx, Bool.and_eq_true, beq_iff_eq] at h
      have : isDigitC '>' = true := h.1 ▸ ha d (List.mem_cons_self d a')
      exact Bool.noConfusion this
    | cons e b' =>
      rw [List.cons_append, List.cons_append] at h
      simp only [ipfx, Bool.and_eq_true, beq_iff_eq] at h
      rw [ih b' u v (fun c hc => ha c (List.mem_cons_of_mem d hc))
        (fun c hc => hb c (List.mem_cons_of_mem e hc)) h.2, h.1]

theorem ipfx_ph_ph {i j : Nat} {X : Str}
    (h : ipfx (placeholder i) (placeholder j ++ X) = true) : i = j := by
  simp only [placeholder, List.cons_append, List.append_assoc,
    List.cons_append] at h
  simp only [ipfx, beq_self_eq_true, Bool.true_and] at h
  exact natRepr_inj (digit_pfx (natRepr i) (natRepr j) ['>'] ('>' :: X)
    (fun c hc => natRepr_digits c hc) (fun c hc => natRepr_digits c hc)
    (by simpa [List.append_assoc] using h))

theorem ipfx_ph_inner_false {i j : Nat} {X : Str} (q : Nat) (h1 : 0 < q)
    (h2 : q < (placeholder j).length) :
    ipfx (placeholder i) ((placeholder j).drop q ++ X) = false := by
  have hq3 : q = 1 ∨ q = 2 ∨ 3 ≤ q := by omega
  rcases hq3 with hq | hq | hq
  · subst hq
    show ipfx ('<' :: '<' :: 'T' :: (natRepr i ++ ['>', '>']))
      (('<' :: 'T' :: (natRepr j ++ ['>', '>'])) ++ X) = false
    rw [List.cons_append, List.cons_append]
    simp [ipfx]
  · subst hq
    show ipfx ('<' :: '<' :: 'T' :: (natRepr i ++ ['>', '>']))
      (('T' :: (natRepr j ++ ['>', '>'])) ++ X) = false
    rw [List.cons_append]
    exact ipfx_cons_ne (by decide)
  · have hdrop : (placeholder j).drop q = (natRepr j ++ ['>', '>']).drop (q - 3) := by
      show (('<' :: '<' :: 'T' :: (natRepr j ++ ['>', '>'])).drop q) = _
      rw [show q = (q - 3) + 3 by omega]
      rfl
    have hlen : q - 3 < (natRepr j ++ ['>', '>']).length := by
      have h2' : q < (natRepr j).length + 2 + 1 + 1 + 1 := by
        simpa [placeholder, List.length_cons] using h2
      simp only [List.length_append, List.length_cons, List.length_nil]
      omega
    rw [hdrop]
    cases hd : (natRepr j ++ ['>', '>']).drop (q - 3) with
    | nil => exact absurd hd (drop_ne_nil_of_lt hlen)
    | cons d t =>
      have hdm : d ∈ natRepr j ++ ['>', '>'] :=
        List.drop_subset (q - 3) _ (hd ▸ List.mem_cons_self d t)
      have hdne : d ≠ '<' := by
        rcases List.mem_append.mp hdm with hm | hm
        · intro hc
          have := natRepr_digits d hm
          rw [hc] at this
          exact Bool.noConfusion this
        · intro hc
          rw [hc] at hm
          simp at hm
      rw [List.cons_append]
      show ipfx ('<' :: '<' :: 'T' :: (natRepr i ++ ['>', '>'])) (d :: (t ++ X)) = false
      exact ipfx_cons_ne (fun hc => hdne hc.symm)

theorem occB_ph_append_false {i j : Nat} {X : Str} (hne : i ≠ j)
    (hX : occB (placeholder i) X = false) :
    occB (placeholder i) (placeholder j ++ X) = false := by
  apply occB_append_false_parts _ hX
  intro q hq
  by_cases hq0 : q = 0
  · subst hq0
    rw [List.drop_zero]
    by_contra hc
    rw [Bool.not_eq_false] at hc
    exact hne (ipfx_ph_ph hc)
  · exact ipfx_ph_inner_false q (by omega) hq

theorem render_no_ph : ∀ (fuel : Nat) (s : Str) (prev : Option Char)
    (i j : Nat), s.length ≤ fuel → '<' ∉ s → i < j →
    occB (placeholder i) (segs_render j (mask_scan fuel prev s)) = false := by
  intro fuel
  induction fuel with
  | zero =>
    intro s prev i j hf hs hij
    have hs0 : s = [] := List.length_eq_zero.mp (by omega)
    subst hs0
    show occB (placeholder i) (segs_render j (mask_scan 0 prev [])) = false
    simp only [mask_scan, List.isEmpty_nil, if_true]
    exact occB_nil_of_ne (by simp [placeholder])
  | succ fuel ih =>
    intro s prev i j hf hs hij
    cases s with
    | nil =>
      show occB (placeholder i) (segs_render j (mask_scan (fuel + 1) prev [])) = false
      simp only [mask_scan]
      exact occB_nil_of_ne (by simp [placeholder])
    | cons c cs =>
      have hcs : '<' ∉ cs := fun hm => hs (List.mem_cons_of_mem c hm)
      have hc : c ≠ '<' := fun hc => hs (hc ▸ List.mem_cons_self c cs)
      cases hpm : protected_match prev (c :: cs) with
      | none =>
        simp only [mask_scan, hpm]
        simp only [segs_render, List.cons_append, List.nil_append]
        refine occB_cons_intro ?_ ?_
        · show ipfx ('<' :: '<' :: 'T' :: (natRepr i ++ ['>', '>'])) _ = false
          exact ipfx_cons_ne (fun h => hc h.symm)
        · exact ih cs (some c) i j (by simp at hf; omega) hcs hij
      | some n =>
        by_cases hn : n = 0
        · subst hn
          simp only [mask_scan, hpm, if_pos rfl]
          simp only [segs_render, List.cons_append, List.nil_append]
          refine occB_cons_intro ?_ ?_
          · show ipfx ('<' :: '<' :: 'T' :: (natRepr i ++ ['>', '>'])) _ = false
            exact ipfx_cons_ne (fun h => hc h.symm)
          · exact ih cs (some c) i j (by simp at hf; omega) hcs hij
        · simp only [mask_scan, hpm, if_neg hn]
          simp only [segs_render]
          apply occB_ph_append_false (by omega)
          apply ih ((c :: cs).drop n) (((c :: cs).take n).getLast?) i (j + 1)
          · have := List.length_drop n (c :: cs)
            simp at hf this ⊢
            omega
          · intro hm
            exact hs (List.drop_subset n (c :: cs) hm)
          · omega

theorem unmask_render : ∀ (fuel : Nat) (s : Str) (prev : Option Char)
    (P : Str) (i : Nat), s.length ≤ fuel → '<' ∉ P → '<' ∉ s →
    unmask_loop i (segs_tokens (mask_scan fuel prev s))
      (P ++ segs_render i (mask_scan fuel prev s)) = P ++ s := by
  intro fuel
  induction fuel with
  | zero =>
    intro s prev P i hf hP hs
    have hs0 : s = [] := List.length_eq_zero.mp (by omega)
    subst hs0
    show unmask_loop i (segs_tokens (mask_scan 0 prev []))
      (P ++ segs_render i (mask_scan 0 prev [])) = P ++ []
    simp only [mask_scan, List.isEmpty_nil, if_true]
    simp [segs_tokens, segs_render, unmask_loop]
  | succ fuel ih =>
    intro s prev P i hf hP hs
    cases s with
    | nil =>
      show unmask_loop i (segs_tokens (mask_scan (fuel + 1) prev []))
        (P ++ segs_render i (mask_scan (fuel + 1) prev [])) = P ++ []
      simp only [mask_scan]
      simp [segs_tokens, segs_render, unmask_loop]
    | cons c cs =>
      have hcs : '<' ∉ cs := fun hm => hs (List.mem_cons_of_mem c hm)
      have hc : c ≠ '<' := fun h => hs (h ▸ List.mem_cons_self c cs)
      have hPc : '<' ∉ P ++ [c] := by
        intro hm
        rcases List.mem_append.mp hm with h | h
        · exact hP h
        · simp only [List.mem_singleton] at h
          exact hc h.symm
      cases hpm : protected_match prev (c :: cs) with
      | none =>
        simp only [mask_scan, hpm]
        simp only [segs_tokens, segs_render, List.cons_append, List.nil_append]
        have hstep := ih cs (some c) (P ++ [c]) i (by simp at hf; omega) hPc hcs
        rw [show P ++ c :: segs_render i (mask_scan fuel (some c) cs)
            = (P ++ [c]) ++ segs_render i (mask_scan fuel (some c) cs) by simp]
        rw [hstep]
        simp
      | some n =>
        by_cases hn : n = 0
        · subst hn
          simp only [mask_scan, hpm, if_pos rfl]
          simp only [segs_tokens, segs_render, List.cons_append,
            List.nil_append]
          have hstep := ih cs (some c) (P ++ [c]) i (by simp at hf; omega)
            hPc hcs
          rw [show P ++ c :: segs_render i (mask_scan fuel (some c) cs)
              = (P ++ [c]) ++ segs_render i (mask_scan fuel (some c) cs) by
            simp]
          rw [hstep]
          simp
        · simp only [mask_scan, hpm, if_neg hn]
          simp only [segs_tokens, segs_render]
          simp only [unmask_loop]
          have hmem_take : '<' ∉ (c :: cs).take n := by
            intro hm
            exact hs (List.take_subset n (c :: cs) hm)
          have hmem_drop : '<' ∉ (c :: cs).drop n := by
            intro hm
            exact hs (List.drop_subset n (c :: cs) hm)
          have hlen_drop : ((c :: cs).drop n).length ≤ fuel := by
            have := List.length_drop n (c :: cs)
            simp only [List.length_cons] at hf this
            omega
          have hno : occB (placeholder i)
              (segs_render (i + 1)
                (mask_scan fuel (((c :: cs).take n).getLast?)
                  ((c :: cs).drop n))) = false :=
            render_no_ph fuel ((c :: cs).drop n) (((c :: cs).take n).getLast?)
              i (i + 1) hlen_drop hmem_drop (by omega)
          have hfa : FirstAtB (placeholder i) P
              (placeholder i ++ segs_render (i + 1)
                (mask_scan fuel (((c :: cs).take n).getLast?)
                  ((c :: cs).drop n))) := firstAtB_head_lt hP
          have hrepl := @replaceAll_decomp (placeholder i)
            ((c :: cs).take n) P _ (by simp [placeholder]) hno hfa
          rw [show P ++ (placeholder i ++ segs_render (i + 1)
                (mask_scan fuel (((c :: cs).take n).getLast?)
                  ((c :: cs).drop n)))
              = P ++ placeholder i ++ segs_render (i + 1)
                (mask_scan fuel (((c :: cs).take n).getLast?)
                  ((c :: cs).drop n)) by simp [List.append_assoc]]
          rw [hrepl]
          have hstep := ih ((c :: cs).drop n)
            (((c :: cs).take n).getLast?) (P ++ (c :: cs).take n) (i + 1)
            hlen_drop
            (by intro hm
                rcases List.mem_append.mp hm with h | h
                · exact hP h
                · exact hmem_take h)
            hmem_drop
          rw [show P ++ (c :: cs).take n ++ segs_render (i + 1)
                (mask_scan fuel (((c :: cs).take n).getLast?)
                  ((c :: cs).drop n))
              = (P ++ (c :: cs).take n) ++ segs_render (i + 1)
                (mask_scan fuel (((c :: cs).take n).getLast?)
                  ((c :: cs).drop n)) by simp [List.append_assoc]]
          rw [hstep]
          rw [List.append_assoc, List.take_append_drop]

/-- C9 (amended): for every text containing no `<` character — in
particular every plain-text fragment whose markup has been stripped —
unmasking the result of masking protected tokens restores the original text
exactly, so protected substrings are never altered when the placeholder
tokens are left intact. -/
theorem C9_unmask_mask_id (text : Str) (h : '<' ∉ text) :
    unmask_protected_tokens (mask_protected_tokens text).1
      (mask_protected_tokens text).2 = text := by
  by_cases he : text.isEmpty
  · have : text = [] := List.isEmpty_iff.mp he
    subst this
    rfl
  · have hmask : mask_protected_tokens text
        = (segs_render 0 (mask_scan text.length none text),
           segs_tokens (mask_scan text.length none text)) := by
      simp only [mask_protected_tokens, if_neg he]
    have hmain := unmask_render text.length text none [] 0 le_rfl
      (by simp) h
    rw [List.nil_append, List.nil_append] at hmain
    rw [hmask]
    show unmask_protected_tokens (segs_render 0 (mask_scan text.length none text))
      (segs_tokens (mask_scan text.length none text)) = text
    unfold unmask_protected_tokens
    by_cases ht : (segs_tokens (mask_scan text.length none text)).isEmpty
    · rw [if_pos ht]
      have ht' : segs_tokens (mask_scan text.length none text) = [] :=
        List.isEmpty_iff.mp ht
      rw [ht'] at hmain
      exact hmain
    · rw [if_neg ht]
      exact hmain

/-- C9 witness: the amended identity at the spec's own example text. -/
theorem C9_unmask_mask_id_witness :
    unmask_protected_tokens
        (mask_protected_tokens (str "ISO 100-3200 Empfindlichkeit")).1
        (mask_protected_tokens (str "ISO 100-3200 Empfindlichkeit")).2
      = str "ISO 100-3200 Empfindlichkeit" :=
  C9_unmask_mask_id (str "ISO 100-3200 Empfindlichkeit") (by decide)

/-! ## Lemmas toward parsing an exported file -/

theorem dropWS_cons_ws {c : Char} {l : Str} (h : isWS c = true) :
    dropWS (c :: l) = dropWS l := by
  simp [dropWS, List.dropWhile_cons, h]

theorem dropWS_cons_not {c : Char} {l : Str} (h : isWS c = false) :
    dropWS (c :: l) = c :: l := by
  simp [dropWS, List.dropWhile_cons, h]

theorem takeWhile_append_stop {p : Char → Bool} {a x : Str}
    (h : (a.takeWhile p).length < a.length) :
    (a ++ x).takeWhile p = a.takeWhile p := by
  induction a with
  | nil => simp at h
  | cons c cs ih =>
    rw [List.cons_append, List.takeWhile_cons, List.takeWhile_cons]
    cases hp : p c with
    | false => simp
    | true =>
      simp only [List.takeWhile_cons, hp, if_true] at h
      simp only [List.length_cons] at h
      rw [ih (by omega)]

theorem drop_append_of_le {a x : Str} {n : Nat} (h : n ≤ a.length) :
    (a ++ x).drop n = a.drop n ++ x := by
  rw [List.drop_append_eq_append_drop, show n - a.length = 0 by omega,
    List.drop_zero]

theorem ipfx_append_long {p x y : Str} (h : p.length ≤ x.length) :
    ipfx p (x ++ y) = ipfx p x := by
  induction p generalizing x with
  | nil => simp [ipfx]
  | cons q qs ih =>
    cases x with
    | nil => simp at h
    | cons c cs =>
      rw [List.cons_append]
      show (q == c && ipfx qs (cs ++ y)) = (q == c && ipfx qs cs)
      rw [ih (by simp at h; omega)]

theorem ipfxCI_append_long {p x y : Str} (h : p.length ≤ x.length) :
    ipfxCI p (x ++ y) = ipfxCI p x := by
  induction p generalizing x with
  | nil => simp [ipfxCI]
  | cons q qs ih =>
    cases x with
    | nil => simp at h
    | cons c cs =>
      rw [List.cons_append]
      show (eqCI q c && ipfxCI qs (cs ++ y)) = (eqCI q c && ipfxCI qs cs)
      rw [ih (by simp at h; omega)]

theorem ipfxCI_false_of_char {p s : Str} {x : Char}
    (hx : isAsciiAlpha x = false) (hp : x ∈ p) (hs : x ∉ s) :
    ipfxCI p s = false := by
  induction p generalizing s with
  | nil => simp at hp
  | cons q qs ih =>
    cases s with
    | nil => rfl
    | cons d ds =>
      show (eqCI q d && ipfxCI qs ds) = false
      rcases List.mem_cons.mp hp with hq | hq
      · subst hq
        cases he : eqCI x d with
        | false => simp
        | true =>
          exfalso
          exact hs (((eqCI_nonalpha_left hx).mp he) ▸ List.mem_cons_self d ds)
      · cases he : ipfxCI qs ds with
        | false => simp
        | true =>
          exfalso
          rw [ih hq (fun hm => hs (List.mem_cons_of_mem d hm))] at he
          exact Bool.noConfusion he

theorem sfxCI_false_of_head_not_mem {x : Char} {pt a : Str}
    (hx : isAsciiAlpha x = false) (hmem : x ∉ a) :
    ∀ k, 0 < k → k < (x :: pt).length → ¬ SfxCI ((x :: pt).take k) a := by
  intro k hk1 _ hsfx
  obtain ⟨hlen, hipfx⟩ := hsfx
  cases k with
  | zero => omega
  | succ k' =>
    rw [List.take_succ_cons] at hlen hipfx
    cases hd : a.drop (a.length - (x :: pt.take k').length) with
    | nil =>
      rw [hd] at hipfx
      exact Bool.noConfusion hipfx
    | cons d ds =>
      rw [hd] at hipfx
      have hhead : eqCI x d = true := by
        have := ipfxCI_getD hipfx 0 (by simp) ' '
        simpa using this
      rw [eqCI_nonalpha_left hx] at hhead
      apply hmem
      rw [← hhead]
      exact List.drop_subset _ a (hd ▸ List.mem_cons_self d ds)

theorem ipfxCI_append_elim {p q t : Str}
    (h : ipfxCI (p ++ q) t = true) : ipfxCI p t = true := by
  induction p generalizing t with
  | nil => rfl
  | cons c cs ih =>
    cases t with
    | nil => exact absurd h (by simp [ipfxCI])
    | cons d ds =>
      rw [List.cons_append] at h
      have h' : (eqCI c d && ipfxCI (cs ++ q) ds) = true := h
      rw [Bool.and_eq_true] at h'
      show (eqCI c d && ipfxCI cs ds) = true
      rw [h'.1, ih h'.2]
      rfl

theorem occCI_append_pat_false {p q s : Str} (h : occCI p s = false) :
    occCI (p ++ q) s = false := by
  by_contra hc
  rw [Bool.not_eq_false, occCI_iff] at hc
  obtain ⟨i, hi⟩ := hc
  rw [occCI_iff.mpr ⟨i, ipfxCI_append_elim hi⟩] at h
  exact Bool.noConfusion h

theorem ipfxCI_of_take {p x : Str} {j : Nat}
    (h : ipfxCI p (x.take j) = true) : ipfxCI p x = true := by
  induction p generalizing x j with
  | nil => rfl
  | cons c cs ih =>
    cases x with
    | nil =>
      rw [List.take_nil] at h
      exact h
    | cons d ds =>
      cases j with
      | zero => exact absurd h (by simp [ipfxCI])
      | succ j' =>
        rw [List.take_succ_cons] at h
        have h' : (eqCI c d && ipfxCI cs (ds.take j')) = true := h
        rw [Bool.and_eq_true] at h'
        show (eqCI c d && ipfxCI cs ds) = true
        rw [h'.1, ih h'.2]
        rfl

theorem occCI_drop {pat s : Str} {i : Nat} (h : occCI pat (s.drop i) = true) :
    occCI pat s = true := by
  rw [occCI_iff] at h ⊢
  obtain ⟨j, hj⟩ := h
  rw [List.drop_drop] at hj
  exact ⟨i + j, hj⟩

theorem occCI_take {pat s : Str} {m : Nat} (h : occCI pat (s.take m) = true) :
    occCI pat s = true := by
  rw [occCI_iff] at h ⊢
  obtain ⟨j, hj⟩ := h
  rw [List.drop_take] at hj
  exact ⟨j, ipfxCI_of_take hj⟩

theorem word_occurs_aux_occ {w s : Str} :
    ∀ {prev : Option Char}, word_occurs_aux w prev s = true →
      occCI w s = true := by
  induction s with
  | nil =>
    intro prev h
    simp [word_occurs_aux] at h
  | cons c cs ih =>
    intro prev h
    simp only [word_occurs_aux, Bool.or_eq_true] at h
    rcases h with h | h
    · rw [Bool.and_eq_true, Bool.and_eq_true] at h
      exact occCI_iff.mpr ⟨0, by simpa using h.1.2⟩
    · exact occCI_drop (i := 1) (by simpa using ih h)

theorem word_occurs_occ {w s : Str} (h : word_occurs w s = true) :
    occCI w s = true := word_occurs_aux_occ h

theorem ipfx_ipfxCI {p s : Str} (h : ipfx p s = true) : ipfxCI p s = true := by
  induction p generalizing s with
  | nil => rfl
  | cons q qs ih =>
    cases s with
    | nil => exact absurd h (by simp [ipfx])
    | cons c cs =>
      have h' : (q == c && ipfx qs cs) = true := h
      rw [Bool.and_eq_true, beq_iff_eq] at h'
      show (eqCI q c && ipfxCI qs cs) = true
      rw [h'.1, eqCI_refl, ih h'.2]
      rfl

theorem occB_false_of_occCI {pat s : Str} (h : occCI pat s = false) :
    occB pat s = false := by
  by_contra hc
  rw [Bool.not_eq_false, occB_iff] at hc
  obtain ⟨i, hi⟩ := hc
  rw [occCI_iff.mpr ⟨i, ipfx_ipfxCI hi⟩] at h
  exact Bool.noConfusion h

/-- No `<thead>` inside the style block. -/
theorem css_no_thead : occCI (str "<thead>") SPEC_TABLE_CSS = false := by
  rw [occCI_eq_occCIs]; decide

/-- No `<tbody>` inside the style block. -/
theorem css_no_tbody : occCI (str "<tbody>") SPEC_TABLE_CSS = false := by
  rw [occCI_eq_occCIs]; decide

/-- No comment opener inside the style block. -/
theorem css_no_comment : occCI (str "<!--") SPEC_TABLE_CSS = false := by
  rw [occCI_eq_occCIs]; decide

theorem css_no_eszett : 'ß' ∉ SPEC_TABLE_CSS := by decide

theorem css_no_eszett_cap : 'ẞ' ∉ SPEC_TABLE_CSS := by decide

theorem css_last_gt :
    SPEC_TABLE_CSS.getD (SPEC_TABLE_CSS.length - 1) ' ' = '>' := by decide

theorem css_ne_nil : SPEC_TABLE_CSS ≠ [] := by decide

theorem occCI_append_false_sfx {pat a b : Str}
    (ha : occCI pat a = false) (hb : occCI pat b = false)
    (hj : ∀ k, 0 < k → k < pat.length → ¬ SfxCI (pat.take k) a) :
    occCI pat (a ++ b) = false :=
  occCI_append_false ha hb (fun k h1 h2 hs => absurd hs (hj k h1 h2))

theorem occCI_append_false_head {pat a b : Str} {y : Char}
    (hy : isAsciiAlpha y = false) (hb0 : b ≠ []) (hbh : b.getD 0 ' ' = y)
    (hpat : ∀ k, 0 < k → k < pat.length → pat.getD k ' ' ≠ y)
    (ha : occCI pat a = false) (hb : occCI pat b = false) :
    occCI pat (a ++ b) = false :=
  occCI_append_false ha hb
    (fun k h1 h2 _ => junction_false_of_head hy hb0 hbh hpat k h1 h2)

theorem escape_head_not_ws {x : Str}
    (hh : ∀ c, x.head? = some c → isWS c = false) :
    ∀ c, (escape_html x).head? = some c → isWS c = false := by
  intro c hc
  rw [escape_html_eq] at hc
  cases x with
  | nil => simp at hc
  | cons d ds =>
    rw [List.flatMap_cons] at hc
    by_cases hd : d = '&' ∨ d = '<' ∨ d = '>' ∨ d = '"'
    · have hhd : (escChar d).head? = some '&' := by
        rcases hd with h | h | h | h <;> subst h <;> decide
      cases hesc : escChar d with
      | nil => rw [hesc] at hhd; cases hhd
      | cons h t =>
        rw [hesc] at hhd
        simp only [List.head?_cons, Option.some.injEq] at hhd
        rw [hesc, List.cons_append] at hc
        simp only [List.head?_cons, Option.some.injEq] at hc
        rw [← hc, hhd]
        decide
    · push_neg at hd
      have hesc : escChar d = [d] := by
        simp [escChar, hd.1, hd.2.1, hd.2.2.1, hd.2.2.2]
      rw [hesc, List.cons_append] at hc
      simp only [List.head?_cons, Option.some.injEq] at hc
      exact hc ▸ hh d (by simp)

theorem escape_last_not_ws : ∀ {x : Str},
    (∀ c, x.getLast? = some c → isWS c = false) →
    ∀ c, (escape_html x).getLast? = some c → isWS c = false := by
  intro x
  induction x with
  | nil =>
    intro _ c hc
    rw [escape_html_eq] at hc
    simp at hc
  | cons d ds ih =>
    intro hl c hc
    rw [escape_html_eq, List.flatMap_cons] at hc
    cases hds : ds with
    | nil =>
      subst hds
      simp only [List.flatMap_nil, List.append_nil] at hc
      by_cases hd : d = '&' ∨ d = '<' ∨ d = '>' ∨ d = '"'
      · have hld : (escChar d).getLast? = some ';' := by
          rcases hd with h | h | h | h <;> subst h <;> decide
        rw [hld] at hc
        cases hc
        decide
      · push_neg at hd
        have hesc : escChar d = [d] := by
          simp [escChar, hd.1, hd.2.1, hd.2.2.1, hd.2.2.2]
        rw [hesc] at hc
        simp only [List.getLast?_singleton, Option.some.injEq] at hc
        exact hc ▸ hl d (by simp)
    | cons e es =>
      subst hds
      have hne : (e :: es).flatMap escChar ≠ [] := by
        rw [← escape_html_eq]
        rw [Ne, escape_eq_nil_iff]
        simp
      rw [List.getLast?_append_of_ne_nil _ hne] at hc
      apply ih ?_ c (by rw [escape_html_eq]; exact hc)
      intro z hz
      apply hl z
      rw [List.getLast?_cons_cons]
      exact hz

theorem stripWS_escape {x : Str} (h : stripWS x = x) :
    stripWS (escape_html x) = escape_html x :=
  stripWS_eq_self (escape_head_not_ws (head_not_ws_of_stripWS h))
    (escape_last_not_ws (last_not_ws_of_stripWS h))

theorem mem_escape {c : Char} {x : Str} (h : c ∈ escape_html x) :
    c ∈ x ∨ (c = '&' ∨ c = 'a' ∨ c = 'm' ∨ c = 'p' ∨ c = ';' ∨ c = 'l'
      ∨ c = 't' ∨ c = 'g' ∨ c = 'q' ∨ c = 'u' ∨ c = 'o') := by
  rw [escape_html_eq] at h
  rw [List.mem_flatMap] at h
  obtain ⟨d, hd, hc⟩ := h
  unfold escChar at hc
  split_ifs at hc with h1 h2 h3 h4
  · right
    subst h1
    have hc' : c = '&' ∨ c = 'a' ∨ c = 'm' ∨ c = 'p' ∨ c = ';' := by
      simpa using (show c ∈ ['&', 'a', 'm', 'p', ';'] from hc)
    rcases hc' with h | h | h | h | h <;> simp [h]
  · right
    subst h2
    have hc' : c = '&' ∨ c = 'l' ∨ c = 't' ∨ c = ';' := by
      simpa using (show c ∈ ['&', 'l', 't', ';'] from hc)
    rcases hc' with h | h | h | h <;> simp [h]
  · right
    subst h3
    have hc' : c = '&' ∨ c = 'g' ∨ c = 't' ∨ c = ';' := by
      simpa using (show c ∈ ['&', 'g', 't', ';'] from hc)
    rcases hc' with h | h | h | h <;> simp [h]
  · right
    subst h4
    have hc' : c = '&' ∨ c = 'q' ∨ c = 'u' ∨ c = 'o' ∨ c = 't' ∨ c = ';' := by
      simpa using (show c ∈ ['&', 'q', 'u', 'o', 't', ';'] from hc)
    rcases hc' with h | h | h | h | h | h <;> simp [h]
  · left
    simp only [List.mem_singleton] at hc
    exact hc ▸ hd

theorem eszett_not_mem_escape {x : Str} (h : 'ß' ∉ x) :
    'ß' ∉ escape_html x := by
  intro hm
  rcases mem_escape hm with h1 | h1
  · exact h h1
  · revert h1
    decide

theorem eszett_cap_not_mem_escape {x : Str} (h : 'ẞ' ∉ x) :
    'ẞ' ∉ escape_html x := by
  intro hm
  rcases mem_escape hm with h1 | h1
  · exact h h1
  · revert h1
    decide

theorem getD_drop {l : List Char} {i j : Nat} (d : Char) :
    (l.drop i).getD j d = l.getD (i + j) d := by
  simp [List.getD_eq_getElem?_getD, List.getElem?_drop]

theorem getD_append_right {a b : List Char} {i : Nat} (h : a.length ≤ i)
    (d : Char) : (a ++ b).getD i d = b.getD (i - a.length) d := by
  simp [List.getD_eq_getElem?_getD, List.getElem?_append_right h]

/-- The `<tr>…</tr>` block the exporter writes for a kv row with escaped key
`K` and raw value `V`, as cut out by the importer's block scan. -/
def kvBlock (K V : Str) : Str :=
  str "<tr>\n\t\t\t<th>" ++ K ++ str "</th>\n\t\t\t<td>" ++ V
    ++ str "</td>\n\t\t</tr>"

/-- The exporter's section-row block with escaped title `T`. -/
def secBlock (T : Str) : Str :=
  str "<tr class=\"section\">\n\t\t\t<th class=\"section\" colspan=\"2\">"
    ++ T ++ str "</th>\n\t\t</tr>"

/-- The exporter's category-row block with escaped title `T`. -/
def catBlock (T : Str) : Str :=
  str "<tr class=\"cat\">\n\t\t\t<th class=\"category\" colspan=\"2\">"
    ++ T ++ str "</th>\n\t\t</tr>"

theorem kv_no_class {K V : Str} (hK : '"' ∉ K)
    (hV : occCI (str "class=") V = false) :
    occCI (str "class=\"") (kvBlock K V) = false := by
  have hV7 : occCI (str "class=\"") V = false := by
    have hsp : str "class=\"" = str "class=" ++ str "\"" := by decide
    rw [hsp]
    exact occCI_append_pat_false hV
  have hplt : ∀ k, 0 < k → k < (str "class=\"").length →
      (str "class=\"").getD k ' ' ≠ '<' := by
    have hd : ∀ k < (str "class=\"").length,
        (str "class=\"").getD k ' ' ≠ '<' := by decide
    exact fun k _ hk => hd k hk
  have hpgt : ∀ k, 0 < k → k < (str "class=\"").length →
      (str "class=\"").getD (k - 1) ' ' ≠ '>' := by
    have hd : ∀ k < (str "class=\"").length,
        (str "class=\"").getD (k - 1) ' ' ≠ '>' := by decide
    exact fun k _ hk => hd k hk
  have h5 : occCI (str "class=\"") (str "</td>\n\t\t</tr>") = false := by decide
  have h45 : occCI (str "class=\"") (V ++ str "</td>\n\t\t</tr>") = false := by
    refine occCI_append_false_head (y := '<') (by decide) (by decide)
      (by decide) hplt hV7 h5
  have h345 : occCI (str "class=\"")
      (str "</th>\n\t\t\t<td>" ++ (V ++ str "</td>\n\t\t</tr>")) = false := by
    refine occCI_append_false_sfx (by decide) h45 ?_
    exact sfxCI_take_false_of_last (z := '>') (by decide) (by decide)
      (by decide) hpgt
  have h2345 : occCI (str "class=\"")
      (K ++ (str "</th>\n\t\t\t<td>" ++ (V ++ str "</td>\n\t\t</tr>"))) = false := by
    refine occCI_append_false_head (y := '<') (by decide)
      (fun hc => absurd (List.append_eq_nil.mp hc).1 (by decide))
      (by rw [getD_append_left (by decide)]; decide) hplt
      (not_occCI_of_char (x := '"') (by decide) (by decide) hK) h345
  have h12345 : occCI (str "class=\"")
      (str "<tr>\n\t\t\t<th>" ++ (K ++ (str "</th>\n\t\t\t<td>"
        ++ (V ++ str "</td>\n\t\t</tr>")))) = false := by
    refine occCI_append_false_sfx (by decide) h2345 ?_
    exact sfxCI_take_false_of_last (z := '>') (by decide) (by decide)
      (by decide) hpgt
  rw [show kvBlock K V = str "<tr>\n\t\t\t<th>" ++ (K ++ (str "</th>\n\t\t\t<td>"
    ++ (V ++ str "</td>\n\t\t</tr>")))
    from by simp [kvBlock, List.append_assoc]]
  exact h12345

theorem kv_has_class_false {w : Str} {K V : Str} (hK : '"' ∉ K)
    (hV : occCI (str "class=") V = false) :
    has_class_word w (kvBlock K V) = false := by
  unfold has_class_word
  rw [trySplitsCI_none (kv_no_class hK hV)]
  rfl

theorem junction_head_lt {pat b : Str} (hb : b ≠ []) (hbh : b.getD 0 ' ' = '<')
    (hpat : ∀ k < pat.length, 0 < k → pat.getD k ' ' ≠ '<') :
    ∀ k, 0 < k → k < pat.length → ipfxCI (pat.drop k) b = false :=
  junction_false_of_head (by decide) hb hbh (fun k h0 hk => hpat k hk h0)

theorem sfx_last_killer {pat a : Str} {z : Char} (hz : isAsciiAlpha z = false)
    (ha : a ≠ []) (hlast : a.getD (a.length - 1) ' ' = z)
    (hpat : ∀ k < pat.length, 0 < k → pat.getD (k - 1) ' ' ≠ z) :
    ∀ k, 0 < k → k < pat.length → ¬ SfxCI (pat.take k) a :=
  sfxCI_take_false_of_last hz ha hlast (fun k h0 hk => hpat k hk h0)

theorem ne_nil_append_left {a b : Str} (h : a ≠ []) : a ++ b ≠ [] :=
  fun hc => absurd (List.append_eq_nil.mp hc).1 h

theorem kv_th {K V : Str} (hK : '<' ∉ K) :
    trySplitsCI (str "<th>")
      (fun _ r => (scanCI (str "</th>") r).map (fun p => p.1))
      (kvBlock K V) = some K := by
  have hsplit : kvBlock K V = str "<tr>\n\t\t\t" ++ (str "<th>"
      ++ (K ++ (str "</th>" ++ (str "\n\t\t\t<td>"
        ++ (V ++ str "</td>\n\t\t</tr>"))))) := by
    simp only [kvBlock]
    rw [show (str "<tr>\n\t\t\t<th>") = str "<tr>\n\t\t\t" ++ str "<th>"
      from by decide]
    rw [show (str "</th>\n\t\t\t<td>") = str "</th>" ++ str "\n\t\t\t<td>"
      from by decide]
    simp [List.append_assoc]
  rw [hsplit]
  apply trySplitsCI_success (by decide) (ipfxCI_append_self _ _)
  · apply firstAtCI_intro (by decide)
    intro k hk0 hkl _
    exact junction_head_lt (ne_nil_append_left (by decide))
      (by rw [getD_append_left (by decide)]; decide) (by decide) k hk0 hkl
  · rw [List.drop_left]
    rw [scanCI_first (ipfxCI_append_self _ _) ?_]
    · rfl
    · apply firstAtCI_intro (not_occCI_of_char (x := '<') (by decide)
        (by decide) hK)
      intro k hk0 hkl _
      exact junction_head_lt (ne_nil_append_left (by decide))
        (by rw [getD_append_left (by decide)]; decide) (by decide) k hk0 hkl

theorem kv_td {K V : Str} (hK : '<' ∉ K)
    (hV : occCI (str "</td>") V = false) :
    trySplitsCI (str "<td>")
      (fun _ r => (scanCI (str "</td>") r).map (fun p => p.1))
      (kvBlock K V) = some V := by
  have hsplit : kvBlock K V = (str "<tr>\n\t\t\t<th>"
      ++ (K ++ str "</th>\n\t\t\t")) ++ (str "<td>"
      ++ (V ++ (str "</td>" ++ str "\n\t\t</tr>"))) := by
    simp only [kvBlock]
    rw [show (str "</th>\n\t\t\t<td>") = str "</th>\n\t\t\t" ++ str "<td>"
      from by decide]
    rw [show (str "</td>\n\t\t</tr>") = str "</td>" ++ str "\n\t\t</tr>"
      from by decide]
    simp [List.append_assoc]
  rw [hsplit]
  apply trySplitsCI_success (by decide) (ipfxCI_append_self _ _)
  · apply firstAtCI_intro ?_
    · intro k hk0 hkl _
      exact junction_head_lt (ne_nil_append_left (by decide))
        (by rw [getD_append_left (by decide)]; decide) (by decide) k hk0 hkl
    · have hd : ∀ k < (str "<td>").length, 0 < k →
          (str "<td>").getD k ' ' ≠ '<' := by decide
      refine occCI_append_false_sfx (by decide) ?_ ?_
      · exact occCI_append_false_head (y := '<') (by decide) (by decide)
          (by decide) (fun k h0 hk => hd k hk h0)
          (not_occCI_of_char (x := '<') (by decide) (by decide) hK)
          (by decide)
      · exact sfx_last_killer (z := '>') (by decide) (by decide) (by decide)
          (by decide)
  · rw [List.drop_left]
    rw [scanCI_first (ipfxCI_append_self _ _) ?_]
    · rfl
    · apply firstAtCI_intro hV
      intro k hk0 hkl _
      exact junction_head_lt (ne_nil_append_left (by decide))
        (by rw [getD_append_left (by decide)]; decide) (by decide) k hk0 hkl

/-- Classification of an exporter-written kv block in the fallback importer:
the key cell and value cell are recovered. -/
theorem classify_kvBlock {K V : Str} (hKlt : '<' ∉ K) (hKq : '"' ∉ K)
    (hVc : occCI (str "class=") V = false)
    (hVtd : occCI (str "</td>") V = false) :
    classify_tr (kvBlock K V)
      = some (unescape_html (stripWS K), stripWS V) := by
  unfold classify_tr
  rw [kv_has_class_false hKq hVc, kv_has_class_false hKq hVc]
  simp only [Bool.false_eq_true, if_false]
  rw [kv_th hKlt, kv_td hKlt hVtd]

theorem sec_has_class {T : Str} :
    has_class_word (str "section") (secBlock T) = true := by
  unfold has_class_word
  have hsplit : secBlock T = str "<tr " ++ (str "class=\""
      ++ (str "section\">\n\t\t\t<th class=\"section\" colspan=\"2\">"
        ++ (T ++ str "</th>\n\t\t</tr>"))) := by
    simp only [secBlock]
    rw [show (str "<tr class=\"section\">\n\t\t\t<th class=\"section\" colspan=\"2\">")
      = str "<tr " ++ (str "class=\""
        ++ str "section\">\n\t\t\t<th class=\"section\" colspan=\"2\">")
      from by decide]
    simp [List.append_assoc]
  rw [hsplit]
  rw [trySplitsCI_success (r := ()) (by decide) (ipfxCI_append_self _ _) ?_ ?_]
  · rfl
  · apply firstAtCI_intro (by decide)
    intro k hk0 hkl hs
    exact absurd hs (sfx_last_killer (z := ' ') (by decide) (by decide)
      (by decide) (by decide) k hk0 hkl)
  · rw [List.drop_left]
    rw [takeWhile_append_stop (by decide)]
    rw [if_pos ?_]
    constructor
    · rw [show ((str "section\">\n\t\t\t<th class=\"section\" colspan=\"2\">").takeWhile
        (fun c => c ≠ '"')).length = 7 from by decide]
      rw [List.length_append]
      have : 7 < (str "section\">\n\t\t\t<th class=\"section\" colspan=\"2\">").length := by
        decide
      omega
    · rw [show (str "section\">\n\t\t\t<th class=\"section\" colspan=\"2\">").takeWhile
        (fun c => c ≠ '"') = str "section" from by decide]
      decide

theorem sec_th_title {T : Str} (hT : '<' ∉ T) :
    match_th_title (str "section") (secBlock T) = some T := by
  unfold match_th_title
  have hsplit : secBlock T = str "<tr class=\"section\">\n\t\t\t" ++ (str "<th"
      ++ (str " class=\"section\" colspan=\"2\">"
        ++ (T ++ str "</th>\n\t\t</tr>"))) := by
    simp only [secBlock]
    rw [show (str "<tr class=\"section\">\n\t\t\t<th class=\"section\" colspan=\"2\">")
      = str "<tr class=\"section\">\n\t\t\t" ++ (str "<th"
        ++ str " class=\"section\" colspan=\"2\">")
      from by decide]
    simp [List.append_assoc]
  rw [hsplit]
  rw [trySplitsCI_success (by decide) (ipfxCI_append_self _ _) ?_ ?_]
  · apply firstAtCI_intro (by decide)
    intro k hk0 hkl _
    exact junction_head_lt (ne_nil_append_left (by decide))
      (by rw [getD_append_left (by decide)]; decide) (by decide) k hk0 hkl
  · rw [List.drop_left]
    rw [show (str " class=\"section\" colspan=\"2\">"
        ++ (T ++ str "</th>\n\t\t</tr>"))
      = str " " ++ (str "class=\""
        ++ (str "section\" colspan=\"2\">" ++ (T ++ str "</th>\n\t\t</tr>")))
      from by
        rw [show (str " class=\"section\" colspan=\"2\">")
          = str " " ++ (str "class=\"" ++ str "section\" colspan=\"2\">")
          from by decide]
        simp [List.append_assoc]]
    rw [trySplitsCI_success (by decide) (ipfxCI_append_self _ _) ?_ ?_]
    · apply firstAtCI_intro (by decide)
      intro k hk0 hkl hs
      exact absurd hs (sfx_last_killer (z := ' ') (by decide) (by decide)
        (by decide) (by decide) k hk0 hkl)
    · rw [if_neg (by decide)]
      rw [List.drop_left]
      rw [takeWhile_append_stop (by decide)]
      rw [if_pos ?_]
      swap
      · constructor
        · rw [show ((str "section\" colspan=\"2\">").takeWhile
            (fun c => c ≠ '"')).length = 7 from by decide]
          rw [List.length_append]
          have : 7 < (str "section\" colspan=\"2\">").length := by decide
          omega
        · rw [show (str "section\" colspan=\"2\">").takeWhile
            (fun c => c ≠ '"') = str "section" from by decide]
          decide
      rw [show ((str "section\" colspan=\"2\">").takeWhile
          (fun c => c ≠ '"')).length = 7 from by decide]
      rw [drop_append_of_le (by decide)]
      rw [show (str "section\" colspan=\"2\">").drop (7 + 1)
        = str " " ++ (str "colspan=\"2\"" ++ str ">") from by decide]
      rw [List.append_assoc, List.append_assoc]
      rw [trySplitsCI_success (by decide) (ipfxCI_append_self _ _) ?_ ?_]
      · apply firstAtCI_intro (by decide)
        intro k hk0 hkl hs
        exact absurd hs (sfx_last_killer (z := ' ') (by decide) (by decide)
          (by decide) (by decide) k hk0 hkl)
      · rw [if_neg (by decide)]
        rw [List.drop_left]
        rw [show (str ">" ++ (T ++ str "</th>\n\t\t</tr>"))
          = '>' :: (T ++ str "</th>\n\t\t</tr>") from rfl]
        rw [show (('>' :: (T ++ str "</th>\n\t\t</tr>")).takeWhile
          (fun c => c ≠ '>')) = [] from by
            rw [List.takeWhile_cons]
            simp]
        simp only [List.length_nil, List.drop_zero]
        rw [show (T ++ str "</th>\n\t\t</tr>")
          = T ++ (str "</th>" ++ str "\n\t\t</tr>") from by
            rw [show (str "</th>\n\t\t</tr>") = str "</th>" ++ str "\n\t\t</tr>"
              from by decide]]
        rw [scanCI_first (ipfxCI_append_self _ _) ?_]
        · rfl
        · apply firstAtCI_intro (not_occCI_of_char (x := '<') (by decide)
            (by decide) hT)
          intro k hk0 hkl _
          exact junction_head_lt (ne_nil_append_left (by decide))
            (by rw [getD_append_left (by decide)]; decide) (by decide) k hk0 hkl

/-- Classification of an exporter-written section block. -/
theorem classify_secBlock {T : Str} (hT : '<' ∉ T) :
    classify_tr (secBlock T)
      = some (str "__SECTION__", unescape_html (stripWS T)) := by
  unfold classify_tr
  rw [sec_has_class, if_pos rfl, sec_th_title hT]

theorem cat_sec_false {T : Str} (hTq : '"' ∉ T) :
    has_class_word (str "section") (catBlock T) = false := by
  unfold has_class_word
  rw [trySplitsCI_allfail ?_]
  · rfl
  · intro pre rest heq hip
    have hw : catBlock T
        = str "<tr class=\"cat\">\n\t\t\t<th class=\"category\" colspan=\"2\">"
          ++ (T ++ str "</th>\n\t\t</tr>") := by
      simp [catBlock, List.append_assoc]
    have hrest : rest = (catBlock T).drop pre.length := by
      rw [heq, List.drop_left]
    by_cases hcase : pre.length + 7
        ≤ (str "<tr class=\"cat\">\n\t\t\t<th class=\"category\" colspan=\"2\">").length
    · have hrest2 : rest
          = (str "<tr class=\"cat\">\n\t\t\t<th class=\"category\" colspan=\"2\">").drop
              pre.length ++ (T ++ str "</th>\n\t\t</tr>") := by
        rw [hrest, hw, drop_append_of_le (by omega)]
      have hip2 : ipfxCI (str "class=\"")
          ((str "<tr class=\"cat\">\n\t\t\t<th class=\"category\" colspan=\"2\">").drop
            pre.length) = true := by
        rw [hrest2, ipfxCI_append_long (by
          rw [List.length_drop]
          have h7 : (str "class=\"").length = 7 := by decide
          omega)] at hip
        exact hip
      have hd : ∀ p < (str "<tr class=\"cat\">\n\t\t\t<th class=\"category\" colspan=\"2\">").length,
          ipfxCI (str "class=\"")
            ((str "<tr class=\"cat\">\n\t\t\t<th class=\"category\" colspan=\"2\">").drop p)
            = true → p = 4 ∨ p = 24 := by decide
      have hple : pre.length
          < (str "<tr class=\"cat\">\n\t\t\t<th class=\"category\" colspan=\"2\">").length := by
        have : (0:Nat) < 7 := by omega
        omega
      rcases hd pre.length hple hip2 with hp | hp
      · dsimp only
        have hdrop : rest.drop (str "class=\"").length
            = (str "<tr class=\"cat\">\n\t\t\t<th class=\"category\" colspan=\"2\">").drop 11
              ++ (T ++ str "</th>\n\t\t</tr>") := by
          rw [hrest2, hp, drop_append_of_le (by decide)]
          rw [show ((str "<tr class=\"cat\">\n\t\t\t<th class=\"category\" colspan=\"2\">").drop 4).drop
              (str "class=\"").length
            = (str "<tr class=\"cat\">\n\t\t\t<th class=\"category\" colspan=\"2\">").drop 11
            from by decide]
        rw [hdrop]
        rw [takeWhile_append_stop (by decide)]
        rw [if_neg ?_]
        intro hc
        rw [show ((str "<tr class=\"cat\">\n\t\t\t<th class=\"category\" colspan=\"2\">").drop 11).takeWhile
            (fun c => c ≠ '"') = str "cat" from by decide] at hc
        exact absurd hc.2 (by decide)
      · dsimp only
        have hdrop : rest.drop (str "class=\"").length
            = (str "<tr class=\"cat\">\n\t\t\t<th class=\"category\" colspan=\"2\">").drop 31
              ++ (T ++ str "</th>\n\t\t</tr>") := by
          rw [hrest2, hp, drop_append_of_le (by decide)]
          rw [show ((str "<tr class=\"cat\">\n\t\t\t<th class=\"category\" colspan=\"2\">").drop 24).drop
              (str "class=\"").length
            = (str "<tr class=\"cat\">\n\t\t\t<th class=\"category\" colspan=\"2\">").drop 31
            from by decide]
        rw [hdrop]
        rw [takeWhile_append_stop (by decide)]
        rw [if_neg ?_]
        intro hc
        rw [show ((str "<tr class=\"cat\">\n\t\t\t<th class=\"category\" colspan=\"2\">").drop 31).takeWhile
            (fun c => c ≠ '"') = str "category" from by decide] at hc
        exact absurd hc.2 (by decide)
    · exfalso
      have h6 := ipfxCI_getD hip 6 (by decide) ' '
      rw [show (str "class=\"").getD 6 ' ' = '"' from by decide] at h6
      rw [eqCI_nonalpha_left (by decide)] at h6
      have hlen7 : (str "class=\"").length ≤ rest.length := ipfxCI_length hip
      rw [hrest] at h6
      rw [getD_drop] at h6
      rw [hw] at h6
      have hidx : (str "<tr class=\"cat\">\n\t\t\t<th class=\"category\" colspan=\"2\">").length
          ≤ pre.length + 6 := by
        have h53 : (str "<tr class=\"cat\">\n\t\t\t<th class=\"category\" colspan=\"2\">").length
            = 53 := by decide
        omega
      rw [getD_append_right hidx] at h6
      have hinlen : pre.length + 6
          - (str "<tr class=\"cat\">\n\t\t\t<th class=\"category\" colspan=\"2\">").length
          < (T ++ str "</th>\n\t\t</tr>").length := by
        rw [hrest, hw] at hlen7
        rw [List.length_drop, List.length_append] at hlen7
        have h7 : (str "class=\"").length = 7 := by decide
        rw [h7] at hlen7
        omega
      have hmem : '"' ∈ T ++ str "</th>\n\t\t</tr>" := by
        rw [← h6]
        exact getD_mem hinlen ' '
      rcases List.mem_append.mp hmem with hm | hm
      · exact hTq hm
      · revert hm
        decide

theorem cat_has_class {T : Str} :
    has_class_word (str "cat") (catBlock T) = true := by
  unfold has_class_word
  have hsplit : catBlock T = str "<tr " ++ (str "class=\""
      ++ (str "cat\">\n\t\t\t<th class=\"category\" colspan=\"2\">"
        ++ (T ++ str "</th>\n\t\t</tr>"))) := by
    simp only [catBlock]
    rw [show (str "<tr class=\"cat\">\n\t\t\t<th class=\"category\" colspan=\"2\">")
      = str "<tr " ++ (str "class=\""
        ++ str "cat\">\n\t\t\t<th class=\"category\" colspan=\"2\">")
      from by decide]
    simp [List.append_assoc]
  rw [hsplit]
  rw [trySplitsCI_success (r := ()) (by decide) (ipfxCI_append_self _ _) ?_ ?_]
  · rfl
  · apply firstAtCI_intro (by decide)
    intro k hk0 hkl hs
    exact absurd hs (sfx_last_killer (z := ' ') (by decide) (by decide)
      (by decide) (by decide) k hk0 hkl)
  · rw [List.drop_left]
    rw [takeWhile_append_stop (by decide)]
    rw [if_pos ?_]
    constructor
    · rw [show ((str "cat\">\n\t\t\t<th class=\"category\" colspan=\"2\">").takeWhile
        (fun c => c ≠ '"')).length = 3 from by decide]
      rw [List.length_append]
      have : 3 < (str "cat\">\n\t\t\t<th class=\"category\" colspan=\"2\">").length := by
        decide
      omega
    · rw [show (str "cat\">\n\t\t\t<th class=\"category\" colspan=\"2\">").takeWhile
        (fun c => c ≠ '"') = str "cat" from by decide]
      decide

theorem cat_th_title {T : Str} (hT : '<' ∉ T) :
    match_th_title (str "category") (catBlock T) = some T := by
  unfold match_th_title
  have hsplit : catBlock T = str "<tr class=\"cat\">\n\t\t\t" ++ (str "<th"
      ++ (str " class=\"category\" colspan=\"2\">"
        ++ (T ++ str "</th>\n\t\t</tr>"))) := by
    simp only [catBlock]
    rw [show (str "<tr class=\"cat\">\n\t\t\t<th class=\"category\" colspan=\"2\">")
      = str "<tr class=\"cat\">\n\t\t\t" ++ (str "<th"
        ++ str " class=\"category\" colspan=\"2\">")
      from by decide]
    simp [List.append_assoc]
  rw [hsplit]
  rw [trySplitsCI_success (by decide) (ipfxCI_append_self _ _) ?_ ?_]
  · apply firstAtCI_intro (by decide)
    intro k hk0 hkl _
    exact junction_head_lt (ne_nil_append_left (by decide))
      (by rw [getD_append_left (by decide)]; decide) (by decide) k hk0 hkl
  · rw [List.drop_left]
    rw [show (str " class=\"category\" colspan=\"2\">"
        ++ (T ++ str "</th>\n\t\t</tr>"))
      = str " " ++ (str "class=\""
        ++ (str "category\" colspan=\"2\">" ++ (T ++ str "</th>\n\t\t</tr>")))
      from by
        rw [show (str " class=\"category\" colspan=\"2\">")
          = str " " ++ (str "class=\"" ++ str "category\" colspan=\"2\">")
          from by decide]
        simp [List.append_assoc]]
    rw [trySplitsCI_success (by decide) (ipfxCI_append_self _ _) ?_ ?_]
    · apply firstAtCI_intro (by decide)
      intro k hk0 hkl hs
      exact absurd hs (sfx_last_killer (z := ' ') (by decide) (by decide)
        (by decide) (by decide) k hk0 hkl)
    · rw [if_neg (by decide)]
      rw [List.drop_left]
      rw [takeWhile_append_stop (by decide)]
      rw [if_pos ?_]
      swap
      · constructor
        · rw [show ((str "category\" colspan=\"2\">").takeWhile
            (fun c => c ≠ '"')).length = 8 from by decide]
          rw [List.length_append]
          have : 8 < (str "category\" colspan=\"2\">").length := by decide
          omega
        · rw [show (str "category\" colspan=\"2\">").takeWhile
            (fun c => c ≠ '"') = str "category" from by decide]
          decide
      rw [show ((str "category\" colspan=\"2\">").takeWhile
          (fun c => c ≠ '"')).length = 8 from by decide]
      rw [drop_append_of_le (by decide)]
      rw [show (str "category\" colspan=\"2\">").drop (8 + 1)
        = str " " ++ (str "colspan=\"2\"" ++ str ">") from by decide]
      rw [List.append_assoc, List.append_assoc]
      rw [trySplitsCI_success (by decide) (ipfxCI_append_self _ _) ?_ ?_]
      · apply firstAtCI_intro (by decide)
        intro k hk0 hkl hs
        exact absurd hs (sfx_last_killer (z := ' ') (by decide) (by decide)
          (by decide) (by decide) k hk0 hkl)
      · rw [if_neg (by decide)]
        rw [List.drop_left]
        rw [show (str ">" ++ (T ++ str "</th>\n\t\t</tr>"))
          = '>' :: (T ++ str "</th>\n\t\t</tr>") from rfl]
        rw [show (('>' :: (T ++ str "</th>\n\t\t</tr>")).takeWhile
          (fun c => c ≠ '>')) = [] from by
            rw [List.takeWhile_cons]
            simp]
        simp only [List.length_nil, List.drop_zero]
        rw [show (T ++ str "</th>\n\t\t</tr>")
          = T ++ (str "</th>" ++ str "\n\t\t</tr>") from by
            rw [show (str "</th>\n\t\t</tr>") = str "</th>" ++ str "\n\t\t</tr>"
              from by decide]]
        rw [scanCI_first (ipfxCI_append_self _ _) ?_]
        · rfl
        · apply firstAtCI_intro (not_occCI_of_char (x := '<') (by decide)
            (by decide) hT)
          intro k hk0 hkl _
          exact junction_head_lt (ne_nil_append_left (by decide))
            (by rw [getD_append_left (by decide)]; decide) (by decide) k hk0 hkl

/-- Classification of an exporter-written category block. -/
theorem classify_catBlock {T : Str} (hT : '<' ∉ T) (hTq : '"' ∉ T) :
    classify_tr (catBlock T)
      = some (str "__CAT__", unescape_html (stripWS T)) := by
  unfold classify_tr
  rw [cat_sec_false hTq]
  simp only [Bool.false_eq_true, if_false]
  rw [cat_has_class, if_pos rfl, cat_th_title hT]

theorem tr_step_kv {K V REST : Str} {fuel : Nat} (hK : '<' ∉ K)
    (hV : occCI (str "</tr>") V = false) :
    tr_blocks_aux (fuel + 1) (str "\n\t\t" ++ (kvBlock K V ++ REST))
      = kvBlock K V :: tr_blocks_aux fuel REST := by
  have hd_lt : ∀ k < (str "</tr>").length, 0 < k →
      (str "</tr>").getD k ' ' ≠ '<' := by decide
  have hsplit : str "\n\t\t" ++ (kvBlock K V ++ REST)
      = str "\n\t\t" ++ (str "<tr" ++ (('>' :: (str "\n\t\t\t<th>"
          ++ (K ++ (str "</th>\n\t\t\t<td>" ++ (V ++ str "</td>\n\t\t")))))
        ++ (str "</tr>" ++ REST))) := by
    simp only [kvBlock]
    rw [show (str "<tr>\n\t\t\t<th>") = str "<tr" ++ ('>' :: str "\n\t\t\t<th>")
      from by decide]
    rw [show (str "</td>\n\t\t</tr>") = str "</td>\n\t\t" ++ str "</tr>"
      from by decide]
    simp [List.append_assoc]
  rw [hsplit]
  simp only [tr_blocks_aux]
  have hf1 : FirstAtCI (str "<tr") (str "\n\t\t")
      (str "<tr" ++ (('>' :: (str "\n\t\t\t<th>"
          ++ (K ++ (str "</th>\n\t\t\t<td>" ++ (V ++ str "</td>\n\t\t")))))
        ++ (str "</tr>" ++ REST))) :=
    firstAtCI_of_head_not_mem (by decide) (by decide)
  have hscan1 := scanCI_first (ipfxCI_append_self (str "<tr") _) hf1
  rw [List.take_left, List.drop_left] at hscan1
  rw [hscan1]
  dsimp only
  rw [show (('>' :: (str "\n\t\t\t<th>"
      ++ (K ++ (str "</th>\n\t\t\t<td>" ++ (V ++ str "</td>\n\t\t")))))
      ++ (str "</tr>" ++ REST)).takeWhile (fun c => c ≠ '>') = []
    from by rw [List.cons_append, List.takeWhile_cons]; simp]
  simp only [List.length_nil, List.drop_zero, List.cons_append]
  have hocc : occCI (str "</tr>") (str "\n\t\t\t<th>"
      ++ (K ++ (str "</th>\n\t\t\t<td>" ++ (V ++ str "</td>\n\t\t")))) = false := by
    refine occCI_append_false_sfx (by decide) ?_
      (sfx_last_killer (z := '>') (by decide) (by decide) (by decide)
        (by decide))
    refine occCI_append_false_head (y := '<') (by decide)
      (fun hc => absurd (List.append_eq_nil.mp hc).1 (by decide))
      (by rw [getD_append_left (by decide)]; decide)
      (fun k h0 hk => hd_lt k hk h0)
      (not_occCI_of_char (x := '<') (by decide) (by decide) hK) ?_
    refine occCI_append_false_sfx (by decide) ?_
      (sfx_last_killer (z := '>') (by decide) (by decide) (by decide)
        (by decide))
    exact occCI_append_false_head (y := '<') (by decide) (by decide)
      (by decide) (fun k h0 hk => hd_lt k hk h0) hV (by decide)
  have hf2 : FirstAtCI (str "</tr>") (str "\n\t\t\t<th>"
      ++ (K ++ (str "</th>\n\t\t\t<td>" ++ (V ++ str "</td>\n\t\t"))))
      (str "</tr>" ++ REST) := by
    apply firstAtCI_intro hocc
    intro k hk0 hkl _
    exact junction_head_lt (ne_nil_append_left (by decide))
      (by rw [getD_append_left (by decide)]; decide) (by decide) k hk0 hkl
  have hscan2 := scanCI_first (ipfxCI_append_self (str "</tr>") REST) hf2
  rw [List.take_left, List.drop_left] at hscan2
  rw [hscan2]
  dsimp only
  congr 1
  simp only [kvBlock, List.append_nil, List.nil_append]
  rw [show (str "<tr>\n\t\t\t<th>") = str "<tr" ++ ('>' :: str "\n\t\t\t<th>")
    from by decide]
  rw [show (str "</td>\n\t\t</tr>") = str "</td>\n\t\t" ++ str "</tr>"
    from by decide]
  simp [List.append_assoc]

theorem takeWhile_append_all {p : Char → Bool} {a y : Str}
    (h : ∀ c ∈ a, p c = true) :
    (a ++ y).takeWhile p = a ++ y.takeWhile p := by
  induction a with
  | nil => simp
  | cons c cs ih =>
    rw [List.cons_append, List.takeWhile_cons,
      if_pos (h c (List.mem_cons_self c cs)), List.cons_append,
      ih (fun d hd => h d (List.mem_cons_of_mem c hd))]

theorem tr_step_sec {T REST : Str} {fuel : Nat} (hT : '<' ∉ T) :
    tr_blocks_aux (fuel + 1) (str "\n\t\t" ++ (secBlock T ++ REST))
      = secBlock T :: tr_blocks_aux fuel REST := by
  have hd_lt : ∀ k < (str "</tr>").length, 0 < k →
      (str "</tr>").getD k ' ' ≠ '<' := by decide
  have hsplit : str "\n\t\t" ++ (secBlock T ++ REST)
      = str "\n\t\t" ++ (str "<tr" ++ (str " class=\"section\""
        ++ (('>' :: (str "\n\t\t\t<th class=\"section\" colspan=\"2\">"
          ++ (T ++ str "</th>\n\t\t"))) ++ (str "</tr>" ++ REST)))) := by
    simp only [secBlock]
    rw [show (str "<tr class=\"section\">\n\t\t\t<th class=\"section\" colspan=\"2\">")
      = str "<tr" ++ (str " class=\"section\""
        ++ ('>' :: str "\n\t\t\t<th class=\"section\" colspan=\"2\">"))
      from by decide]
    rw [show (str "</th>\n\t\t</tr>") = str "</th>\n\t\t" ++ str "</tr>"
      from by decide]
    simp [List.append_assoc]
  rw [hsplit]
  simp only [tr_blocks_aux]
  have hf1 : FirstAtCI (str "<tr") (str "\n\t\t")
      (str "<tr" ++ (str " class=\"section\""
        ++ (('>' :: (str "\n\t\t\t<th class=\"section\" colspan=\"2\">"
          ++ (T ++ str "</th>\n\t\t"))) ++ (str "</tr>" ++ REST)))) :=
    firstAtCI_of_head_not_mem (by decide) (by decide)
  have hscan1 := scanCI_first (ipfxCI_append_self (str "<tr") _) hf1
  rw [List.take_left, List.drop_left] at hscan1
  rw [hscan1]
  dsimp only
  rw [takeWhile_append_all (by decide)]
  rw [show ((('>' :: (str "\n\t\t\t<th class=\"section\" colspan=\"2\">"
      ++ (T ++ str "</th>\n\t\t"))) ++ (str "</tr>" ++ REST)).takeWhile
      (fun c => c ≠ '>')) = []
    from by rw [List.cons_append, List.takeWhile_cons]; simp]
  rw [List.append_nil, List.drop_left]
  simp only [List.cons_append]
  have hocc : occCI (str "</tr>")
      (str "\n\t\t\t<th class=\"section\" colspan=\"2\">"
        ++ (T ++ str "</th>\n\t\t")) = false := by
    refine occCI_append_false_sfx (by decide) ?_
      (sfx_last_killer (z := '>') (by decide) (by decide) (by decide)
        (by decide))
    exact occCI_append_false_head (y := '<') (by decide) (by decide)
      (by decide) (fun k h0 hk => hd_lt k hk h0)
      (not_occCI_of_char (x := '<') (by decide) (by decide) hT) (by decide)
  have hf2 : FirstAtCI (str "</tr>")
      (str "\n\t\t\t<th class=\"section\" colspan=\"2\">"
        ++ (T ++ str "</th>\n\t\t")) (str "</tr>" ++ REST) := by
    apply firstAtCI_intro hocc
    intro k hk0 hkl _
    exact junction_head_lt (ne_nil_append_left (by decide))
      (by rw [getD_append_left (by decide)]; decide) (by decide) k hk0 hkl
  have hscan2 := scanCI_first (ipfxCI_append_self (str "</tr>") REST) hf2
  rw [List.take_left, List.drop_left] at hscan2
  rw [hscan2]
  dsimp only
  congr 1
  simp only [secBlock, List.nil_append]
  rw [show (str "<tr class=\"section\">\n\t\t\t<th class=\"section\" colspan=\"2\">")
    = str "<tr" ++ (str " class=\"section\""
      ++ ('>' :: str "\n\t\t\t<th class=\"section\" colspan=\"2\">"))
    from by decide]
  rw [show (str "</th>\n\t\t</tr>") = str "</th>\n\t\t" ++ str "</tr>"
    from by decide]
  simp [List.append_assoc]

theorem tr_step_cat {T REST : Str} {fuel : Nat} (hT : '<' ∉ T) :
    tr_blocks_aux (fuel + 1) (str "\n\t\t" ++ (catBlock T ++ REST))
      = catBlock T :: tr_blocks_aux fuel REST := by
  have hd_lt : ∀ k < (str "</tr>").length, 0 < k →
      (str "</tr>").getD k ' ' ≠ '<' := by decide
  have hsplit : str "\n\t\t" ++ (catBlock T ++ REST)
      = str "\n\t\t" ++ (str "<tr" ++ (str " class=\"cat\""
        ++ (('>' :: (str "\n\t\t\t<th class=\"category\" colspan=\"2\">"
          ++ (T ++ str "</th>\n\t\t"))) ++ (str "</tr>" ++ REST)))) := by
    simp only [catBlock]
    rw [show (str "<tr class=\"cat\">\n\t\t\t<th class=\"category\" colspan=\"2\">")
      = str "<tr" ++ (str " class=\"cat\""
        ++ ('>' :: str "\n\t\t\t<th class=\"category\" colspan=\"2\">"))
      from by decide]
    rw [show (str "</th>\n\t\t</tr>") = str "</th>\n\t\t" ++ str "</tr>"
      from by decide]
    simp [List.append_assoc]
  rw [hsplit]
  simp only [tr_blocks_aux]
  have hf1 : FirstAtCI (str "<tr") (str "\n\t\t")
      (str "<tr" ++ (str " class=\"cat\""
        ++ (('>' :: (str "\n\t\t\t<th class=\"category\" colspan=\"2\">"
          ++ (T ++ str "</th>\n\t\t"))) ++ (str "</tr>" ++ REST)))) :=
    firstAtCI_of_head_not_mem (by decide) (by decide)
  have hscan1 := scanCI_first (ipfxCI_append_self (str "<tr") _) hf1
  rw [List.take_left, List.drop_left] at hscan1
  rw [hscan1]
  dsimp only
  rw [takeWhile_append_all (by decide)]
  rw [show ((('>' :: (str "\n\t\t\t<th class=\"category\" colspan=\"2\">"
      ++ (T ++ str "</th>\n\t\t"))) ++ (str "</tr>" ++ REST)).takeWhile
      (fun c => c ≠ '>')) = []
    from by rw [List.cons_append, List.takeWhile_cons]; simp]
  rw [List.append_nil, List.drop_left]
  simp only [List.cons_append]
  have hocc : occCI (str "</tr>")
      (str "\n\t\t\t<th class=\"category\" colspan=\"2\">"
        ++ (T ++ str "</th>\n\t\t")) = false := by
    refine occCI_append_false_sfx (by decide) ?_
      (sfx_last_killer (z := '>') (by decide) (by decide) (by decide)
        (by decide))
    exact occCI_append_false_head (y := '<') (by decide) (by decide)
      (by decide) (fun k h0 hk => hd_lt k hk h0)
      (not_occCI_of_char (x := '<') (by decide) (by decide) hT) (by decide)
  have hf2 : FirstAtCI (str "</tr>")
      (str "\n\t\t\t<th class=\"category\" colspan=\"2\">"
        ++ (T ++ str "</th>\n\t\t")) (str "</tr>" ++ REST) := by
    apply firstAtCI_intro hocc
    intro k hk0 hkl _
    exact junction_head_lt (ne_nil_append_left (by decide))
      (by rw [getD_append_left (by decide)]; decide) (by decide) k hk0 hkl
  have hscan2 := scanCI_first (ipfxCI_append_self (str "</tr>") REST) hf2
  rw [List.take_left, List.drop_left] at hscan2
  rw [hscan2]
  dsimp only
  congr 1
  simp only [catBlock, List.nil_append]
  rw [show (str "<tr class=\"cat\">\n\t\t\t<th class=\"category\" colspan=\"2\">")
    = str "<tr" ++ (str " class=\"cat\""
      ++ ('>' :: str "\n\t\t\t<th class=\"category\" colspan=\"2\">"))
    from by decide]
  rw [show (str "</th>\n\t\t</tr>") = str "</th>\n\t\t" ++ str "</tr>"
    from by decide]
  simp [List.append_assoc]

/-- Safety of a plain-text label or key: already stripped, and free of the
two characters `_normalize_for_paste` rewrites. -/
def SafeLabel (x : Str) : Prop := stripWS x = x ∧ 'ß' ∉ x ∧ 'ẞ' ∉ x

/-- Safety of a rich-fragment value: stripped, normalization-free, and free
of the markup fragments that would collide with the importer's delimiters. -/
def SafeVal (v : Str) : Prop :=
  stripWS v = v ∧ 'ß' ∉ v ∧ 'ẞ' ∉ v ∧
  occCI (str "</tr>") v = false ∧ occCI (str "</td>") v = false ∧
  occCI (str "class=") v = false ∧ occCI (str "</tbody>") v = false ∧
  occCI (str "<!--") v = false

/-- A snapshot row the round-trip claims cover: a section, category or kv
row with safe texts. -/
def SafeRow : Str × Str × Str → Prop
  | (kind, a, b) =>
    (kind = str "section" ∨ kind = str "cat" ∨ kind = str "kv")
    ∧ SafeLabel a ∧ (kind = str "kv" → SafeVal b)

/-- The `<tr>` block the exporter writes for a row (`none` for a skipped
empty kv row). -/
def rowBlock : Str × Str × Str → Option Str
  | (kind, a, b) =>
    if kind = str "section" then some (secBlock (escape_html a))
    else if kind = str "cat" then some (catBlock (escape_html a))
    else if escape_html a = [] ∧ b = [] then none
    else some (kvBlock (escape_html a) b)

theorem row_lines_sec (a b : Str) :
    row_lines id id (str "section", a, b)
      = [str "\t\t<tr class=\"section\">",
         str "\t\t\t<th class=\"section\" colspan=\"2\">" ++ escape_html a
           ++ str "</th>",
         str "\t\t</tr>"] := by
  simp only [row_lines, id_eq]
  rw [if_pos trivial]

theorem row_lines_cat (a b : Str) :
    row_lines id id (str "cat", a, b)
      = [str "\t\t<tr class=\"cat\">",
         str "\t\t\t<th class=\"category\" colspan=\"2\">" ++ escape_html a
           ++ str "</th>",
         str "\t\t</tr>"] := by
  simp only [row_lines, id_eq]
  rw [if_neg (by decide), if_pos trivial]

theorem row_lines_kv (a b : Str) :
    row_lines id id (str "kv", a, b)
      = if escape_html a = [] ∧ b = [] then ([] : List Str)
        else
          [str "\t\t<tr>",
           str "\t\t\t<th>" ++ escape_html a ++ str "</th>",
           str "\t\t\t<td>" ++ b ++ str "</td>",
           str "\t\t</tr>"] := by
  simp only [row_lines, id_eq]
  rw [if_neg (by decide), if_neg (by decide)]

theorem flatNL_row_sec (a b : Str) :
    flatNL (row_lines id id (str "section", a, b))
      = str "\n\t\t" ++ secBlock (escape_html a) := by
  rw [row_lines_sec]
  simp only [flatNL, List.flatMap_cons, List.flatMap_nil, List.append_nil,
    secBlock]
  rw [show ('\n' :: str "\t\t<tr class=\"section\">")
    = str "\n\t\t" ++ str "<tr class=\"section\">" from by decide]
  rw [show ('\n' :: (str "\t\t\t<th class=\"section\" colspan=\"2\">"
      ++ escape_html a ++ str "</th>"))
    = str "\n\t\t\t<th class=\"section\" colspan=\"2\">"
      ++ escape_html a ++ str "</th>" from by
        rw [show (str "\n\t\t\t<th class=\"section\" colspan=\"2\">")
          = '\n' :: str "\t\t\t<th class=\"section\" colspan=\"2\">"
          from by decide]
        rfl]
  rw [show ('\n' :: str "\t\t</tr>") = str "\n\t\t</tr>" from by decide]
  rw [show (str "<tr class=\"section\">\n\t\t\t<th class=\"section\" colspan=\"2\">")
    = str "<tr class=\"section\">"
      ++ str "\n\t\t\t<th class=\"section\" colspan=\"2\">" from by decide]
  rw [show (str "</th>\n\t\t</tr>") = str "</th>" ++ str "\n\t\t</tr>"
    from by decide]
  simp [List.append_assoc]

theorem flatNL_row_cat (a b : Str) :
    flatNL (row_lines id id (str "cat", a, b))
      = str "\n\t\t" ++ catBlock (escape_html a) := by
  rw [row_lines_cat]
  simp only [flatNL, List.flatMap_cons, List.flatMap_nil, List.append_nil,
    catBlock]
  rw [show ('\n' :: str "\t\t<tr class=\"cat\">")
    = str "\n\t\t" ++ str "<tr class=\"cat\">" from by decide]
  rw [show ('\n' :: (str "\t\t\t<th class=\"category\" colspan=\"2\">"
      ++ escape_html a ++ str "</th>"))
    = str "\n\t\t\t<th class=\"category\" colspan=\"2\">"
      ++ escape_html a ++ str "</th>" from by
        rw [show (str "\n\t\t\t<th class=\"category\" colspan=\"2\">")
          = '\n' :: str "\t\t\t<th class=\"category\" colspan=\"2\">"
          from by decide]
        rfl]
  rw [show ('\n' :: str "\t\t</tr>") = str "\n\t\t</tr>" from by decide]
  rw [show (str "<tr class=\"cat\">\n\t\t\t<th class=\"category\" colspan=\"2\">")
    = str "<tr class=\"cat\">"
      ++ str "\n\t\t\t<th class=\"category\" colspan=\"2\">" from by decide]
  rw [show (str "</th>\n\t\t</tr>") = str "</th>" ++ str "\n\t\t</tr>"
    from by decide]
  simp [List.append_assoc]

theorem flatNL_row_kv {a b : Str} (h : ¬ (escape_html a = [] ∧ b = [])) :
    flatNL (row_lines id id (str "kv", a, b))
      = str "\n\t\t" ++ kvBlock (escape_html a) b := by
  rw [row_lines_kv, if_neg h]
  simp only [flatNL, List.flatMap_cons, List.flatMap_nil, List.append_nil,
    kvBlock]
  rw [show ('\n' :: str "\t\t<tr>") = str "\n\t\t" ++ str "<tr>" from by decide]
  rw [show ('\n' :: (str "\t\t\t<th>" ++ escape_html a ++ str "</th>"))
    = str "\n\t\t\t<th>" ++ escape_html a ++ str "</th>" from by
      rw [show (str "\n\t\t\t<th>") = '\n' :: str "\t\t\t<th>" from by decide]
      rfl]
  rw [show ('\n' :: (str "\t\t\t<td>" ++ b ++ str "</td>"))
    = str "\n\t\t\t<td>" ++ b ++ str "</td>" from by
      rw [show (str "\n\t\t\t<td>") = '\n' :: str "\t\t\t<td>" from by decide]
      rfl]
  rw [show ('\n' :: str "\t\t</tr>") = str "\n\t\t</tr>" from by decide]
  rw [show (str "<tr>\n\t\t\t<th>") = str "<tr>" ++ str "\n\t\t\t<th>"
    from by decide]
  rw [show (str "</th>\n\t\t\t<td>") = str "</th>" ++ str "\n\t\t\t<td>"
    from by decide]
  rw [show (str "</td>\n\t\t</tr>") = str "</td>" ++ str "\n\t\t</tr>"
    from by decide]
  simp [List.append_assoc]

theorem tr_blocks_bodyStr : ∀ (S : List (Str × Str × Str)) (fuel : Nat),
    S.length ≤ fuel → (∀ r ∈ S, SafeRow r) →
    tr_blocks_aux fuel (flatNL (body_lines id id S) ++ str "\n\t")
      = S.filterMap rowBlock := by
  intro S
  induction S with
  | nil =>
    intro fuel _ _
    simp only [body_lines, List.flatMap_nil, flatNL, List.nil_append,
      List.filterMap_nil]
    cases fuel with
    | zero => rfl
    | succ f =>
      simp only [tr_blocks_aux]
      rw [scanCI_none (by decide)]
  | cons r S' ih =>
    intro fuel hfuel hsafe
    obtain ⟨kind, a, b⟩ := r
    have hsr := hsafe (kind, a, b) (List.mem_cons_self _ _)
    obtain ⟨hkind, hlab, hval⟩ := hsr
    have hsafe' : ∀ r ∈ S', SafeRow r :=
      fun r hr => hsafe r (List.mem_cons_of_mem _ hr)
    have hbody : flatNL (body_lines id id ((kind, a, b) :: S')) ++ str "\n\t"
        = flatNL (row_lines id id (kind, a, b))
          ++ (flatNL (body_lines id id S') ++ str "\n\t") := by
      simp only [body_lines, List.flatMap_cons, flatNL_append,
        List.append_assoc]
    rw [hbody]
    have hlt : '<' ∉ escape_html a :=
      escape_not_mem (Or.inl rfl)
    rcases hkind with hk | hk | hk
    · subst hk
      cases fuel with
      | zero => simp at hfuel
      | succ f =>
        rw [flatNL_row_sec, List.append_assoc, tr_step_sec hlt]
        rw [ih f (by simp at hfuel; omega) hsafe']
        rw [show List.filterMap rowBlock ((str "section", a, b) :: S')
          = secBlock (escape_html a) :: List.filterMap rowBlock S' from by
            rw [List.filterMap_cons]
            rw [show rowBlock (str "section", a, b)
              = some (secBlock (escape_html a)) from by
                simp only [rowBlock]
                rw [if_pos trivial]]]
    · subst hk
      cases fuel with
      | zero => simp at hfuel
      | succ f =>
        rw [flatNL_row_cat, List.append_assoc, tr_step_cat hlt]
        rw [ih f (by simp at hfuel; omega) hsafe']
        rw [show List.filterMap rowBlock ((str "cat", a, b) :: S')
          = catBlock (escape_html a) :: List.filterMap rowBlock S' from by
            rw [List.filterMap_cons]
            rw [show rowBlock (str "cat", a, b)
              = some (catBlock (escape_html a)) from by
                simp only [rowBlock]
                rw [if_neg (by decide), if_pos trivial]]]
    · subst hk
      by_cases hskip : escape_html a = [] ∧ b = []
      · rw [row_lines_kv, if_pos hskip]
        rw [show flatNL ([] : List Str) = [] from rfl, List.nil_append]
        rw [ih fuel (by simp at hfuel; omega) hsafe']
        rw [List.filterMap_cons]
        rw [show rowBlock (str "kv", a, b) = none from by
          simp only [rowBlock]
          rw [if_neg (by decide), if_neg (by decide), if_pos hskip]]
      · cases fuel with
        | zero => simp at hfuel
        | succ f =>
          have hV : occCI (str "</tr>") b = false := (hval rfl).2.2.2.1
          rw [flatNL_row_kv hskip, List.append_assoc, tr_step_kv hlt hV]
          rw [ih f (by simp at hfuel; omega) hsafe']
          rw [show List.filterMap rowBlock ((str "kv", a, b) :: S')
            = kvBlock (escape_html a) b :: List.filterMap rowBlock S' from by
              rw [List.filterMap_cons]
              rw [show rowBlock (str "kv", a, b)
                = some (kvBlock (escape_html a) b) from by
                  simp only [rowBlock]
                  rw [if_neg (by decide), if_neg (by decide), if_neg hskip]]]

theorem dropWS_append_lit {a X : Str}
    (h : ((a.dropWhile (fun c => isWS c)).isEmpty) = false) :
    dropWS (a ++ X) = a.dropWhile (fun c => isWS c) ++ X := by
  unfold dropWS
  rw [List.dropWhile_append, if_neg (by rw [h]; exact Bool.noConfusion)]

theorem export_decomp (S : List (Str × Str × Str)) (lh rh : Str) :
    build_table_from_snapshot S lh rh id id
      = SPEC_TABLE_CSS
        ++ (str "\n<table border=\"1\" class=\"specs\">\n\t<thead>\n\t\t<tr>\n\t\t\t<th>"
        ++ (escape_html lh ++ (str "</th>\n\t\t\t<th>"
        ++ (escape_html rh ++ (str "</th>\n\t\t</tr>\n\t</thead>\n\t<tbody>"
        ++ (flatNL (body_lines id id S) ++ str "\n\t</tbody>\n</table>")))))) := by
  simp only [build_table_from_snapshot, build_table_lines, id_eq,
    List.cons_append, List.nil_append]
  rw [joinNL_cons]
  rw [show flatNL (str "<table border=\"1\" class=\"specs\">"
      :: str "\t<thead>" :: str "\t\t<tr>"
      :: (str "\t\t\t<th>" ++ escape_html lh ++ str "</th>")
      :: (str "\t\t\t<th>" ++ escape_html rh ++ str "</th>")
      :: str "\t\t</tr>" :: str "\t</thead>" :: str "\t<tbody>"
      :: (body_lines id id S ++ [str "\t</tbody>", str "</table>"]))
    = ('\n' :: str "<table border=\"1\" class=\"specs\">")
      ++ (('\n' :: str "\t<thead>") ++ (('\n' :: str "\t\t<tr>")
      ++ (('\n' :: (str "\t\t\t<th>" ++ escape_html lh ++ str "</th>"))
      ++ (('\n' :: (str "\t\t\t<th>" ++ escape_html rh ++ str "</th>"))
      ++ (('\n' :: str "\t\t</tr>") ++ (('\n' :: str "\t</thead>")
      ++ (('\n' :: str "\t<tbody>")
      ++ (flatNL (body_lines id id S)
        ++ (('\n' :: str "\t</tbody>") ++ ('\n' :: str "</table>"))))))))))
    from by
      simp only [flatNL, List.flatMap_cons, List.flatMap_append,
        List.flatMap_nil, List.append_nil, List.append_assoc]]
  rw [show ('\n' :: (str "\t\t\t<th>" ++ escape_html lh ++ str "</th>"))
    = str "\n\t\t\t<th>" ++ escape_html lh ++ str "</th>" from by
      rw [show (str "\n\t\t\t<th>") = '\n' :: str "\t\t\t<th>" from by decide]
      rfl]
  rw [show ('\n' :: (str "\t\t\t<th>" ++ escape_html rh ++ str "</th>"))
    = str "\n\t\t\t<th>" ++ escape_html rh ++ str "</th>" from by
      rw [show (str "\n\t\t\t<th>") = '\n' :: str "\t\t\t<th>" from by decide]
      rfl]
  rw [show ('\n' :: str "<table border=\"1\" class=\"specs\">")
    = str "\n<table border=\"1\" class=\"specs\">" from by decide]
  rw [show ('\n' :: str "\t<thead>") = str "\n\t<thead>" from by decide]
  rw [show ('\n' :: str "\t\t<tr>") = str "\n\t\t<tr>" from by decide]
  rw [show ('\n' :: str "\t\t</tr>") = str "\n\t\t</tr>" from by decide]
  rw [show ('\n' :: str "\t</thead>") = str "\n\t</thead>" from by decide]
  rw [show ('\n' :: str "\t<tbody>") = str "\n\t<tbody>" from by decide]
  rw [show ('\n' :: str "\t</tbody>") = str "\n\t</tbody>" from by decide]
  rw [show ('\n' :: str "</table>") = str "\n</table>" from by decide]
  rw [show (str "\n<table border=\"1\" class=\"specs\">\n\t<thead>\n\t\t<tr>\n\t\t\t<th>")
    = str "\n<table border=\"1\" class=\"specs\">" ++ (str "\n\t<thead>"
      ++ (str "\n\t\t<tr>" ++ str "\n\t\t\t<th>")) from by decide]
  rw [show (str "</th>\n\t\t\t<th>") = str "</th>" ++ str "\n\t\t\t<th>"
    from by decide]
  rw [show (str "</th>\n\t\t</tr>\n\t</thead>\n\t<tbody>")
    = str "</th>" ++ (str "\n\t\t</tr>" ++ (str "\n\t</thead>"
      ++ str "\n\t<tbody>")) from by decide]
  rw [show (str "\n\t</tbody>\n</table>") = str "\n\t</tbody>" ++ str "\n</table>"
    from by decide]
  simp [List.append_assoc]

theorem thead_export (S : List (Str × Str × Str)) (lh rh : Str) :
    match_thead (build_table_from_snapshot S lh rh id id)
      = some (escape_html lh, escape_html rh) := by
  have hcontent : build_table_from_snapshot S lh rh id id
      = (SPEC_TABLE_CSS ++ str "\n<table border=\"1\" class=\"specs\">\n\t")
        ++ (str "<thead>" ++ (str "\n\t\t" ++ (str "<tr>"
          ++ (str "\n\t\t\t<th>" ++ (escape_html lh ++ (str "</th>"
          ++ (str "\n\t\t\t<th>" ++ (escape_html rh ++ (str "</th>"
          ++ (str "\n\t\t</tr>\n\t</thead>\n\t<tbody>"
          ++ (flatNL (body_lines id id S)
            ++ str "\n\t</tbody>\n</table>"))))))))))) := by
    rw [export_decomp]
    rw [show (str "\n<table border=\"1\" class=\"specs\">\n\t<thead>\n\t\t<tr>\n\t\t\t<th>")
      = str "\n<table border=\"1\" class=\"specs\">\n\t" ++ (str "<thead>"
        ++ (str "\n\t\t" ++ (str "<tr>" ++ str "\n\t\t\t<th>")))
      from by decide]
    rw [show (str "</th>\n\t\t\t<th>") = str "</th>" ++ str "\n\t\t\t<th>"
      from by decide]
    rw [show (str "</th>\n\t\t</tr>\n\t</thead>\n\t<tbody>")
      = str "</th>" ++ str "\n\t\t</tr>\n\t</thead>\n\t<tbody>"
      from by decide]
    simp [List.append_assoc]
  rw [hcontent]
  unfold match_thead
  have hd_thead : ∀ k < (str "<thead>").length, 0 < k →
      (str "<thead>").getD k ' ' ≠ '<' := by decide
  apply trySplitsCI_success (by decide) (ipfxCI_append_self _ _)
  · apply firstAtCI_intro
    · refine occCI_append_false_sfx css_no_thead (by decide) ?_
      exact sfx_last_killer (z := '>') (by decide) css_ne_nil css_last_gt
        (by decide)
    · intro k hk0 hkl _
      exact junction_head_lt (ne_nil_append_left (by decide))
        (by rw [getD_append_left (by decide)]; decide) hd_thead k hk0 hkl
  · rw [List.drop_left]
    apply trySplitsCI_success (by decide) (ipfxCI_append_self _ _)
      (firstAtCI_of_head_not_mem (by decide) (by decide))
    rw [List.drop_left]
    dsimp only
    rw [dropWS_append_lit (by decide)]
    rw [show ((str "\n\t\t\t<th>").dropWhile (fun c => isWS c)) = str "<th>"
      from by decide]
    rw [if_pos (ipfxCI_append_self _ _)]
    rw [drop_append_of_le (by decide)]
    rw [show (str "<th>").drop 4 = [] from by decide, List.nil_append]
    apply trySplitsCI_success (by decide) (ipfxCI_append_self _ _)
    · apply firstAtCI_intro (not_occCI_of_char (x := '<') (by decide)
        (by decide) (escape_not_mem (Or.inl rfl)))
      intro k hk0 hkl _
      exact junction_head_lt (ne_nil_append_left (by decide))
        (by rw [getD_append_left (by decide)]; decide) (by decide) k hk0 hkl
    · rw [List.drop_left]
      rw [dropWS_append_lit (by decide)]
      rw [show ((str "\n\t\t\t<th>").dropWhile (fun c => isWS c)) = str "<th>"
        from by decide]
      rw [if_pos (ipfxCI_append_self _ _)]
      rw [drop_append_of_le (by decide)]
      rw [show (str "<th>").drop 4 = [] from by decide, List.nil_append]
      apply trySplitsCI_success (by decide) (ipfxCI_append_self _ _)
      · apply firstAtCI_intro (not_occCI_of_char (x := '<') (by decide)
          (by decide) (escape_not_mem (Or.inl rfl)))
        intro k hk0 hkl _
        exact junction_head_lt (ne_nil_append_left (by decide))
          (by rw [getD_append_left (by decide)]; decide) (by decide) k hk0 hkl
      · rw [List.drop_left]
        rw [dropWS_append_lit (by decide)]
        rw [show ((str "\n\t\t</tr>\n\t</thead>\n\t<tbody>").dropWhile
            (fun c => isWS c)) = str "</tr>\n\t</thead>\n\t<tbody>"
          from by decide]
        rw [show (str "</tr>\n\t</thead>\n\t<tbody>")
          = str "</tr>" ++ str "\n\t</thead>\n\t<tbody>" from by decide]
        rw [List.append_assoc]
        rw [if_pos (ipfxCI_append_self _ _)]
        rw [drop_append_of_le (by decide)]
        rw [show (str "</tr>").drop 5 = [] from by decide, List.nil_append]
        rw [if_pos ?_]
        refine occCI_iff.mpr ⟨2, ?_⟩
        rw [drop_append_of_le (by decide)]
        rw [show (str "\n\t</thead>\n\t<tbody>").drop 2
          = str "</thead>" ++ str "\n\t<tbody>" from by decide]
        rw [List.append_assoc]
        exact ipfxCI_append_self _ _


theorem occCI_false_of_short {pat s : Str} (h : s.length < pat.length) :
    occCI pat s = false := by
  by_contra hc
  rw [Bool.not_eq_false, occCI_iff] at hc
  obtain ⟨i, hi⟩ := hc
  have := ipfxCI_length hi
  rw [List.length_drop] at this
  omega

theorem occCI_nil_of_ne {pat : Str} (h : pat ≠ []) : occCI pat [] = false :=
  occCI_false_of_short (List.length_pos.mpr h)

theorem ipfxCI_nil_false {pat : Str} (h : pat ≠ []) : ipfxCI pat [] = false := by
  cases pat with
  | nil => exact absurd rfl h
  | cons q qs => rfl

theorem flatNL_getD_head {xs : List Str} (h : flatNL xs ≠ []) :
    (flatNL xs).getD 0 ' ' = '\n' := by
  cases xs with
  | nil => exact absurd rfl h
  | cons l ls =>
    show ((('\n' :: l) ++ flatNL ls)).getD 0 ' ' = '\n'
    rw [getD_append_left (by simp)]
    rfl

theorem rowStr_sec (a b : Str) :
    flatNL (row_lines id id (str "section", a, b))
      = str "\n\t\t<tr class=\"section\">\n\t\t\t<th class=\"section\" colspan=\"2\">"
        ++ (escape_html a ++ str "</th>\n\t\t</tr>") := by
  rw [flatNL_row_sec]
  simp only [secBlock]
  rw [show (str "\n\t\t<tr class=\"section\">\n\t\t\t<th class=\"section\" colspan=\"2\">")
    = str "\n\t\t" ++ str "<tr class=\"section\">\n\t\t\t<th class=\"section\" colspan=\"2\">"
    from by decide]
  simp [List.append_assoc]

theorem rowStr_cat (a b : Str) :
    flatNL (row_lines id id (str "cat", a, b))
      = str "\n\t\t<tr class=\"cat\">\n\t\t\t<th class=\"category\" colspan=\"2\">"
        ++ (escape_html a ++ str "</th>\n\t\t</tr>") := by
  rw [flatNL_row_cat]
  simp only [catBlock]
  rw [show (str "\n\t\t<tr class=\"cat\">\n\t\t\t<th class=\"category\" colspan=\"2\">")
    = str "\n\t\t" ++ str "<tr class=\"cat\">\n\t\t\t<th class=\"category\" colspan=\"2\">"
    from by decide]
  simp [List.append_assoc]

theorem rowStr_kv {a b : Str} (h : ¬ (escape_html a = [] ∧ b = [])) :
    flatNL (row_lines id id (str "kv", a, b))
      = str "\n\t\t<tr>\n\t\t\t<th>" ++ (escape_html a
          ++ (str "</th>\n\t\t\t<td>" ++ (b ++ str "</td>\n\t\t</tr>"))) := by
  rw [flatNL_row_kv h]
  simp only [kvBlock]
  rw [show (str "\n\t\t<tr>\n\t\t\t<th>")
    = str "\n\t\t" ++ str "<tr>\n\t\t\t<th>" from by decide]
  simp [List.append_assoc]

/-- No occurrence of a `<`-headed pattern in the emitted tbody rows, given
the pattern avoids each concrete row piece and (for kv rows) each value. -/
theorem body_occCI_false {pat : Str} (hne : pat ≠ [])
    (hhd : pat.getD 0 ' ' = '<')
    (hlt2 : ∀ k < pat.length, 0 < k → pat.getD k ' ' ≠ '<')
    (hgt : ∀ k < pat.length, 0 < k → pat.getD (k - 1) ' ' ≠ '>')
    (hnl : ∀ k < pat.length, 0 < k → pat.getD k ' ' ≠ '\n')
    (hq1 : occCI pat (str "\n\t\t<tr class=\"section\">\n\t\t\t<th class=\"section\" colspan=\"2\">") = false)
    (hq2 : occCI pat (str "</th>\n\t\t</tr>") = false)
    (hq3 : occCI pat (str "\n\t\t<tr class=\"cat\">\n\t\t\t<th class=\"category\" colspan=\"2\">") = false)
    (hq4 : occCI pat (str "\n\t\t<tr>\n\t\t\t<th>") = false)
    (hq5 : occCI pat (str "</th>\n\t\t\t<td>") = false)
    (hq6 : occCI pat (str "</td>\n\t\t</tr>") = false) :
    ∀ (S : List (Str × Str × Str)), (∀ r ∈ S, SafeRow r) →
    (∀ r ∈ S, r.1 = str "kv" → occCI pat r.2.2 = false) →
    occCI pat (flatNL (body_lines id id S)) = false := by
  have hwit : ∃ j, j < pat.length ∧ pat.getD j ' ' = '<' :=
    ⟨0, List.length_pos.mpr hne, hhd⟩
  intro S
  induction S with
  | nil =>
    intro _ _
    exact occCI_nil_of_ne hne
  | cons r S' ih =>
    intro hS hv
    obtain ⟨kind, a, b⟩ := r
    obtain ⟨hkind, hlab, hvalr⟩ := hS (kind, a, b) (List.mem_cons_self _ _)
    have hS' : ∀ r ∈ S', SafeRow r := fun r hr => hS r (List.mem_cons_of_mem _ hr)
    have hv' : ∀ r ∈ S', r.1 = str "kv" → occCI pat r.2.2 = false :=
      fun r hr => hv r (List.mem_cons_of_mem _ hr)
    have hrest := ih hS' hv'
    have hjunc : ∀ k, 0 < k → k < pat.length →
        ipfxCI (pat.drop k) (flatNL (body_lines id id S')) = false := by
      intro k hk0 hkl
      cases hfb : flatNL (body_lines id id S') with
      | nil =>
        apply ipfxCI_nil_false
        intro hc
        have := List.length_drop k pat
        rw [hc] at this
        simp at this
        omega
      | cons c cs =>
        rw [← hfb]
        refine junction_false_of_head (by decide) (by rw [hfb]; simp)
          ?_ (fun k' h0' hk' => hnl k' hk' h0') k hk0 hkl
        exact flatNL_getD_head (by rw [hfb]; simp)
    have hbody : flatNL (body_lines id id ((kind, a, b) :: S'))
        = flatNL (row_lines id id (kind, a, b))
          ++ flatNL (body_lines id id S') := by
      simp only [body_lines, List.flatMap_cons, flatNL_append]
    rw [hbody]
    have hKw : occCI pat (escape_html a) = false :=
      not_occCI_of_char (by decide) hwit (escape_not_mem (Or.inl rfl))
    rcases hkind with hk | hk | hk
    · subst hk
      rw [rowStr_sec]
      refine occCI_append_false ?_ hrest (fun k h0 hkl _ => hjunc k h0 hkl)
      refine occCI_append_false_sfx hq1 ?_
        (sfx_last_killer (z := '>') (by decide) (by decide) (by decide)
          (fun k hkl h0 => hgt k hkl h0))
      exact occCI_append_false_head (y := '<') (by decide) (by decide)
        (by decide) (fun k h0 hkl => hlt2 k hkl h0) hKw hq2
    · subst hk
      rw [rowStr_cat]
      refine occCI_append_false ?_ hrest (fun k h0 hkl _ => hjunc k h0 hkl)
      refine occCI_append_false_sfx hq3 ?_
        (sfx_last_killer (z := '>') (by decide) (by decide) (by decide)
          (fun k hkl h0 => hgt k hkl h0))
      exact occCI_append_false_head (y := '<') (by decide) (by decide)
        (by decide) (fun k h0 hkl => hlt2 k hkl h0) hKw hq2
    · subst hk
      by_cases hskip : escape_html a = [] ∧ b = []
      · rw [row_lines_kv, if_pos hskip]
        rw [show flatNL ([] : List Str) = [] from rfl, List.nil_append]
        exact hrest
      · rw [rowStr_kv hskip]
        have hVw : occCI pat b = false :=
          hv (str "kv", a, b) (List.mem_cons_self _ _) rfl
        refine occCI_append_false ?_ hrest (fun k h0 hkl _ => hjunc k h0 hkl)
        refine occCI_append_false_sfx hq4 ?_
          (sfx_last_killer (z := '>') (by decide) (by decide) (by decide)
            (fun k hkl h0 => hgt k hkl h0))
        refine occCI_append_false_head (y := '<') (by decide)
          (fun hc => absurd (List.append_eq_nil.mp hc).1 (by decide))
          (by rw [getD_append_left (by decide)]; decide)
          (fun k h0 hkl => hlt2 k hkl h0) hKw ?_
        refine occCI_append_false_sfx hq5 ?_
          (sfx_last_killer (z := '>') (by decide) (by decide) (by decide)
            (fun k hkl h0 => hgt k hkl h0))
        exact occCI_append_false_head (y := '<') (by decide) (by decide)
          (by decide) (fun k h0 hkl => hlt2 k hkl h0) hVw hq6

theorem ball_flip {n : Nat} {P : Nat → Prop} (h : ∀ k < n, 0 < k → P k) :
    ∀ k, 0 < k → k < n → P k := fun k h0 hk => h k hk h0

theorem safeRow_label {r : Str × Str × Str} (h : SafeRow r) : SafeLabel r.2.1 := by
  obtain ⟨kind, a, b⟩ := r
  exact h.2.1

theorem safeRow_val {r : Str × Str × Str} (h : SafeRow r)
    (hk : r.1 = str "kv") : SafeVal r.2.2 := by
  obtain ⟨kind, a, b⟩ := r
  exact h.2.2 hk

theorem rows_le_bodyLen : ∀ (S : List (Str × Str × Str)),
    (∀ r ∈ S, SafeRow r) →
    (∀ r ∈ S, r.1 = str "kv" → ¬ (escape_html r.2.1 = [] ∧ r.2.2 = [])) →
    S.length ≤ (flatNL (body_lines id id S)).length := by
  intro S
  induction S with
  | nil => intro _ _; simp [body_lines, flatNL]
  | cons r S' ih =>
    intro hS hne
    obtain ⟨kind, a, b⟩ := r
    obtain ⟨hkind, _, _⟩ := hS (kind, a, b) (List.mem_cons_self _ _)
    have hrest := ih (fun r hr => hS r (List.mem_cons_of_mem _ hr))
      (fun r hr => hne r (List.mem_cons_of_mem _ hr))
    have hbody : flatNL (body_lines id id ((kind, a, b) :: S'))
        = flatNL (row_lines id id (kind, a, b))
          ++ flatNL (body_lines id id S') := by
      simp only [body_lines, List.flatMap_cons, flatNL_append]
    rw [hbody, List.length_append, List.length_cons]
    have hrow : 1 ≤ (flatNL (row_lines id id (kind, a, b))).length := by
      rcases hkind with hk | hk | hk
      · subst hk
        rw [rowStr_sec, List.length_append]
        have h1 : 0 < (str "\n\t\t<tr class=\"section\">\n\t\t\t<th class=\"section\" colspan=\"2\">").length := by decide
        omega
      · subst hk
        rw [rowStr_cat, List.length_append]
        have h1 : 0 < (str "\n\t\t<tr class=\"cat\">\n\t\t\t<th class=\"category\" colspan=\"2\">").length := by decide
        omega
      · subst hk
        rw [rowStr_kv (hne (str "kv", a, b) (List.mem_cons_self _ _) rfl),
          List.length_append]
        have h1 : 0 < (str "\n\t\t<tr>\n\t\t\t<th>").length := by decide
        omega
    omega

theorem tbody_export (S : List (Str × Str × Str)) (lh rh : Str)
    (hS : ∀ r ∈ S, SafeRow r) :
    match_tbody (build_table_from_snapshot S lh rh id id)
      = some (flatNL (body_lines id id S) ++ str "\n\t") := by
  have hvb : ∀ r ∈ S, r.1 = str "kv" → occCI (str "</tbody>") r.2.2 = false :=
    fun r hr hk => (safeRow_val (hS r hr) hk).2.2.2.2.2.2.1
  have hbody : occCI (str "</tbody>") (flatNL (body_lines id id S)) = false :=
    body_occCI_false (by decide) (by decide) (by decide) (by decide) (by decide)
      (by decide) (by decide) (by decide) (by decide) (by decide) (by decide)
      S hS hvb
  have hcontent : build_table_from_snapshot S lh rh id id
      = (SPEC_TABLE_CSS
          ++ (str "\n<table border=\"1\" class=\"specs\">\n\t<thead>\n\t\t<tr>\n\t\t\t<th>"
          ++ (escape_html lh ++ (str "</th>\n\t\t\t<th>"
          ++ (escape_html rh ++ str "</th>\n\t\t</tr>\n\t</thead>\n\t")))))
        ++ (str "<tbody>"
          ++ ((flatNL (body_lines id id S) ++ str "\n\t")
            ++ (str "</tbody>" ++ str "\n</table>"))) := by
    rw [export_decomp]
    rw [show (str "</th>\n\t\t</tr>\n\t</thead>\n\t<tbody>")
      = str "</th>\n\t\t</tr>\n\t</thead>\n\t" ++ str "<tbody>" from by decide]
    rw [show (str "\n\t</tbody>\n</table>")
      = str "\n\t" ++ (str "</tbody>" ++ str "\n</table>") from by decide]
    simp [List.append_assoc]
  rw [hcontent]
  unfold match_tbody
  apply trySplitsCI_success (by decide) (ipfxCI_append_self _ _)
  · apply firstAtCI_intro
    · refine occCI_append_false_sfx css_no_tbody ?_
        (sfx_last_killer (z := '>') (by decide) css_ne_nil css_last_gt
          (by decide))
      refine occCI_append_false_sfx (by decide) ?_
        (sfx_last_killer (z := '>') (by decide) (by decide) (by decide)
          (by decide))
      refine occCI_append_false_head (y := '<') (by decide)
        (ne_nil_append_left (by decide))
        (by rw [getD_append_left (by decide)]; decide) (ball_flip (by decide))
        (not_occCI_of_char (by decide) (by decide)
          (escape_not_mem (Or.inl rfl))) ?_
      refine occCI_append_false_sfx (by decide) ?_
        (sfx_last_killer (z := '>') (by decide) (by decide) (by decide)
          (by decide))
      exact occCI_append_false_head (y := '<') (by decide) (by decide)
        (by decide) (ball_flip (by decide))
        (not_occCI_of_char (by decide) (by decide)
          (escape_not_mem (Or.inl rfl))) (by decide)
    · intro k hk0 hkl _
      exact junction_head_lt (ne_nil_append_left (by decide))
        (by rw [getD_append_left (by decide)]; decide) (by decide) k hk0 hkl
  · rw [List.drop_left]
    rw [scanCI_first (ipfxCI_append_self _ _) ?_]
    · rfl
    · apply firstAtCI_intro
      · have hnlp : ∀ k < (str "</tbody>").length, 0 < k →
            (str "</tbody>").getD k ' ' ≠ '\n' := by decide
        refine occCI_append_false hbody (by decide) ?_
        intro k h0 hk _
        exact junction_false_of_head (by decide) (by decide) (by decide)
          (fun k' h0' hk' => hnlp k' hk' h0') k h0 hk
      · intro k hk0 hkl _
        exact junction_head_lt (ne_nil_append_left (by decide))
          (by rw [getD_append_left (by decide)]; decide) (by decide) k hk0 hkl

/-- Generic character exclusion from the emitted tbody rows. -/
theorem body_no_char {c : Char}
    (h1 : c ∉ str "\n\t\t<tr class=\"section\">\n\t\t\t<th class=\"section\" colspan=\"2\">")
    (h2 : c ∉ str "</th>\n\t\t</tr>")
    (h3 : c ∉ str "\n\t\t<tr class=\"cat\">\n\t\t\t<th class=\"category\" colspan=\"2\">")
    (h4 : c ∉ str "\n\t\t<tr>\n\t\t\t<th>")
    (h5 : c ∉ str "</th>\n\t\t\t<td>")
    (h6 : c ∉ str "</td>\n\t\t</tr>") :
    ∀ (S : List (Str × Str × Str)), (∀ r ∈ S, SafeRow r) →
    (∀ r ∈ S, c ∉ escape_html r.2.1 ∧ (r.1 = str "kv" → c ∉ r.2.2)) →
    c ∉ flatNL (body_lines id id S) := by
  intro S
  induction S with
  | nil => intro _ _; simp [body_lines, flatNL]
  | cons r S' ih =>
    intro hS hc
    obtain ⟨kind, a, b⟩ := r
    obtain ⟨hkind, _, _⟩ := hS (kind, a, b) (List.mem_cons_self _ _)
    obtain ⟨hca, hcb⟩ := hc (kind, a, b) (List.mem_cons_self _ _)
    have hrest := ih (fun r hr => hS r (List.mem_cons_of_mem _ hr))
      (fun r hr => hc r (List.mem_cons_of_mem _ hr))
    have hbody : flatNL (body_lines id id ((kind, a, b) :: S'))
        = flatNL (row_lines id id (kind, a, b))
          ++ flatNL (body_lines id id S') := by
      simp only [body_lines, List.flatMap_cons, flatNL_append]
    rw [hbody]
    intro hm
    rcases List.mem_append.mp hm with hm | hm
    · rcases hkind with hk | hk | hk
      · subst hk
        rw [rowStr_sec] at hm
        rcases List.mem_append.mp hm with hm | hm
        · exact h1 hm
        · rcases List.mem_append.mp hm with hm | hm
          · exact hca hm
          · exact h2 hm
      · subst hk
        rw [rowStr_cat] at hm
        rcases List.mem_append.mp hm with hm | hm
        · exact h3 hm
        · rcases List.mem_append.mp hm with hm | hm
          · exact hca hm
          · exact h2 hm
      · subst hk
        by_cases hskip : escape_html a = [] ∧ b = []
        · rw [row_lines_kv, if_pos hskip] at hm
          exact absurd hm (by simp [flatNL])
        · rw [rowStr_kv hskip] at hm
          rcases List.mem_append.mp hm with hm | hm
          · exact h4 hm
          · rcases List.mem_append.mp hm with hm | hm
            · exact hca hm
            · rcases List.mem_append.mp hm with hm | hm
              · exact h5 hm
              · rcases List.mem_append.mp hm with hm | hm
                · exact hcb rfl hm
                · exact h6 hm
    · exact hrest hm

theorem build_no_eszett (S : List (Str × Str × Str)) (lh rh : Str)
    (hS : ∀ r ∈ S, SafeRow r) (hlh : SafeLabel lh) (hrh : SafeLabel rh) :
    'ß' ∉ build_table_from_snapshot S lh rh id id
      ∧ 'ẞ' ∉ build_table_from_snapshot S lh rh id id := by
  have hbodyS : 'ß' ∉ flatNL (body_lines id id S) :=
    body_no_char (by decide) (by decide) (by decide) (by decide) (by decide)
      (by decide) S hS
      (fun r hr => ⟨eszett_not_mem_escape (safeRow_label (hS r hr)).2.1,
        fun hk => (safeRow_val (hS r hr) hk).2.1⟩)
  have hbodyC : 'ẞ' ∉ flatNL (body_lines id id S) :=
    body_no_char (by decide) (by decide) (by decide) (by decide) (by decide)
      (by decide) S hS
      (fun r hr => ⟨eszett_cap_not_mem_escape (safeRow_label (hS r hr)).2.2,
        fun hk => (safeRow_val (hS r hr) hk).2.2.1⟩)
  rw [export_decomp]
  constructor
  · intro hm
    rcases List.mem_append.mp hm with hm | hm
    · exact css_no_eszett hm
    · rcases List.mem_append.mp hm with hm | hm
      · exact absurd hm (by decide)
      · rcases List.mem_append.mp hm with hm | hm
        · exact eszett_not_mem_escape hlh.2.1 hm
        · rcases List.mem_append.mp hm with hm | hm
          · exact absurd hm (by decide)
          · rcases List.mem_append.mp hm with hm | hm
            · exact eszett_not_mem_escape hrh.2.1 hm
            · rcases List.mem_append.mp hm with hm | hm
              · exact absurd hm (by decide)
              · rcases List.mem_append.mp hm with hm | hm
                · exact hbodyS hm
                · exact absurd hm (by decide)
  · intro hm
    rcases List.mem_append.mp hm with hm | hm
    · exact css_no_eszett_cap hm
    · rcases List.mem_append.mp hm with hm | hm
      · exact absurd hm (by decide)
      · rcases List.mem_append.mp hm with hm | hm
        · exact eszett_cap_not_mem_escape hlh.2.2 hm
        · rcases List.mem_append.mp hm with hm | hm
          · exact absurd hm (by decide)
          · rcases List.mem_append.mp hm with hm | hm
            · exact eszett_cap_not_mem_escape hrh.2.2 hm
            · rcases List.mem_append.mp hm with hm | hm
              · exact absurd hm (by decide)
              · rcases List.mem_append.mp hm with hm | hm
                · exact hbodyC hm
                · exact absurd hm (by decide)

theorem export_de_eq_build (S : List (Str × Str × Str)) (lh rh : Str)
    (hS : ∀ r ∈ S, SafeRow r) (hlh : SafeLabel lh) (hrh : SafeLabel rh) :
    export_de S lh rh = build_table_from_snapshot S lh rh id id :=
  normalize_id (build_no_eszett S lh rh hS hlh hrh).1
    (build_no_eszett S lh rh hS hlh hrh).2

theorem build_no_marker (S : List (Str × Str × Str)) (lh rh : Str)
    (hS : ∀ r ∈ S, SafeRow r) :
    occCI (str "<!--") (build_table_from_snapshot S lh rh id id) = false := by
  have hvb : ∀ r ∈ S, r.1 = str "kv" → occCI (str "<!--") r.2.2 = false :=
    fun r hr hk => (safeRow_val (hS r hr) hk).2.2.2.2.2.2.2
  have hbody : occCI (str "<!--") (flatNL (body_lines id id S)) = false :=
    body_occCI_false (by decide) (by decide) (by decide) (by decide) (by decide)
      (by decide) (by decide) (by decide) (by decide) (by decide) (by decide)
      S hS hvb
  rw [export_decomp]
  refine occCI_append_false_sfx css_no_comment ?_
    (sfx_last_killer (z := '>') (by decide) css_ne_nil css_last_gt (by decide))
  refine occCI_append_false_sfx (by decide) ?_
    (sfx_last_killer (z := '>') (by decide) (by decide) (by decide) (by decide))
  refine occCI_append_false_head (y := '<') (by decide)
    (ne_nil_append_left (by decide))
    (by rw [getD_append_left (by decide)]; decide) (ball_flip (by decide))
    (not_occCI_of_char (by decide) (by decide)
      (escape_not_mem (Or.inl rfl))) ?_
  refine occCI_append_false_sfx (by decide) ?_
    (sfx_last_killer (z := '>') (by decide) (by decide) (by decide) (by decide))
  refine occCI_append_false_head (y := '<') (by decide)
    (ne_nil_append_left (by decide))
    (by rw [getD_append_left (by decide)]; decide) (ball_flip (by decide))
    (not_occCI_of_char (by decide) (by decide)
      (escape_not_mem (Or.inl rfl))) ?_
  refine occCI_append_false_sfx (by decide) ?_
    (sfx_last_killer (z := '>') (by decide) (by decide) (by decide) (by decide))
  have hnlp : ∀ k < (str "<!--").length, 0 < k →
      (str "<!--").getD k ' ' ≠ '\n' := by decide
  refine occCI_append_false hbody (by decide) ?_
  intro k h0 hk _
  exact junction_false_of_head (by decide) (by decide) (by decide)
    (fun k' h0' hk' => hnlp k' hk' h0') k h0 hk

theorem marker_none_of_export (S : List (Str × Str × Str)) (lh rh : Str)
    (hS : ∀ r ∈ S, SafeRow r) (hlh : SafeLabel lh) (hrh : SafeLabel rh) :
    find_snapshot_marker (export_de S lh rh) = none := by
  rw [export_de_eq_build S lh rh hS hlh hrh]
  exact trySplitsB_none (occB_false_of_occCI (build_no_marker S lh rh hS))

/-- The key/value pair the fallback parser recovers for a snapshot row
(`none` for a skipped empty kv row): section and category rows come back
under the marker keys `__SECTION__` / `__CAT__`. -/
def rowTag : Str × Str × Str → Option (Str × Str)
  | (kind, a, b) =>
    if kind = str "section" then some (str "__SECTION__", a)
    else if kind = str "cat" then some (str "__CAT__", a)
    else if escape_html a = [] ∧ b = [] then none
    else some (a, b)

theorem classify_blocks : ∀ (S : List (Str × Str × Str)),
    (∀ r ∈ S, SafeRow r) →
    (S.filterMap rowBlock).filterMap classify_tr = S.filterMap rowTag := by
  intro S
  induction S with
  | nil => intro _; rfl
  | cons r S' ih =>
    intro hS
    obtain ⟨kind, a, b⟩ := r
    obtain ⟨hkind, hlab, hval⟩ := hS (kind, a, b) (List.mem_cons_self _ _)
    have hrest := ih (fun r hr => hS r (List.mem_cons_of_mem _ hr))
    rcases hkind with hk | hk | hk
    · subst hk
      rw [show List.filterMap rowBlock ((str "section", a, b) :: S')
          = secBlock (escape_html a) :: List.filterMap rowBlock S' from by
        rw [List.filterMap_cons]
        rw [show rowBlock (str "section", a, b)
          = some (secBlock (escape_html a)) from by
            simp only [rowBlock]
            rw [if_pos trivial]]]
      rw [List.filterMap_cons]
      rw [show classify_tr (secBlock (escape_html a))
          = some (str "__SECTION__", a) from by
        rw [classify_secBlock (escape_not_mem (Or.inl rfl)),
          stripWS_escape hlab.1, unescape_escape]]
      rw [show List.filterMap rowTag ((str "section", a, b) :: S')
          = (str "__SECTION__", a) :: List.filterMap rowTag S' from by
        rw [List.filterMap_cons]
        rw [show rowTag (str "section", a, b)
          = some (str "__SECTION__", a) from by
            simp only [rowTag]
            rw [if_pos trivial]]]
      rw [hrest]
    · subst hk
      rw [show List.filterMap rowBlock ((str "cat", a, b) :: S')
          = catBlock (escape_html a) :: List.filterMap rowBlock S' from by
        rw [List.filterMap_cons]
        rw [show rowBlock (str "cat", a, b)
          = some (catBlock (escape_html a)) from by
            simp only [rowBlock]
            rw [if_neg (by decide), if_pos trivial]]]
      rw [List.filterMap_cons]
      rw [show classify_tr (catBlock (escape_html a))
          = some (str "__CAT__", a) from by
        rw [classify_catBlock (escape_not_mem (Or.inl rfl))
            (escape_not_mem (Or.inr (Or.inr rfl))),
          stripWS_escape hlab.1, unescape_escape]]
      rw [show List.filterMap rowTag ((str "cat", a, b) :: S')
          = (str "__CAT__", a) :: List.filterMap rowTag S' from by
        rw [List.filterMap_cons]
        rw [show rowTag (str "cat", a, b)
          = some (str "__CAT__", a) from by
            simp only [rowTag]
            rw [if_neg (by decide), if_pos trivial]]]
      rw [hrest]
    · subst hk
      by_cases hskip : escape_html a = [] ∧ b = []
      · rw [show List.filterMap rowBlock ((str "kv", a, b) :: S')
            = List.filterMap rowBlock S' from by
          rw [List.filterMap_cons]
          rw [show rowBlock (str "kv", a, b) = none from by
            simp only [rowBlock]
            rw [if_neg (by decide), if_neg (by decide), if_pos hskip]]]
        rw [show List.filterMap rowTag ((str "kv", a, b) :: S')
            = List.filterMap rowTag S' from by
          rw [List.filterMap_cons]
          rw [show rowTag (str "kv", a, b) = none from by
            simp only [rowTag]
            rw [if_neg (by decide), if_neg (by decide), if_pos hskip]]]
        exact hrest
      · rw [show List.filterMap rowBlock ((str "kv", a, b) :: S')
            = kvBlock (escape_html a) b :: List.filterMap rowBlock S' from by
          rw [List.filterMap_cons]
          rw [show rowBlock (str "kv", a, b)
            = some (kvBlock (escape_html a) b) from by
              simp only [rowBlock]
              rw [if_neg (by decide), if_neg (by decide), if_neg hskip]]]
        rw [List.filterMap_cons]
        rw [show classify_tr (kvBlock (escape_html a) b) = some (a, b) from by
          rw [classify_kvBlock (escape_not_mem (Or.inl rfl))
              (escape_not_mem (Or.inr (Or.inr rfl)))
              (hval rfl).2.2.2.2.2.1 (hval rfl).2.2.2.2.1,
            stripWS_escape hlab.1, unescape_escape, (hval rfl).1]]
        rw [show List.filterMap rowTag ((str "kv", a, b) :: S')
            = (a, b) :: List.filterMap rowTag S' from by
          rw [List.filterMap_cons]
          rw [show rowTag (str "kv", a, b) = some (a, b) from by
            simp only [rowTag]
            rw [if_neg (by decide), if_neg (by decide), if_neg hskip]]]
        rw [hrest]

theorem load_cons (vrt : Str → Str) (x : Str × Str) (xs : List (Str × Str)) :
    load_rows_to_snapshot vrt (x :: xs)
      = (if x.1 = str "__SECTION__" then
           (str "section",
             stripWS (if x.2 = [] then str "Neuer Abschnitt" else x.2),
             ([] : Str))
         else if x.1 = str "__CAT__" then
           (str "cat",
             stripWS (if x.2 = [] then str "Neuer Abschnitt" else x.2),
             ([] : Str))
         else (str "kv", stripWS x.1, vrt x.2))
        :: load_rows_to_snapshot vrt xs := rfl

theorem load_parse (vrt : Str → Str) : ∀ (S : List (Str × Str × Str)),
    (∀ r ∈ S, SafeRow r) →
    (∀ r ∈ S, r.1 = str "kv" →
      r.2.1 ≠ str "__SECTION__" ∧ r.2.1 ≠ str "__CAT__") →
    (∀ r ∈ S, r.1 = str "kv" → ¬ (escape_html r.2.1 = [] ∧ r.2.2 = [])) →
    (∀ r ∈ S, r.1 ≠ str "kv" → r.2.2 = []) →
    (∀ r ∈ S, r.1 ≠ str "kv" → r.2.1 ≠ []) →
    (∀ r ∈ S, r.1 = str "kv" → vrt r.2.2 = r.2.2) →
    load_rows_to_snapshot vrt (S.filterMap rowTag) = S := by
  intro S
  induction S with
  | nil => intro _ _ _ _ _ _; rfl
  | cons r S' ih =>
    intro hS hkeys hne hsb hta hvrt
    obtain ⟨kind, a, b⟩ := r
    obtain ⟨hkind, hlab, _⟩ := hS (kind, a, b) (List.mem_cons_self _ _)
    have hrest := ih (fun r hr => hS r (List.mem_cons_of_mem _ hr))
      (fun r hr => hkeys r (List.mem_cons_of_mem _ hr))
      (fun r hr => hne r (List.mem_cons_of_mem _ hr))
      (fun r hr => hsb r (List.mem_cons_of_mem _ hr))
      (fun r hr => hta r (List.mem_cons_of_mem _ hr))
      (fun r hr => hvrt r (List.mem_cons_of_mem _ hr))
    rcases hkind with hk | hk | hk
    · subst hk
      have hb : b = [] := hsb (str "section", a, b)
        (List.mem_cons_self _ _) (show str "section" ≠ str "kv" from by decide)
      have ha : ¬ (a = []) := hta (str "section", a, b)
        (List.mem_cons_self _ _) (show str "section" ≠ str "kv" from by decide)
      subst hb
      rw [show List.filterMap rowTag ((str "section", a, []) :: S')
          = (str "__SECTION__", a) :: List.filterMap rowTag S' from by
        rw [List.filterMap_cons]
        rw [show rowTag (str "section", a, []) = some (str "__SECTION__", a)
          from by
            simp only [rowTag]
            rw [if_pos trivial]]]
      rw [load_cons]
      dsimp only
      rw [if_pos rfl, if_neg ha, hlab.1, hrest]
    · subst hk
      have hb : b = [] := hsb (str "cat", a, b)
        (List.mem_cons_self _ _) (show str "cat" ≠ str "kv" from by decide)
      have ha : ¬ (a = []) := hta (str "cat", a, b)
        (List.mem_cons_self _ _) (show str "cat" ≠ str "kv" from by decide)
      subst hb
      rw [show List.filterMap rowTag ((str "cat", a, []) :: S')
          = (str "__CAT__", a) :: List.filterMap rowTag S' from by
        rw [List.filterMap_cons]
        rw [show rowTag (str "cat", a, []) = some (str "__CAT__", a) from by
          simp only [rowTag]
          rw [if_neg (by decide), if_pos trivial]]]
      rw [load_cons]
      dsimp only
      rw [if_neg (show ¬ (str "__CAT__" = str "__SECTION__") from by decide),
        if_pos rfl, if_neg ha, hlab.1, hrest]
    · subst hk
      have hnr := hne (str "kv", a, b) (List.mem_cons_self _ _) rfl
      have hkr := hkeys (str "kv", a, b) (List.mem_cons_self _ _) rfl
      have hv2 : vrt b = b :=
        hvrt (str "kv", a, b) (List.mem_cons_self _ _) rfl
      rw [show List.filterMap rowTag ((str "kv", a, b) :: S')
          = (a, b) :: List.filterMap rowTag S' from by
        rw [List.filterMap_cons]
        rw [show rowTag (str "kv", a, b) = some (a, b) from by
          simp only [rowTag]
          rw [if_neg (by decide), if_neg (by decide), if_neg hnr]]]
      rw [load_cons]
      dsimp only
      rw [if_neg hkr.1, if_neg hkr.2, hlab.1, hv2, hrest]

theorem parse_export (S : List (Str × Str × Str)) (lh rh : Str)
    (hS : ∀ r ∈ S, SafeRow r) (hlh : SafeLabel lh) (hrh : SafeLabel rh)
    (hne : ∀ r ∈ S, r.1 = str "kv" →
      ¬ (escape_html r.2.1 = [] ∧ r.2.2 = [])) :
    parse_specs_fallback (export_de S lh rh)
      = (lh, rh, S.filterMap rowTag) := by
  rw [export_de_eq_build S lh rh hS hlh hrh]
  unfold parse_specs_fallback
  rw [thead_export S lh rh, tbody_export S lh rh hS]
  dsimp only
  rw [stripWS_escape hlh.1, stripWS_escape hrh.1, unescape_escape,
    unescape_escape]
  unfold tr_blocks
  have hlen : S.length
      ≤ (flatNL (body_lines id id S) ++ str "\n\t").length := by
    rw [List.length_append]
    have h1 := rows_le_bodyLen S hS hne
    omega
  rw [tr_blocks_bodyStr S _ hlen hS]
  rw [classify_blocks S hS]

instance decSafeLabel (x : Str) : Decidable (SafeLabel x) :=
  inferInstanceAs (Decidable (stripWS x = x ∧ 'ß' ∉ x ∧ 'ẞ' ∉ x))

instance decSafeVal (v : Str) : Decidable (SafeVal v) :=
  inferInstanceAs (Decidable (stripWS v = v ∧ 'ß' ∉ v ∧ 'ẞ' ∉ v ∧
    occCI (str "</tr>") v = false ∧ occCI (str "</td>") v = false ∧
    occCI (str "class=") v = false ∧ occCI (str "</tbody>") v = false ∧
    occCI (str "<!--") v = false))

instance decSafeRow : (r : Str × Str × Str) → Decidable (SafeRow r)
  | (kind, a, b) =>
    inferInstanceAs (Decidable
      ((kind = str "section" ∨ kind = str "cat" ∨ kind = str "kv")
        ∧ SafeLabel a ∧ (kind = str "kv" → SafeVal b)))

/-- C1 (counterexample): the current exporter writes no embedded snapshot
comment at all — `_parse_specs_file`'s marker regex finds nothing in the
export of a one-entry document, so the embedded-snapshot path is never
taken on the program's own files. -/
theorem C1_counterexample :
    find_snapshot_marker (export_de
      [(str "kv", str "Brennweite", str "50 mm")]
      DEFAULT_HEADER_LEFT DEFAULT_HEADER_RIGHT) = none :=
  marker_none_of_export _ _ _ (by decide) (by decide) (by decide)

/-- C1 (amended): for a document of safe section/cat/kv rows (safe texts,
no kv row whose key collides with the `__SECTION__`/`__CAT__` markers, no
skipped empty kv row, nonempty section/cat titles — an empty title would be
renamed to `Neuer Abschnitt` by the row constructors — and no stray value
on section/cat rows), and for any Qt value round-trip `vrt` that returns
each of the document's value fragments unchanged, the exported file
carries no snapshot marker, and importing it through the fallback HTML
parser and the row widgets reconstructs exactly the same snapshot rows. -/
theorem C1_roundtrip_fallback (S : List (Str × Str × Str)) (lh rh : Str)
    (vrt : Str → Str)
    (hS : ∀ r ∈ S, SafeRow r) (hlh : SafeLabel lh) (hrh : SafeLabel rh)
    (hne : ∀ r ∈ S, r.1 = str "kv" →
      ¬ (escape_html r.2.1 = [] ∧ r.2.2 = []))
    (hkeys : ∀ r ∈ S, r.1 = str "kv" →
      r.2.1 ≠ str "__SECTION__" ∧ r.2.1 ≠ str "__CAT__")
    (hsb : ∀ r ∈ S, r.1 ≠ str "kv" → r.2.2 = [])
    (hta : ∀ r ∈ S, r.1 ≠ str "kv" → r.2.1 ≠ [])
    (hvrt : ∀ r ∈ S, r.1 = str "kv" → vrt r.2.2 = r.2.2) :
    find_snapshot_marker (export_de S lh rh) = none
    ∧ load_rows_to_snapshot vrt
        (parse_specs_fallback (export_de S lh rh)).2.2 = S := by
  refine ⟨marker_none_of_export S lh rh hS hlh hrh, ?_⟩
  rw [parse_export S lh rh hS hlh hrh hne]
  exact load_parse vrt S hS hkeys hne hsb hta hvrt

theorem C1_roundtrip_fallback_witness :
    find_snapshot_marker (export_de
      [(str "section", str "Allgemein", []),
       (str "cat", str "Objektiv", []),
       (str "kv", str "Brennweite", str "50 mm")]
      DEFAULT_HEADER_LEFT DEFAULT_HEADER_RIGHT) = none
    ∧ load_rows_to_snapshot (fun v => v)
        (parse_specs_fallback (export_de
          [(str "section", str "Allgemein", []),
           (str "cat", str "Objektiv", []),
           (str "kv", str "Brennweite", str "50 mm")]
          DEFAULT_HEADER_LEFT DEFAULT_HEADER_RIGHT)).2.2
      = [(str "section", str "Allgemein", []),
         (str "cat", str "Objektiv", []),
         (str "kv", str "Brennweite", str "50 mm")] :=
  C1_roundtrip_fallback
    [(str "section", str "Allgemein", []),
     (str "cat", str "Objektiv", []),
     (str "kv", str "Brennweite", str "50 mm")]
    DEFAULT_HEADER_LEFT DEFAULT_HEADER_RIGHT (fun v => v)
    (by decide) (by decide) (by decide) (by decide) (by decide) (by decide)
    (by decide) (by decide)

/-- C2 (counterexample): a kv row whose key is the literal marker text
`__SECTION__` survives export (the key is escaped into an ordinary `<th>`
cell), but on import the fallback parser's `__SECTION__` tag collides with
it and reload turns the row into a section row, so the second export is
not byte-identical to the first.  The Qt value round-trip is instantiated
at the identity; it is irrelevant here, as the reloaded document contains
no kv rows. -/
theorem C2_counterexample :
    find_snapshot_marker (export_de
      [(str "kv", str "__SECTION__", str "offen")]
      DEFAULT_HEADER_LEFT DEFAULT_HEADER_RIGHT) = none
    ∧ export_de
        (load_rows_to_snapshot (fun v => v)
          (parse_specs_fallback (export_de
            [(str "kv", str "__SECTION__", str "offen")]
            DEFAULT_HEADER_LEFT DEFAULT_HEADER_RIGHT)).2.2)
        (header_or_default
          (stripWS (header_or_default
            (parse_specs_fallback (export_de
              [(str "kv", str "__SECTION__", str "offen")]
              DEFAULT_HEADER_LEFT DEFAULT_HEADER_RIGHT)).1
            DEFAULT_HEADER_LEFT))
          DEFAULT_HEADER_LEFT)
        (header_or_default
          (stripWS (header_or_default
            (parse_specs_fallback (export_de
              [(str "kv", str "__SECTION__", str "offen")]
              DEFAULT_HEADER_LEFT DEFAULT_HEADER_RIGHT)).2.1
            DEFAULT_HEADER_RIGHT))
          DEFAULT_HEADER_RIGHT)
      ≠ export_de [(str "kv", str "__SECTION__", str "offen")]
          DEFAULT_HEADER_LEFT DEFAULT_HEADER_RIGHT := by
  constructor
  · exact marker_none_of_export _ _ _ (by decide) (by decide) (by decide)
  · rw [parse_export _ _ _ (by decide) (by decide) (by decide) (by decide)]
    dsimp only
    rw [show List.filterMap rowTag [(str "kv", str "__SECTION__", str "offen")]
      = [(str "__SECTION__", str "offen")] from by decide]
    rw [show load_rows_to_snapshot (fun v => v)
        [(str "__SECTION__", str "offen")]
      = [(str "section", str "offen", [])] from by decide]
    rw [show header_or_default
        (stripWS (header_or_default DEFAULT_HEADER_LEFT DEFAULT_HEADER_LEFT))
        DEFAULT_HEADER_LEFT
      = DEFAULT_HEADER_LEFT from by decide]
    rw [show header_or_default
        (stripWS (header_or_default DEFAULT_HEADER_RIGHT DEFAULT_HEADER_RIGHT))
        DEFAULT_HEADER_RIGHT
      = DEFAULT_HEADER_RIGHT from by decide]
    rw [export_de_eq_build _ _ _ (by decide) (by decide) (by decide)]
    rw [export_de_eq_build _ _ _ (by decide) (by decide) (by decide)]
    rw [export_decomp, export_decomp]
    intro heq
    have h2 := List.append_cancel_left heq
    revert h2
    decide

/-- C2 (amended): for safe documents whose kv keys avoid the importer's
`__SECTION__`/`__CAT__` markers, with the C1 side conditions (including
nonempty section/cat titles), nonempty headers, and a Qt value round-trip
`vrt` that returns each of the document's value fragments unchanged,
export → import → export reproduces the first export byte for byte. -/
theorem C2_reexport_identity (S : List (Str × Str × Str)) (lh rh : Str)
    (vrt : Str → Str)
    (hS : ∀ r ∈ S, SafeRow r) (hlh : SafeLabel lh) (hrh : SafeLabel rh)
    (hne : ∀ r ∈ S, r.1 = str "kv" →
      ¬ (escape_html r.2.1 = [] ∧ r.2.2 = []))
    (hkeys : ∀ r ∈ S, r.1 = str "kv" →
      r.2.1 ≠ str "__SECTION__" ∧ r.2.1 ≠ str "__CAT__")
    (hsb : ∀ r ∈ S, r.1 ≠ str "kv" → r.2.2 = [])
    (hta : ∀ r ∈ S, r.1 ≠ str "kv" → r.2.1 ≠ [])
    (hvrt : ∀ r ∈ S, r.1 = str "kv" → vrt r.2.2 = r.2.2)
    (hlh0 : lh ≠ []) (hrh0 : rh ≠ []) :
    export_de
      (load_rows_to_snapshot vrt
        (parse_specs_fallback (export_de S lh rh)).2.2)
      (header_or_default
        (stripWS (header_or_default
          (parse_specs_fallback (export_de S lh rh)).1
          DEFAULT_HEADER_LEFT))
        DEFAULT_HEADER_LEFT)
      (header_or_default
        (stripWS (header_or_default
          (parse_specs_fallback (export_de S lh rh)).2.1
          DEFAULT_HEADER_RIGHT))
        DEFAULT_HEADER_RIGHT)
      = export_de S lh rh := by
  rw [parse_export S lh rh hS hlh hrh hne]
  dsimp only
  rw [load_parse vrt S hS hkeys hne hsb hta hvrt]
  have hL : header_or_default
      (stripWS (header_or_default lh DEFAULT_HEADER_LEFT))
      DEFAULT_HEADER_LEFT = lh := by
    unfold header_or_default
    rw [if_neg hlh0, hlh.1, if_neg hlh0]
  have hR : header_or_default
      (stripWS (header_or_default rh DEFAULT_HEADER_RIGHT))
      DEFAULT_HEADER_RIGHT = rh := by
    unfold header_or_default
    rw [if_neg hrh0, hrh.1, if_neg hrh0]
  rw [hL, hR]

theorem C2_reexport_identity_witness :
    export_de
      (load_rows_to_snapshot (fun v => v)
        (parse_specs_fallback (export_de
          [(str "section", str "Allgemein", []),
           (str "kv", str "ISO", str "100 bis 102400")]
          DEFAULT_HEADER_LEFT DEFAULT_HEADER_RIGHT)).2.2)
      (header_or_default
        (stripWS (header_or_default
          (parse_specs_fallback (export_de
            [(str "section", str "Allgemein", []),
             (str "kv", str "ISO", str "100 bis 102400")]
            DEFAULT_HEADER_LEFT DEFAULT_HEADER_RIGHT)).1
          DEFAULT_HEADER_LEFT))
        DEFAULT_HEADER_LEFT)
      (header_or_default
        (stripWS (header_or_default
          (parse_specs_fallback (export_de
            [(str "section", str "Allgemein", []),
             (str "kv", str "ISO", str "100 bis 102400")]
            DEFAULT_HEADER_LEFT DEFAULT_HEADER_RIGHT)).2.1
          DEFAULT_HEADER_RIGHT))
        DEFAULT_HEADER_RIGHT)
      = export_de
          [(str "section", str "Allgemein", []),
           (str "kv", str "ISO", str "100 bis 102400")]
          DEFAULT_HEADER_LEFT DEFAULT_HEADER_RIGHT :=
  C2_reexport_identity
    [(str "section", str "Allgemein", []),
     (str "kv", str "ISO", str "100 bis 102400")]
    DEFAULT_HEADER_LEFT DEFAULT_HEADER_RIGHT (fun v => v)
    (by decide) (by decide) (by decide) (by decide) (by decide) (by decide)
    (by decide) (by decide) (by decide) (by decide)

/-- C3: the key `A & B <C>` is escaped exactly once into
`A &amp; B &lt;C&gt;`, that text is what lands in the row's `<th>` cell,
and importing the exported file recovers the plain key `A & B <C>`
together with the untouched value fragment. -/
theorem C3_escape_roundtrip (v lh rh : Str) (hv : SafeVal v)
    (hlh : SafeLabel lh) (hrh : SafeLabel rh) :
    escape_html (str "A & B <C>") = str "A &amp; B &lt;C&gt;"
    ∧ row_lines id id (str "kv", str "A & B <C>", v)
        = [str "\t\t<tr>",
           str "\t\t\t<th>" ++ str "A &amp; B &lt;C&gt;" ++ str "</th>",
           str "\t\t\t<td>" ++ v ++ str "</td>",
           str "\t\t</tr>"]
    ∧ (parse_specs_fallback
        (export_de [(str "kv", str "A & B <C>", v)] lh rh)).2.2
      = [(str "A & B <C>", v)] := by
  refine ⟨by decide, ?_, ?_⟩
  · rw [row_lines_kv, if_neg (fun hc => absurd hc.1 (by decide))]
    rw [show escape_html (str "A & B <C>") = str "A &amp; B &lt;C&gt;"
      from by decide]
  · rw [parse_export _ _ _ ?_ hlh hrh ?_]
    · dsimp only
      rw [List.filterMap_cons]
      rw [show rowTag (str "kv", str "A & B <C>", v)
        = some (str "A & B <C>", v) from by
          simp only [rowTag]
          rw [if_neg (by decide), if_neg (by decide),
            if_neg (fun hc => absurd hc.1 (by decide))]]
      rfl
    · intro r hr
      rw [List.mem_singleton] at hr
      subst hr
      exact ⟨Or.inr (Or.inr rfl), by decide, fun _ => hv⟩
    · intro r hr _
      rw [List.mem_singleton] at hr
      subst hr
      exact fun hc => absurd hc.1
        (show ¬ escape_html (str "A & B <C>") = [] from by decide)

theorem C3_escape_roundtrip_witness :
    escape_html (str "A & B <C>") = str "A &amp; B &lt;C&gt;"
    ∧ row_lines id id (str "kv", str "A & B <C>", str "24 MP")
        = [str "\t\t<tr>",
           str "\t\t\t<th>" ++ str "A &amp; B &lt;C&gt;" ++ str "</th>",
           str "\t\t\t<td>" ++ str "24 MP" ++ str "</td>",
           str "\t\t</tr>"]
    ∧ (parse_specs_fallback
        (export_de [(str "kv", str "A & B <C>", str "24 MP")]
          DEFAULT_HEADER_LEFT DEFAULT_HEADER_RIGHT)).2.2
      = [(str "A & B <C>", str "24 MP")] :=
  C3_escape_roundtrip (str "24 MP") DEFAULT_HEADER_LEFT DEFAULT_HEADER_RIGHT
    (by decide) (by decide) (by decide)
